import Mathlib

/-!
# Event-dispatch and closure-lifetime bridge of wxdragon-sys (`cpp/src/event.cpp`)

A shallow embedding of `WxdEventHandler` (the registry of foreign closures bound to
toolkit events) and of the C entry points `wxd_EvtHandler_Bind`, `wxd_EvtHandler_BindWithId`,
`wxd_EvtHandler_Unbind` and `wxd_EvtHandler_UnbindAll`.

Modelling conventions:

* a raw pointer is a natural number, `0` being the null pointer;
* `std::unordered_map` is an association list; the code never relies on the iteration
  order of a map, the model iterates in list order;
* a pointer to a toolkit object that may be null is an `Option` of the object;
* every call that leaves the file (`drop_rust_event_closure_box`, a trampoline call,
  `Connect`/`Bind`/`Disconnect`/`Unbind` on the owner) is recorded, in program order,
  as an `Effect`; each operation returns the effects it emitted;
* a trampoline is foreign code. For runs whose callbacks leave the registry alone it is a
  function of the host's state and the event (`Callbacks`, `DispatchEvent`); where it matters
  that a trampoline can call the entry points on the handler whose event is being delivered,
  it also yields those calls (`LiveCallbacks`, `DispatchEventLive`), which take effect while
  the loop of `DispatchEvent` is running;
* the toolkit's event-type constants and the `switch` table of
  `get_wx_event_type_for_c_enum` (whose enum lives in a header that is not part of the
  sources at hand) are parameters, collected in `WxEnv`.

The second part embeds entry points of `wxd_variant.cpp`, `datetime.cpp`,
`array_string.cpp` and `translations.cpp`. There a `wxString` is its UTF-8 encoding, a
toolkit object is what the entry points observe of it, `(int)` and `(size_t)` conversions
are explicit (`toInt`, `toSizeT`), and the helper `copy_wxstring_to_buffer` of `wxd_utils.h`,
which is not among the sources, is modelled after the header comments of its callers.
-/

namespace Wxd

/-- A raw pointer (`void*`); `0` is `nullptr`. -/
abbrev Ptr := Nat

/-! ## `std::unordered_map` as an association list -/

/-- An unordered map with keys `K` and values `V`. -/
abbrev UMap (K V : Type) := List (K × V)

namespace UMap

variable {K V : Type} [DecidableEq K]

/-- `m.find(k)`: the value stored under `k`, `none` standing for `m.end()`. -/
def find (k : K) : UMap K V → Option V
  | [] => none
  | (k', v) :: m => if k' = k then some v else find k m

/-- `m.erase(it)` for the element with key `k` (also `m.erase(k)`). -/
def erase (k : K) : UMap K V → UMap K V
  | [] => []
  | (k', v) :: m => if k' = k then m else (k', v) :: erase k m

/-- `m[k] = v`: overwrite the element with key `k`, or insert a new one. -/
def assign (k : K) (v : V) : UMap K V → UMap K V
  | [] => [(k, v)]
  | (k', v') :: m => if k' = k then (k, v) :: m else (k', v') :: assign k v m

/-- The keys of the map, in iteration order. -/
def keys (m : UMap K V) : List K := m.map Prod.fst

/-- Representation invariant of a map: no key occurs twice. -/
def WF (m : UMap K V) : Prop := (keys m).Nodup

instance decidableWF (m : UMap K V) : Decidable (WF m) :=
  inferInstanceAs (Decidable (keys m).Nodup)

end UMap

/-! ## Data model -/

/-- `struct RustClosureInfo`. -/
structure RustClosureInfo where
  closure_ptr : Ptr
  rust_trampoline : Ptr
  token : Nat
deriving DecidableEq, Repr

/-- The key of `closureMap`: `std::pair<wxEventType, wxd_Id>`. -/
abbrev EventKey := Int × Int

/-- Which member function was handed to `Connect`/`Disconnect`. -/
inductive EventFunc
  | DispatchCloseEvent
  | DispatchEvent
deriving DecidableEq, Repr

/-- The calls that leave `event.cpp`, as they appear in a run. -/
inductive Effect
  /-- `drop_rust_event_closure_box(closure_ptr)` -/
  | drop (closure_ptr : Ptr)
  /-- `info.rust_trampoline(info.closure_ptr, &event)`, with the event's skip flag when the
  trampoline is entered and when it returns -/
  | call (info : RustClosureInfo) (skippedAtEntry skippedAtExit : Bool)
  /-- `ownerHandler->Connect(eventType, func, nullptr, this)` -/
  | Connect (eventType : Int) (func : EventFunc)
  /-- `ownerHandler->Bind(eventType, &DispatchEvent, this, id, lastId)` -/
  | Bind (eventType : Int) (id lastId : Int)
  /-- `ownerHandler->Disconnect(eventType, func, nullptr, this)` -/
  | Disconnect (eventType : Int) (func : EventFunc)
  /-- `ownerHandler->Unbind(eventType, &DispatchEvent, this, id, lastId)` -/
  | Unbind (eventType : Int) (id lastId : Int)
deriving DecidableEq, Repr

/-- The dynamic class of an event, as far as `wxDynamicCast` in `IsEventVetoed` can see it,
together with the answer of the class's veto accessor. -/
inductive EventClass
  /-- a `wxCloseEvent`; `veto` is `GetVeto()` -/
  | closeEvent (veto : Bool)
  /-- a `wxNotifyEvent` (or a class derived from it); `allowed` is `IsAllowed()` -/
  | notifyEvent (allowed : Bool)
  /-- any other event class -/
  | other
deriving DecidableEq, Repr

/-- What the dispatcher reads and writes of a `wxEvent`. -/
structure wxEvent where
  eventType : Int
  id : Int
  skipped : Bool
  cls : EventClass
deriving DecidableEq, Repr

/-- Constants of the toolkit and of the build that `event.cpp` refers to. -/
structure WxEnv where
  wxID_ANY : Int
  wxEVT_NULL : Int
  wxEVT_DESTROY : Int
  wxEVT_CLOSE_WINDOW : Int
  wxEVT_END_SESSION : Int
  wxEVT_QUERY_END_SESSION : Int
  wxEVT_TREE_BEGIN_LABEL_EDIT : Int
  wxEVT_TREE_END_LABEL_EDIT : Int
  wxEVT_TREE_SEL_CHANGING : Int
  wxEVT_TREE_ITEM_COLLAPSING : Int
  wxEVT_TREE_ITEM_EXPANDING : Int
  wxEVT_TREE_BEGIN_DRAG : Int
  wxEVT_TREE_BEGIN_RDRAG : Int
  wxEVT_TREE_END_DRAG : Int
  wxEVT_LIST_BEGIN_LABEL_EDIT : Int
  wxEVT_LIST_END_LABEL_EDIT : Int
  wxEVT_LIST_DELETE_ITEM : Int
  wxEVT_LIST_BEGIN_DRAG : Int
  wxEVT_LIST_BEGIN_RDRAG : Int
  wxEVT_NOTEBOOK_PAGE_CHANGING : Int
  wxEVT_TREEBOOK_PAGE_CHANGING : Int
  wxEVT_DATAVIEW_ITEM_EDITING_STARTED : Int
  wxEVT_DATAVIEW_ITEM_COLLAPSING : Int
  wxEVT_DATAVIEW_ITEM_EXPANDING : Int
  wxEVT_SPLITTER_SASH_POS_CHANGING : Int
  /-- the build flag `wxdUSE_AUI` -/
  wxdUSE_AUI : Bool
  wxEVT_AUI_PANE_CLOSE : Int
  /-- the `switch` of `get_wx_event_type_for_c_enum`, from `WXDEventTypeCEnum` to the
  toolkit's event type; unsupported values go to `wxEVT_NULL` -/
  get_wx_event_type_for_c_enum : Int → Int

/-- The foreign side: what calling trampoline `rust_trampoline` with `closure_ptr` does to
the host's own state and to the event. Callbacks do not re-enter the registry. -/
abbrev Callbacks (σ : Type) := Ptr → Ptr → σ → wxEvent → σ × wxEvent

/-- The three maps of `class WxdEventHandler`. -/
structure WxdEventHandler where
  closureMap : UMap EventKey (List RustClosureInfo)
  tokenMap : UMap Nat (Int × Int × Ptr)
  wx_bindings_made : UMap EventKey Bool
deriving DecidableEq, Repr

/-- `class WxdHandlerClientData`: owns the handler. -/
structure WxdHandlerClientData where
  handler : Option WxdEventHandler
deriving DecidableEq, Repr

/-- The toolkit's `wxEvtHandler`, reduced to its client-object slot. -/
structure wxEvtHandler where
  clientObject : Option WxdHandlerClientData
deriving DecidableEq, Repr

/-! ## Operations of `WxdEventHandler` -/

/-- `IsVetableEventType`. -/
def IsVetableEventType (env : WxEnv) (eventType : Int) : Bool :=
  if eventType = env.wxEVT_CLOSE_WINDOW ∨ eventType = env.wxEVT_END_SESSION ∨
      eventType = env.wxEVT_QUERY_END_SESSION then true
  else if eventType = env.wxEVT_TREE_BEGIN_LABEL_EDIT ∨
      eventType = env.wxEVT_TREE_END_LABEL_EDIT ∨
      eventType = env.wxEVT_TREE_SEL_CHANGING ∨ eventType = env.wxEVT_TREE_ITEM_COLLAPSING ∨
      eventType = env.wxEVT_TREE_ITEM_EXPANDING ∨ eventType = env.wxEVT_TREE_BEGIN_DRAG ∨
      eventType = env.wxEVT_TREE_BEGIN_RDRAG ∨ eventType = env.wxEVT_TREE_END_DRAG then true
  else if eventType = env.wxEVT_LIST_BEGIN_LABEL_EDIT ∨
      eventType = env.wxEVT_LIST_END_LABEL_EDIT ∨
      eventType = env.wxEVT_LIST_DELETE_ITEM ∨ eventType = env.wxEVT_LIST_BEGIN_DRAG ∨
      eventType = env.wxEVT_LIST_BEGIN_RDRAG then true
  else if eventType = env.wxEVT_NOTEBOOK_PAGE_CHANGING ∨
      eventType = env.wxEVT_TREEBOOK_PAGE_CHANGING then true
  else if eventType = env.wxEVT_DATAVIEW_ITEM_EDITING_STARTED ∨
      eventType = env.wxEVT_DATAVIEW_ITEM_COLLAPSING ∨
      eventType = env.wxEVT_DATAVIEW_ITEM_EXPANDING then true
  else if eventType = env.wxEVT_SPLITTER_SASH_POS_CHANGING then true
  else if env.wxdUSE_AUI = true ∧ eventType = env.wxEVT_AUI_PANE_CLOSE then true
  else false

/-- `IsEventVetoed`. -/
def IsEventVetoed (event : wxEvent) : Bool :=
  match event.cls with
  | .closeEvent veto => veto
  | .notifyEvent allowed => !allowed
  | .other => false

/-- The member function that `BindClosure` and `UnbindClosure` pass to `Connect` and
`Disconnect` for a vetoable event type. -/
def eventFuncFor (env : WxEnv) (eventType : Int) : EventFunc :=
  if eventType = env.wxEVT_CLOSE_WINDOW then .DispatchCloseEvent else .DispatchEvent

/-- `WxdEventHandler::WxdEventHandler`: a handler with empty maps. -/
def WxdEventHandler.new : WxdEventHandler :=
  { closureMap := [], tokenMap := [], wx_bindings_made := [] }

/-- `WxdEventHandler::BindClosure`. -/
def BindClosure (env : WxEnv) (wx_event_type actual_id : Int)
    (rust_trampoline_fn rust_closure_ptr : Ptr) (token : Nat) (h : WxdEventHandler) :
    WxdEventHandler × List Effect :=
  let map_key : EventKey := (wx_event_type, actual_id)
  let new_info : RustClosureInfo :=
    { closure_ptr := rust_closure_ptr, rust_trampoline := rust_trampoline_fn, token := token }
  -- `wx_bindings_made[map_key]` default-inserts `false` for a key that is not there
  let made0 : UMap EventKey Bool :=
    match UMap.find map_key h.wx_bindings_made with
    | some _ => h.wx_bindings_made
    | none => UMap.assign map_key false h.wx_bindings_made
  let first : Bool := !((UMap.find map_key made0).getD false)
  let fx : List Effect :=
    if first then
      (if IsVetableEventType env wx_event_type then
        [Effect.Connect wx_event_type (eventFuncFor env wx_event_type)]
      else [Effect.Bind wx_event_type actual_id actual_id])
    else []
  let made1 := if first then UMap.assign map_key true made0 else made0
  -- `closureMap[map_key].push_back(new_info)`
  let vec := (UMap.find map_key h.closureMap).getD []
  let cm := UMap.assign map_key (vec ++ [new_info]) h.closureMap
  let tm := UMap.assign token (wx_event_type, actual_id, rust_closure_ptr) h.tokenMap
  ({ closureMap := cm, tokenMap := tm, wx_bindings_made := made1 }, fx)

/-- The search loop of `UnbindClosure`: the first element of the vector that carries
`token`, and the vector without it; `none` when the loop ends with `found == false`. -/
def eraseByToken (token : Nat) :
    List RustClosureInfo → Option (RustClosureInfo × List RustClosureInfo)
  | [] => none
  | info :: rest =>
    if info.token = token then some (info, rest)
    else match eraseByToken token rest with
      | some (hit, rest') => some (hit, info :: rest')
      | none => none

/-- The guarded call `if (p) drop_rust_event_closure_box(p)`. -/
def dropIfNonNull (p : Ptr) : List Effect :=
  if p ≠ 0 then [Effect.drop p] else []

/-- `WxdEventHandler::UnbindClosure`: the result, the handler afterwards, the effects. -/
def UnbindClosure (env : WxEnv) (token : Nat) (h : WxdEventHandler) :
    Bool × WxdEventHandler × List Effect :=
  match UMap.find token h.tokenMap with
  | none => (false, h, [])
  | some (event_type, widget_id, _closure_ptr) =>
    let map_key : EventKey := (event_type, widget_id)
    match UMap.find map_key h.closureMap with
    | none => (false, { h with tokenMap := UMap.erase token h.tokenMap }, [])
    | some closure_vec =>
      match eraseByToken token closure_vec with
      | none => (false, h, [])
      | some (hit, closure_vec') =>
        let dropped := dropIfNonNull hit.closure_ptr
        let tm := UMap.erase token h.tokenMap
        if closure_vec' = [] then
          let fx : List Effect :=
            if IsVetableEventType env event_type then
              [Effect.Disconnect event_type (eventFuncFor env event_type)]
            else [Effect.Unbind event_type widget_id widget_id]
          (true,
            { closureMap := UMap.erase map_key h.closureMap,
              tokenMap := tm,
              wx_bindings_made := UMap.erase map_key h.wx_bindings_made },
            dropped ++ fx)
        else
          (true,
            { h with closureMap := UMap.assign map_key closure_vec' h.closureMap,
                     tokenMap := tm },
            dropped)

/-- The second loop of `UnbindAll`, over the copied tokens. -/
def UnbindAllLoop (env : WxEnv) :
    List Nat → WxdEventHandler → Nat × WxdEventHandler × List Effect
  | [], h => (0, h, [])
  | t :: ts, h =>
    let r := UnbindClosure env t h
    let rest := UnbindAllLoop env ts r.2.1
    ((if r.1 then 1 else 0) + rest.1, rest.2.1, r.2.2 ++ rest.2.2)

/-- `WxdEventHandler::UnbindAll`: the number removed, the handler afterwards, the effects. -/
def UnbindAll (env : WxEnv) (h : WxdEventHandler) : Nat × WxdEventHandler × List Effect :=
  UnbindAllLoop env (UMap.keys h.tokenMap) h

/-- The inner loop of the destructor, over one closure vector. -/
def dropAll : List RustClosureInfo → List Effect
  | [] => []
  | info :: rest => dropIfNonNull info.closure_ptr ++ dropAll rest

/-- The outer loop of the destructor, over `closureMap`. -/
def destructorLoop : UMap EventKey (List RustClosureInfo) → List Effect
  | [] => []
  | (_, closure_vector) :: m => dropAll closure_vector ++ destructorLoop m

/-- The destructor `WxdEventHandler::~WxdEventHandler`: the drops it issues. -/
def destructor (h : WxdEventHandler) : List Effect :=
  destructorLoop h.closureMap

/-- One `for (auto const& info : vec)` loop of `DispatchEvent`: whether a callback consumed
the event (the loop was left by `break`), the host state, the event, and the effects. -/
def runHandlers {σ : Type} (cb : Callbacks σ) :
    List RustClosureInfo → σ → wxEvent → Bool × σ × wxEvent × List Effect
  | [], st, event => (false, st, event, [])
  | info :: rest, st, event =>
    if info.closure_ptr ≠ 0 ∧ info.rust_trampoline ≠ 0 then
      let event1 : wxEvent := { event with skipped := true }
      let r := cb info.rust_trampoline info.closure_ptr st event1
      let fx := Effect.call info event1.skipped r.2.skipped
      if r.2.skipped = false then (true, r.1, r.2, [fx])
      else
        let more := runHandlers cb rest r.1 r.2
        (more.1, more.2.1, more.2.2.1, fx :: more.2.2.2)
    else runHandlers cb rest st event

/-- The loop over the vector found under `key`, or nothing when the key is not in the map. -/
def runKey {σ : Type} (cb : Callbacks σ) (h : WxdEventHandler) (key : EventKey) (st : σ)
    (event : wxEvent) : Bool × σ × wxEvent × List Effect :=
  match UMap.find key h.closureMap with
  | some vec => runHandlers cb vec st event
  | none => (false, st, event, [])

/-- The part of `DispatchEvent` before the final event state is set: the id-specific
handlers, then the `wxID_ANY` handlers unless the event is consumed already. -/
def dispatchLoops {σ : Type} (env : WxEnv) (cb : Callbacks σ) (h : WxdEventHandler) (st : σ)
    (event : wxEvent) : Bool × σ × wxEvent × List Effect :=
  let eventType := event.eventType
  let id := event.id
  let r1 := runKey cb h (eventType, id) st event
  if r1.1 = false then
    let r2 := runKey cb h (eventType, env.wxID_ANY) r1.2.1 r1.2.2.1
    (r2.1, r2.2.1, r2.2.2.1, r1.2.2.2 ++ r2.2.2.2)
  else r1

/-- The block "Set final event state" of `DispatchEvent`. -/
def finalSkip (event_consumed : Bool) (event : wxEvent) : wxEvent :=
  if event_consumed then { event with skipped := false }
  else if IsEventVetoed event then { event with skipped := false }
  else { event with skipped := true }

/-- The result of `DispatchEvent`. -/
structure Dispatched (σ : Type) where
  /-- the local `event_consumed` when the loops are over -/
  consumed : Bool
  event : wxEvent
  handler : WxdEventHandler
  host : σ
  effects : List Effect

/-- `WxdEventHandler::DispatchEvent`. -/
def DispatchEvent {σ : Type} (env : WxEnv) (cb : Callbacks σ) (event : wxEvent)
    (h : WxdEventHandler) (st : σ) : Dispatched σ :=
  let eventType := event.eventType
  let r := dispatchLoops env cb h st event
  let event' := finalSkip r.1 r.2.2.1
  if eventType = env.wxEVT_DESTROY then
    let u := UnbindAll env h
    { consumed := r.1, event := event', handler := u.2.1, host := r.2.1,
      effects := r.2.2.2 ++ u.2.2 }
  else
    { consumed := r.1, event := event', handler := h, host := r.2.1, effects := r.2.2.2 }

/-- `WxdEventHandler::DispatchCloseEvent`: `DispatchEvent`, then a check without effect. -/
def DispatchCloseEvent {σ : Type} (env : WxEnv) (cb : Callbacks σ) (event : wxEvent)
    (h : WxdEventHandler) (st : σ) : Dispatched σ :=
  DispatchEvent env cb event h st

/-! ## The C entry points -/

/-- `GetOrCreateEventHandler`: the owner afterwards and the custom handler (`none` for
`nullptr`). -/
def GetOrCreateEventHandler (handler : Option wxEvtHandler) :
    Option wxEvtHandler × Option WxdEventHandler :=
  match handler with
  | none => (none, none)
  | some o =>
    match o.clientObject with
    | none =>
      (some { clientObject := some { handler := some WxdEventHandler.new } },
        some WxdEventHandler.new)
    | some clientData => (some o, clientData.handler)

/-- Store the custom handler back into the client object of its owner. -/
def storeHandler (handler : Option wxEvtHandler) (h : WxdEventHandler) : Option wxEvtHandler :=
  handler.map (fun _ => { clientObject := some { handler := some h } })

/-- `wxd_EvtHandler_Bind`: the owner afterwards and the effects. -/
def wxd_EvtHandler_Bind (env : WxEnv) (handler : Option wxEvtHandler) (eventTypeC : Int)
    (rust_trampoline_fn rust_closure_ptr : Ptr) (token : Nat) :
    Option wxEvtHandler × List Effect :=
  match handler with
  | none => (none, dropIfNonNull rust_closure_ptr)
  | some o =>
    if rust_trampoline_fn = 0 ∨ rust_closure_ptr = 0 then
      (some o, dropIfNonNull rust_closure_ptr)
    else
      match GetOrCreateEventHandler (some o) with
      | (owner, none) => (owner, dropIfNonNull rust_closure_ptr)
      | (owner, some customHandler) =>
        let wx_event_type := env.get_wx_event_type_for_c_enum eventTypeC
        if wx_event_type = env.wxEVT_NULL then (owner, dropIfNonNull rust_closure_ptr)
        else
          let r := BindClosure env wx_event_type env.wxID_ANY rust_trampoline_fn
            rust_closure_ptr token customHandler
          (storeHandler owner r.1, r.2)

/-- `wxd_EvtHandler_BindWithId`: the owner afterwards and the effects. -/
def wxd_EvtHandler_BindWithId (env : WxEnv) (handler : Option wxEvtHandler) (eventTypeC : Int)
    (id : Int) (rust_trampoline_fn rust_closure_ptr : Ptr) (token : Nat) :
    Option wxEvtHandler × List Effect :=
  match handler with
  | none => (none, dropIfNonNull rust_closure_ptr)
  | some o =>
    if rust_trampoline_fn = 0 ∨ rust_closure_ptr = 0 then
      (some o, dropIfNonNull rust_closure_ptr)
    else
      match GetOrCreateEventHandler (some o) with
      | (owner, none) => (owner, dropIfNonNull rust_closure_ptr)
      | (owner, some customHandler) =>
        let wx_event_type := env.get_wx_event_type_for_c_enum eventTypeC
        if wx_event_type = env.wxEVT_NULL then (owner, dropIfNonNull rust_closure_ptr)
        else
          let r := BindClosure env wx_event_type id rust_trampoline_fn rust_closure_ptr token
            customHandler
          (storeHandler owner r.1, r.2)

/-- The custom handler behind a toolkit handler, as `wxd_EvtHandler_Unbind` and
`wxd_EvtHandler_UnbindAll` look it up: `none` for a null handler, a missing client object
or a client object without handler. -/
def existingHandler (handler : Option wxEvtHandler) : Option WxdEventHandler :=
  match handler with
  | none => none
  | some o =>
    match o.clientObject with
    | none => none
    | some clientData => clientData.handler

/-- `wxd_EvtHandler_Unbind`. -/
def wxd_EvtHandler_Unbind (env : WxEnv) (handler : Option wxEvtHandler) (token : Nat) :
    Bool × Option wxEvtHandler × List Effect :=
  match existingHandler handler with
  | none => (false, handler, [])
  | some h =>
    let r := UnbindClosure env token h
    (r.1, storeHandler handler r.2.1, r.2.2)

/-- `wxd_EvtHandler_UnbindAll`. -/
def wxd_EvtHandler_UnbindAll (env : WxEnv) (handler : Option wxEvtHandler) :
    Nat × Option wxEvtHandler × List Effect :=
  match existingHandler handler with
  | none => (0, handler, [])
  | some h =>
    let r := UnbindAll env h
    (r.1, storeHandler handler r.2.1, r.2.2)

/-! ## Runs of one toolkit handler -/

/-- One toolkit handler with everything that happened around it: the handler object, the
state of the host program, and the effects so far, oldest first. -/
structure World (σ : Type) where
  owner : wxEvtHandler
  host : σ
  trace : List Effect

/-- The world before anything was bound: no client object, nothing has happened. -/
def World.init {σ : Type} (st : σ) : World σ :=
  { owner := { clientObject := none }, host := st, trace := [] }

/-- The custom handler of the world's toolkit handler, if there is one. -/
def World.handler {σ : Type} (w : World σ) : Option WxdEventHandler :=
  existingHandler (some w.owner)

/-- The calls that can be made on the handler of a world: the four C entry points, and the
toolkit delivering an event to `DispatchEvent` or `DispatchCloseEvent`. -/
inductive Op
  | Bind (eventTypeC : Int) (rust_trampoline_fn rust_closure_ptr : Ptr) (token : Nat)
  | BindWithId (eventTypeC : Int) (id : Int) (rust_trampoline_fn rust_closure_ptr : Ptr)
      (token : Nat)
  | Unbind (token : Nat)
  | UnbindAll
  | Dispatch (event : wxEvent)
  | DispatchClose (event : wxEvent)
deriving DecidableEq, Repr

/-- Put the outcome of an entry point into the world. -/
def World.commit {σ : Type} (w : World σ) (owner : Option wxEvtHandler) (fx : List Effect) :
    World σ :=
  { w with owner := owner.getD w.owner, trace := w.trace ++ fx }

/-- Put the outcome of a dispatch into the world. -/
def World.commitDispatch {σ : Type} (w : World σ) (d : Dispatched σ) : World σ :=
  { owner := { clientObject := some { handler := some d.handler } }, host := d.host,
    trace := w.trace ++ d.effects }

/-- One call on the (non-null) handler of the world. -/
def step {σ : Type} (env : WxEnv) (cb : Callbacks σ) (w : World σ) : Op → World σ
  | .Bind eventTypeC tramp closure token =>
    let r := wxd_EvtHandler_Bind env (some w.owner) eventTypeC tramp closure token
    w.commit r.1 r.2
  | .BindWithId eventTypeC id tramp closure token =>
    let r := wxd_EvtHandler_BindWithId env (some w.owner) eventTypeC id tramp closure token
    w.commit r.1 r.2
  | .Unbind token =>
    let r := wxd_EvtHandler_Unbind env (some w.owner) token
    w.commit r.2.1 r.2.2
  | .UnbindAll =>
    let r := wxd_EvtHandler_UnbindAll env (some w.owner)
    w.commit r.2.1 r.2.2
  | .Dispatch event =>
    match w.handler with
    | none => w
    | some h => w.commitDispatch (DispatchEvent env cb event h w.host)
  | .DispatchClose event =>
    match w.handler with
    | none => w
    | some h => w.commitDispatch (DispatchCloseEvent env cb event h w.host)

/-- A finite sequence of calls, from left to right. -/
def run {σ : Type} (env : WxEnv) (cb : Callbacks σ) : World σ → List Op → World σ
  | w, [] => w
  | w, op :: ops => run env cb (step env cb w op) ops

/-- Destruction of the toolkit handler: it deletes its client object, whose destructor
deletes the `WxdEventHandler`. -/
def World.destroy {σ : Type} (w : World σ) : World σ :=
  match w.handler with
  | none => { w with owner := { clientObject := none } }
  | some h => { w with owner := { clientObject := none }, trace := w.trace ++ destructor h }

/-- The pointers handed to `drop_rust_event_closure_box` in a trace, in order. -/
def drops : List Effect → List Ptr
  | [] => []
  | Effect.drop p :: fx => p :: drops fx
  | _ :: fx => drops fx

/-- The non-null closure pointer that a call passes to a bind entry point, if any. -/
def Op.closurePassed : Op → List Ptr
  | .Bind _ _ closure _ => if closure ≠ 0 then [closure] else []
  | .BindWithId _ _ _ closure _ => if closure ≠ 0 then [closure] else []
  | _ => []

/-- All non-null closure pointers passed to bind calls in a sequence of calls. -/
def closuresPassed : List Op → List Ptr
  | [] => []
  | op :: ops => op.closurePassed ++ closuresPassed ops

/-- The closure pointers a toolkit handler still holds: those the destructor of its custom
handler would drop. -/
def heldClosures (o : wxEvtHandler) : List Ptr :=
  match existingHandler (some o) with
  | none => []
  | some h => drops (destructor h)

/-- A sample environment: distinct small numbers for the toolkit's constants, and a table
that supports the enum values `1` (a plain event), `2` (close window) and `3` (destroy). -/
def sampleEnv : WxEnv :=
  { wxID_ANY := -1, wxEVT_NULL := 0, wxEVT_DESTROY := 30, wxEVT_CLOSE_WINDOW := 10,
    wxEVT_END_SESSION := 11, wxEVT_QUERY_END_SESSION := 12,
    wxEVT_TREE_BEGIN_LABEL_EDIT := 13, wxEVT_TREE_END_LABEL_EDIT := 14,
    wxEVT_TREE_SEL_CHANGING := 15, wxEVT_TREE_ITEM_COLLAPSING := 16,
    wxEVT_TREE_ITEM_EXPANDING := 17, wxEVT_TREE_BEGIN_DRAG := 18,
    wxEVT_TREE_BEGIN_RDRAG := 19, wxEVT_TREE_END_DRAG := 20,
    wxEVT_LIST_BEGIN_LABEL_EDIT := 21, wxEVT_LIST_END_LABEL_EDIT := 22,
    wxEVT_LIST_DELETE_ITEM := 23, wxEVT_LIST_BEGIN_DRAG := 24, wxEVT_LIST_BEGIN_RDRAG := 25,
    wxEVT_NOTEBOOK_PAGE_CHANGING := 26, wxEVT_TREEBOOK_PAGE_CHANGING := 27,
    wxEVT_DATAVIEW_ITEM_EDITING_STARTED := 28, wxEVT_DATAVIEW_ITEM_COLLAPSING := 29,
    wxEVT_DATAVIEW_ITEM_EXPANDING := 31, wxEVT_SPLITTER_SASH_POS_CHANGING := 32,
    wxdUSE_AUI := true, wxEVT_AUI_PANE_CLOSE := 33,
    get_wx_event_type_for_c_enum := fun c =>
      if c = 1 then 100 else if c = 2 then 10 else if c = 3 then 30 else 0 }

/-- A sample foreign side without state of its own: the closure at address `8` consumes
the event, the closure at address `9` vetoes it, every other closure leaves it skipped. -/
def sampleCallbacks : Callbacks Unit :=
  fun _ closure st event =>
    if closure = 8 then (st, { event with skipped := false })
    else if closure = 9 then
      (st, { event with cls := match event.cls with
                                | .closeEvent _ => .closeEvent true
                                | .notifyEvent _ => .notifyEvent false
                                | .other => .other })
    else (st, event)

/-- The calls made on the owner (`Connect`, `Bind`, `Disconnect`, `Unbind`) in a trace. -/
def toolkitCalls : List Effect → List Effect
  | [] => []
  | Effect.drop _ :: fx => toolkitCalls fx
  | Effect.call _ _ _ :: fx => toolkitCalls fx
  | e :: fx => e :: toolkitCalls fx

/-- The call with which `UnbindClosure` disconnects `(event_type, widget_id)` from the
toolkit. -/
def disconnectCall (env : WxEnv) (event_type widget_id : Int) : Effect :=
  if IsVetableEventType env event_type then
    Effect.Disconnect event_type (eventFuncFor env event_type)
  else Effect.Unbind event_type widget_id widget_id

/-- A sample registry: two callbacks for event type `100` on id `4`, one for the close
event, each under its own token. -/
def sampleHandler : WxdEventHandler :=
  { closureMap :=
      [((100, 4), [{ closure_ptr := 6, rust_trampoline := 5, token := 1 },
                   { closure_ptr := 8, rust_trampoline := 5, token := 2 }]),
       ((10, -1), [{ closure_ptr := 9, rust_trampoline := 5, token := 3 }])],
    tokenMap := [(1, 100, 4, 6), (2, 100, 4, 8), (3, 10, -1, 9)],
    wx_bindings_made := [((100, 4), true), ((10, -1), true)] }

/-! ## Vocabulary of the properties -/

/-- All callback entries of `closureMap`, each with the `(event-type, id)` pair of the vector
that holds it; vector by vector, each vector in its order. -/
def entries : UMap EventKey (List RustClosureInfo) → List (EventKey × RustClosureInfo)
  | [] => []
  | (key, vec) :: m => vec.map (fun info => (key, info)) ++ entries m

/-- What `tokenMap` is meant to hold for a callback entry: under the entry's token, the pair
of the vector holding the entry and the entry's closure pointer. -/
def tokenRecord (e : EventKey × RustClosureInfo) : Nat × (Int × Int × Ptr) :=
  (e.2.token, (e.1.1, e.1.2, e.2.closure_ptr))

/-- The tokens carried by the callback entries registered on a custom handler. -/
def carriedTokens (h : WxdEventHandler) : List Nat :=
  (entries h.closureMap).map (fun e => e.2.token)

/-- The tokens carried by the callback entries registered on a toolkit handler. -/
def registeredTokens (o : wxEvtHandler) : List Nat :=
  match existingHandler (some o) with
  | none => []
  | some h => carriedTokens h

/-- The closure pointers of the callback entries registered on a toolkit handler. -/
def boundClosures (o : wxEvtHandler) : List Ptr :=
  match existingHandler (some o) with
  | none => []
  | some h => (entries h.closureMap).map (fun e => e.2.closure_ptr)

/-- Shape of the registry that every operation keeps, whatever tokens are used: the maps
are maps, no vector in `closureMap` is empty, and `wx_bindings_made` holds `true` for exactly
the pairs of `closureMap`. -/
structure Structural (h : WxdEventHandler) : Prop where
  closureMap_wf : UMap.WF h.closureMap
  tokenMap_wf : UMap.WF h.tokenMap
  nonempty : ∀ kv ∈ h.closureMap, kv.2 ≠ []
  bindings : h.wx_bindings_made = h.closureMap.map (fun kv => (kv.1, true))

/-- The token map and the callback entries correspond one to one: `tokenMap` holds, up to
order, exactly one record per entry. -/
def TokensMatch (h : WxdEventHandler) : Prop :=
  List.Perm h.tokenMap ((entries h.closureMap).map tokenRecord)

/-- No registered entry has a null closure pointer or a null trampoline. -/
def NonNull (h : WxdEventHandler) : Prop :=
  ∀ e ∈ entries h.closureMap, e.2.closure_ptr ≠ 0 ∧ e.2.rust_trampoline ≠ 0

/-- The states of a `WxdEventHandler` that its methods reach from the constructor when every
`BindClosure` is given a token that is not registered at that moment. -/
inductive Reachable (env : WxEnv) : WxdEventHandler → Prop
  | new : Reachable env WxdEventHandler.new
  | BindClosure (h : WxdEventHandler) (wx_event_type actual_id : Int)
      (rust_trampoline_fn rust_closure_ptr : Ptr) (token : Nat) :
      Reachable env h → token ∉ UMap.keys h.tokenMap →
      Reachable env
        (BindClosure env wx_event_type actual_id rust_trampoline_fn rust_closure_ptr token h).1
  | UnbindClosure (h : WxdEventHandler) (token : Nat) :
      Reachable env h → Reachable env (UnbindClosure env token h).2.1
  | UnbindAll (h : WxdEventHandler) :
      Reachable env h → Reachable env (UnbindAll env h).2.1
  | DispatchEvent (h : WxdEventHandler) (σ : Type) (cb : Callbacks σ) (event : wxEvent)
      (st : σ) :
      Reachable env h → Reachable env (DispatchEvent env cb event h st).handler

/-- The tokens that are registered on a toolkit handler: the keys of the `tokenMap` of its
custom handler. -/
def tokenKeys (o : wxEvtHandler) : List Nat :=
  match existingHandler (some o) with
  | none => []
  | some h => UMap.keys h.tokenMap

/-- A call uses a fresh token: if it is a bind call, its token is not registered on the
handler of the world. -/
def Op.tokenFresh {σ : Type} (w : World σ) : Op → Prop
  | .Bind _ _ _ token => token ∉ tokenKeys w.owner
  | .BindWithId _ _ _ _ token => token ∉ tokenKeys w.owner
  | _ => True

instance Op.decidableTokenFresh {σ : Type} (w : World σ) :
    (op : Op) → Decidable (op.tokenFresh w)
  | .Bind _ _ _ token => inferInstanceAs (Decidable (token ∉ tokenKeys w.owner))
  | .BindWithId _ _ _ _ token => inferInstanceAs (Decidable (token ∉ tokenKeys w.owner))
  | .Unbind _ => isTrue trivial
  | .UnbindAll => isTrue trivial
  | .Dispatch _ => isTrue trivial
  | .DispatchClose _ => isTrue trivial

/-- Every bind call of the sequence uses a token that is not registered at that moment. -/
def FreshRun {σ : Type} (env : WxEnv) (cb : Callbacks σ) : World σ → List Op → Prop
  | _, [] => True
  | w, op :: ops => op.tokenFresh w ∧ FreshRun env cb (step env cb w op) ops

instance FreshRun.decidable {σ : Type} (env : WxEnv) (cb : Callbacks σ) :
    (w : World σ) → (ops : List Op) → Decidable (FreshRun env cb w ops)
  | _, [] => isTrue trivial
  | w, op :: ops =>
    @instDecidableAnd _ _ (Op.decidableTokenFresh w op)
      (FreshRun.decidable env cb (step env cb w op) ops)

/-- The dynamic event table of the owner under one more call: `Connect` and `Bind` add an
entry, `Disconnect` and `Unbind` remove one entry made with the same event type, id range
and function; other effects do not touch the table. -/
def applyToolkit (table : List Effect) : Effect → List Effect
  | .Connect eventType func => table ++ [.Connect eventType func]
  | .Bind eventType id lastId => table ++ [.Bind eventType id lastId]
  | .Disconnect eventType func => table.erase (.Connect eventType func)
  | .Unbind eventType id lastId => table.erase (.Bind eventType id lastId)
  | _ => table

/-- The toolkit connections that are live after a trace: the dynamic event table of the
owner, which is empty before the first call. -/
def eventTable (trace : List Effect) : List Effect :=
  trace.foldl applyToolkit []

/-- The call with which `BindClosure` connects `(wx_event_type, actual_id)` to the
toolkit. -/
def connectCall (env : WxEnv) (wx_event_type actual_id : Int) : Effect :=
  if IsVetableEventType env wx_event_type then
    Effect.Connect wx_event_type (eventFuncFor env wx_event_type)
  else Effect.Bind wx_event_type actual_id actual_id

/-- Whether an effect is a drop of a closure. -/
def Effect.isDrop : Effect → Bool
  | .drop _ => true
  | _ => false

/-- The toolkit connections a registry accounts for: one per pair of `closureMap`. -/
def expectedConnections (env : WxEnv) (h : WxdEventHandler) : List Effect :=
  (UMap.keys h.closureMap).map (fun key => connectCall env key.1 key.2)

/-- What holds of a toolkit handler and the trace of its world after a run with fresh
tokens: the custom handler, if there is one, is in a reachable state without null entries,
and the owner's event table holds exactly the connections the registry accounts for. -/
def OwnerInv (env : WxEnv) (o : wxEvtHandler) (trace : List Effect) : Prop :=
  match existingHandler (some o) with
  | none => eventTable trace = []
  | some h =>
    Reachable env h ∧ NonNull h ∧ List.Perm (eventTable trace) (expectedConnections env h)

/-- The invariant of a world: `OwnerInv` of its toolkit handler and its trace. -/
def WorldInv {σ : Type} (env : WxEnv) (w : World σ) : Prop :=
  OwnerInv env w.owner w.trace

/-- A registry reached by two binds and one unbind, all through the methods. -/
def sampleReached : WxdEventHandler :=
  (UnbindClosure sampleEnv 1
    (BindClosure sampleEnv 100 (-1) 5 8 2
      (BindClosure sampleEnv 100 4 5 6 1 WxdEventHandler.new).1).1).2.1

/-- A sequence of calls with fresh tokens: three accepted binds, a rejected one, an unbind
and a delivery. -/
def sampleOps : List Op :=
  [.Bind 1 5 6 1, .BindWithId 1 4 5 8 2, .BindWithId 2 4 5 9 3, .Bind 7 5 12 4, .Unbind 1,
   .Dispatch { eventType := 100, id := 4, skipped := true, cls := .other }]

/-- An invocation of a callback during a dispatch: the entry invoked, the event's skip flag
when the trampoline is entered and when it returns. -/
abbrev Invocation := RustClosureInfo × Bool × Bool

/-- The trampoline calls of a trace, in order. -/
def invocations : List Effect → List Invocation
  | [] => []
  | Effect.call info skippedAtEntry skippedAtExit :: fx =>
    (info, skippedAtEntry, skippedAtExit) :: invocations fx
  | _ :: fx => invocations fx

/-- An entry that `DispatchEvent` can call: neither its closure pointer nor its trampoline
is null. The C entry points register no other entries. -/
def RustClosureInfo.callable (info : RustClosureInfo) : Bool :=
  decide (info.closure_ptr ≠ 0 ∧ info.rust_trampoline ≠ 0)

/-- The vector registered for a pair, empty when the pair is not in `closureMap`. -/
def registeredFor (h : WxdEventHandler) (key : EventKey) : List RustClosureInfo :=
  (UMap.find key h.closureMap).getD []

/-- The `closureMap` behind a toolkit handler pointer; empty when there is no custom
handler. -/
def closureMapOf (handler : Option wxEvtHandler) : UMap EventKey (List RustClosureInfo) :=
  match existingHandler handler with
  | none => []
  | some h => h.closureMap

/-- The `tokenMap` behind a toolkit handler pointer; empty when there is no custom handler. -/
def tokenMapOf (handler : Option wxEvtHandler) : UMap Nat (Int × Int × Ptr) :=
  match existingHandler handler with
  | none => []
  | some h => h.tokenMap

/-- A `wxString`, represented by its UTF-8 encoding: the bytes that `ToUTF8()` yields, without
the terminating NUL. -/
abbrev wxString := List Nat

/-- A `const char*` argument: `none` for a null pointer, otherwise the bytes before the
terminating NUL. -/
abbrev CStr := Option (List Nat)

/-- A `char*` buffer argument: `none` for a null pointer, otherwise the bytes of the memory
it points to. -/
abbrev CharBuf := Option (List Nat)

/-- The conversion `(int)` of an integer that may not fit: the value modulo `2^32`, read as a
signed 32-bit number (what the mainstream compilers do, and what C++20 prescribes). -/
def toInt (n : Int) : Int := (n + 2147483648) % 4294967296 - 2147483648

/-- The conversion `(size_t)` of an `int`, for a 64-bit `size_t`. -/
def toSizeT (n : Int) : Nat := (n % 18446744073709551616).toNat

/-- `INT32_MIN`. -/
def INT32_MIN : Int := -2147483648

/-- `INT32_MAX`. -/
def INT32_MAX : Int := 2147483647

/-- Memory after `bytes` have been written at its start. -/
def writeAtStart (mem bytes : List Nat) : List Nat := bytes ++ mem.drop bytes.length

/-- Modelled from the spec: `wxd_cpp_utils::copy_wxstring_to_buffer`, which is defined in
`wxd_utils.h` and is not among the sources at hand. The headers of its callers describe it: it
returns the required UTF-8 byte length of the string, excluding the NUL, whatever the buffer
is; when the buffer is non-null and its length is positive it copies up to length - 1 bytes
and NUL-terminates; when the buffer is null or its length is 0 it copies nothing. -/
def copy_wxstring_to_buffer (s : wxString) (buffer : CharBuf) (buffer_len : Nat) :
    Nat × CharBuf :=
  match buffer with
  | none => (s.length, none)
  | some mem =>
    if buffer_len > 0 then (s.length, some (writeAtStart mem (s.take (buffer_len - 1) ++ [0])))
    else (s.length, some mem)

/-! ## `wxd_variant.cpp` -/

/-- The toolkit's `wxVariant`, as far as the getters observe it: what its conversions
return. -/
structure wxVariant where
  /-- `Convert(long*)`: the converted value, `none` when the conversion returns false -/
  convertLong : Option Int
  /-- `Convert(wxString*)`: the converted string, `none` when the conversion returns false -/
  convertString : Option wxString
deriving DecidableEq, Repr

/-- The decimal digits of a natural number, as bytes. -/
def decimalDigits (n : Nat) : List Nat :=
  (Nat.toDigits 10 n).map Char.toNat

/-- The variant after `*v = static_cast<long>(value)`: a variant of type long, which converts
to that long and to its decimal representation. -/
def wxVariant.ofLong (value : Int) : wxVariant :=
  { convertLong := some value,
    convertString := some (if value < 0 then 45 :: decimalDigits value.natAbs
                           else decimalDigits value.natAbs) }

/-- `wxd_Variant_SetInt32`: the variant afterwards. -/
def wxd_Variant_SetInt32 (variant : Option wxVariant) (value : Int) : Option wxVariant :=
  match variant with
  | none => none
  | some _ => some (wxVariant.ofLong value)

/-- `wxd_Variant_GetInt32`: the result and the cell `*out_value` afterwards (`none` for a null
`out_value`). -/
def wxd_Variant_GetInt32 (variant : Option wxVariant) (out_value : Option Int) :
    Bool × Option Int :=
  match variant, out_value with
  | some v, some cur =>
    match v.convertLong with
    | none => (false, some cur)
    | some lv =>
      if lv < INT32_MIN ∨ lv > INT32_MAX then (false, some cur)
      else (true, some (toInt lv))
  | _, _ => (false, out_value)

/-- `wxd_Variant_GetString_Utf8`: the result and the buffer afterwards. -/
def wxd_Variant_GetString_Utf8 (variant : Option wxVariant) (out : CharBuf) (out_len : Nat) :
    Int × CharBuf :=
  match variant with
  | none => (-1, out)
  | some v =>
    match v.convertString with
    | none =>
      (-1, match out with
           | some mem => if out_len > 0 then some (writeAtStart mem [0]) else some mem
           | none => none)
    | some s =>
      let r := copy_wxstring_to_buffer s out out_len
      (toInt r.1, r.2)

/-! ## `datetime.cpp` -/

/-- The toolkit's `wxDateTime::GetNumberOfDays(month, year)` for a 0-based month, in the
Gregorian calendar. -/
def GetNumberOfDays (month : Nat) (year : Int) : Nat :=
  if month = 1 then
    (if year % 4 = 0 ∧ (year % 100 ≠ 0 ∨ year % 400 = 0) then 29 else 28)
  else if month = 3 ∨ month = 5 ∨ month = 8 ∨ month = 10 then 30
  else 31

/-- The requirement of the toolkit's `wxDateTime::Set` on its arguments, as the claim lists
it: a day of the given month, and a time of the day. When it fails the constructed
`wxDateTime` is invalid. -/
def satisfiesSet (year : Int) (month : Nat) (day hour minute second : Int) : Bool :=
  decide (0 < day ∧ day ≤ GetNumberOfDays month year ∧ 0 ≤ hour ∧ hour < 24 ∧
    0 ≤ minute ∧ minute < 60 ∧ 0 ≤ second ∧ second < 60)

/-- The parameter check at the head of `wxd_DateTime_FromComponents`: true when the function
returns `nullptr` at once. -/
def rejectsParameters (year : Int) (month : Nat) (day hour minute second : Int) : Bool :=
  decide (year ≤ 0 ∨ month ≥ 12 ∨ day ≤ 0 ∨ day > 31 ∨ hour < 0 ∨ hour ≥ 24 ∨ minute < 0 ∨
    minute ≥ 60 ∨ second < 0 ∨ second ≥ 60)

/-- What a call of `wxd_DateTime_FromComponents` does. -/
structure FromComponents where
  /-- whether `new wxDateTime(day, month, year, hour, minute, second)` was evaluated -/
  constructed : Bool
  /-- whether the function returned a non-null pointer -/
  returnedNonNull : Bool
deriving DecidableEq, Repr

/-- `wxd_DateTime_FromComponents`; `allocated` says whether `new (std::nothrow)` yields
memory. -/
def wxd_DateTime_FromComponents (allocated : Bool) (year : Int) (month : Nat)
    (day hour minute second : Int) : FromComponents :=
  if rejectsParameters year month day hour minute second then
    { constructed := false, returnedNonNull := false }
  else if allocated then
    { constructed := true,
      returnedNonNull := satisfiesSet year month day hour minute second }
  else { constructed := false, returnedNonNull := false }

/-! ## `array_string.cpp` -/

/-- What a call of `wxd_ArrayString_GetString` does. -/
structure GetString where
  /-- the value returned -/
  ret : Int
  /-- the buffer afterwards -/
  buffer : CharBuf
  /-- the index handed to `wx_array->Item`, `none` when no element was read -/
  itemRead : Option Nat
deriving DecidableEq, Repr

/-- `wxd_ArrayString_GetString`; the toolkit's `wxArrayString` is the list of its
elements. -/
def wxd_ArrayString_GetString (array : Option (List wxString)) (index : Int) (buffer : CharBuf)
    (bufferLen : Nat) : GetString :=
  match array with
  | none => { ret := -1, buffer := buffer, itemRead := none }
  | some wx_array =>
    if index < 0 ∨ index ≥ toInt wx_array.length then
      { ret := -1, buffer := buffer, itemRead := none }
    else
      let str := wx_array.getD index.toNat []
      let r := copy_wxstring_to_buffer str buffer bufferLen
      { ret := toInt r.1, buffer := r.2, itemRead := some index.toNat }

/-! ## `translations.cpp` -/

/-- The toolkit's `wxTranslations`, as far as the two entry points observe it. -/
structure wxTranslations where
  /-- `GetTranslatedString(orig, n, domain)`: the string of the catalog, `none` for a null
  result (no translation found) -/
  GetTranslatedString : wxString → Nat → wxString → Option wxString
  /-- `GetAvailableTranslations(domain)` -/
  GetAvailableTranslations : wxString → List wxString

/-- The local `wx_domain` of the entry points: `wxString::FromUTF8(domain)` when `domain` is
neither null nor empty, the empty string otherwise. -/
def domainString (FromUTF8 : List Nat → wxString) (domain : CStr) : wxString :=
  match domain with
  | none => []
  | some d => if d ≠ [] then FromUTF8 d else []

/-- `wxd_Translations_GetTranslatedPluralString`: the result and the buffer afterwards.
`FromUTF8` is the toolkit's `wxString::FromUTF8`. -/
def wxd_Translations_GetTranslatedPluralString (FromUTF8 : List Nat → wxString)
    (translations : Option wxTranslations) (singular plural : CStr) (n : Nat) (domain : CStr)
    (buffer : CharBuf) (buffer_len : Nat) : Int × CharBuf :=
  match translations, singular with
  | some wx_translations, some s =>
    let wx_domain := domainString FromUTF8 domain
    match wx_translations.GetTranslatedString (FromUTF8 s) n
        (if wx_domain = [] then [] else wx_domain) with
    | none =>
      match plural with
      | some p =>
        if n ≠ 1 then
          let r := copy_wxstring_to_buffer (FromUTF8 p) buffer buffer_len
          (toInt r.1, r.2)
        else (-1, buffer)
      | none => (-1, buffer)
    | some result =>
      let r := copy_wxstring_to_buffer result buffer buffer_len
      (toInt r.1, r.2)
  | _, _ => (-1, buffer)

/-- The array behind `char** langs_buffer`: for each index the `char*` stored there. -/
abbrev Slots := Nat → CharBuf

/-- The loop of `wxd_Translations_GetAvailableTranslations`, from index `i` for `k` more
rounds. Reading a language beyond the end of `langs`, which the toolkit answers with an
assertion failure, yields the empty string here. -/
def fillSlots (langs : List wxString) (string_buffer_len : Nat) : Nat → Nat → Slots → Slots
  | _, 0, slots => slots
  | i, k + 1, slots =>
    match slots i with
    | some mem =>
      fillSlots langs string_buffer_len (i + 1) k
        (Function.update slots i
          (copy_wxstring_to_buffer (langs.getD i []) (some mem) string_buffer_len).2)
    | none => fillSlots langs string_buffer_len (i + 1) k slots

/-- `wxd_Translations_GetAvailableTranslations`: the result and the slots afterwards (`none`
for a null `langs_buffer`). -/
def wxd_Translations_GetAvailableTranslations (FromUTF8 : List Nat → wxString)
    (translations : Option wxTranslations) (domain : CStr) (langs_buffer : Option Slots)
    (buffer_count string_buffer_len : Nat) : Int × Option Slots :=
  match translations, domain with
  | some wx_translations, some d =>
    let langs := wx_translations.GetAvailableTranslations (FromUTF8 d)
    let count := toInt langs.length
    match langs_buffer with
    | some slots =>
      if buffer_count > 0 ∧ string_buffer_len > 0 then
        let to_copy := if toSizeT count < buffer_count then toSizeT count else buffer_count
        (count, some (fillSlots langs string_buffer_len 0 to_copy slots))
      else (count, some slots)
    | none => (count, none)
  | _, _ => (0, langs_buffer)

/-- A sample catalog: `file` translates to `Datei` (one) and `Dateien` (many) in every
domain, nothing else is translated; three languages are available. -/
def sampleTranslations : wxTranslations :=
  { GetTranslatedString := fun orig n _ =>
      if orig = [102, 105, 108, 101] then
        (if n = 1 then some [68, 97, 116, 101, 105]
         else some [68, 97, 116, 101, 105, 101, 110])
      else none,
    GetAvailableTranslations := fun _ => [[100, 101], [102, 114], [105, 116]] }

/-- Sample slots: slot 0 and slot 2 point to eight bytes of memory, slot 1 is a null
pointer, as is every slot from 3 on. -/
def sampleSlots : Slots :=
  fun i => if i = 0 ∨ i = 2 then some [7, 7, 7, 7, 7, 7, 7, 7] else none

/-! ## Dispatch with callbacks that call back into the registry -/

theorem drops_append (a b : List Effect) : drops (a ++ b) = drops a ++ drops b := by
  induction a with
  | nil => rfl
  | cons e a ih => cases e <;> simp [drops, ih]

/-- The number of drops of `p` in a trace adds up over its parts. -/
theorem dropCount_append (p : Ptr) (a b : List Effect) :
    (drops (a ++ b)).count p = (drops a).count p + (drops b).count p := by
  rw [drops_append, List.count_append]

theorem find_none_erase {K V : Type} [DecidableEq K] (k : K) (m : UMap K V)
    (h : UMap.find k m = none) : UMap.erase k m = m := by
  induction m with
  | nil => rfl
  | cons kv m ih =>
    obtain ⟨k', v⟩ := kv
    by_cases hk : k' = k
    · simp [UMap.find, hk] at h
    · simp [UMap.find, hk] at h
      simp [UMap.erase, hk, ih h]

theorem live_find_some (p : Ptr) (k : EventKey) (vec : List RustClosureInfo)
    (m : UMap EventKey (List RustClosureInfo)) (h : UMap.find k m = some vec) :
    (drops (destructorLoop m)).count p =
      (drops (dropAll vec)).count p + (drops (destructorLoop (UMap.erase k m))).count p := by
  induction m with
  | nil => simp [UMap.find] at h
  | cons kv m ih =>
    obtain ⟨k', v⟩ := kv
    by_cases hk : k' = k
    · simp [UMap.find, hk] at h
      subst h
      simp [UMap.erase, hk, destructorLoop, dropCount_append]
    · simp [UMap.find, hk] at h
      simp [UMap.erase, hk, destructorLoop, dropCount_append, ih h]
      omega

theorem live_assign (p : Ptr) (k : EventKey) (vec : List RustClosureInfo)
    (m : UMap EventKey (List RustClosureInfo)) :
    (drops (destructorLoop (UMap.assign k vec m))).count p =
      (drops (dropAll vec)).count p + (drops (destructorLoop (UMap.erase k m))).count p := by
  induction m with
  | nil => simp [UMap.assign, UMap.erase, destructorLoop, dropCount_append, drops]
  | cons kv m ih =>
    obtain ⟨k', v⟩ := kv
    by_cases hk : k' = k
    · simp [UMap.assign, UMap.erase, hk, destructorLoop, dropCount_append]
    · simp [UMap.assign, UMap.erase, hk, destructorLoop, dropCount_append, ih]
      omega

theorem dropAll_append (a b : List RustClosureInfo) : dropAll (a ++ b) = dropAll a ++ dropAll b := by
  induction a with
  | nil => rfl
  | cons e a ih => simp [dropAll, ih]

theorem live_eraseByToken (p : Ptr) (token : Nat) (vec vec' : List RustClosureInfo)
    (hit : RustClosureInfo) (h : eraseByToken token vec = some (hit, vec')) :
    (drops (dropAll vec)).count p =
      (drops (dropIfNonNull hit.closure_ptr)).count p + (drops (dropAll vec')).count p := by
  induction vec generalizing vec' with
  | nil => simp [eraseByToken] at h
  | cons e vec ih =>
    by_cases ht : e.token = token
    · simp [eraseByToken, ht] at h
      obtain ⟨rfl, rfl⟩ := h
      simp [dropAll, dropCount_append]
    · simp only [eraseByToken, ht, if_false] at h
      cases hr : eraseByToken token vec with
      | none => simp [hr] at h
      | some r =>
        obtain ⟨hit', rest'⟩ := r
        simp [hr] at h
        obtain ⟨rfl, rfl⟩ := h
        simp [dropAll, dropCount_append, ih rest' hr]
        omega

theorem UnbindClosure_live (env : WxEnv) (p : Ptr) (token : Nat) (h : WxdEventHandler) :
    (drops (UnbindClosure env token h).2.2).count p +
        (drops (destructor (UnbindClosure env token h).2.1)).count p =
      (drops (destructor h)).count p := by
  unfold UnbindClosure
  cases hf : UMap.find token h.tokenMap with
  | none => simp [drops]
  | some loc =>
    obtain ⟨event_type, widget_id, cp⟩ := loc
    simp only []
    cases hc : UMap.find (event_type, widget_id) h.closureMap with
    | none => simp [drops, destructor]
    | some vec =>
      simp only []
      cases he : eraseByToken token vec with
      | none => simp [drops]
      | some r =>
        obtain ⟨hit, vec'⟩ := r
        simp only []
        have h1 := live_find_some p _ _ _ hc
        have h2 := live_eraseByToken p _ _ _ _ he
        by_cases hv : vec' = []
        · subst hv
          simp only [if_true, destructor]
          rw [h1, h2, dropCount_append]
          split <;> simp [drops, dropAll]
        · simp only [hv, if_false, destructor]
          rw [h1, h2, live_assign]
          omega
theorem UnbindAllLoop_live (env : WxEnv) (p : Ptr) (ts : List Nat) (h : WxdEventHandler) :
    (drops (UnbindAllLoop env ts h).2.2).count p +
        (drops (destructor (UnbindAllLoop env ts h).2.1)).count p =
      (drops (destructor h)).count p := by
  induction ts generalizing h with
  | nil => simp [UnbindAllLoop, drops]
  | cons t ts ih =>
    simp only [UnbindAllLoop, dropCount_append]
    have h1 := UnbindClosure_live env p t h
    have h2 := ih (UnbindClosure env t h).2.1
    omega

theorem drops_dropIfNonNull (p : Ptr) :
    drops (dropIfNonNull p) = if p ≠ 0 then [p] else [] := by
  unfold dropIfNonNull
  split <;> simp [drops]

theorem BindClosure_drops (env : WxEnv) (et id : Int) (tramp closure : Ptr) (token : Nat)
    (h : WxdEventHandler) : drops (BindClosure env et id tramp closure token h).2 = [] := by
  simp only [BindClosure]
  split
  · split <;> simp [drops]
  · simp [drops]

theorem BindClosure_live (env : WxEnv) (p : Ptr) (et id : Int) (tramp closure : Ptr)
    (token : Nat) (h : WxdEventHandler) :
    (drops (destructor (BindClosure env et id tramp closure token h).1)).count p =
      (drops (destructor h)).count p + (drops (dropIfNonNull closure)).count p := by
  simp only [BindClosure, destructor]
  rw [live_assign]
  cases hc : UMap.find (et, id) h.closureMap with
  | none =>
    rw [find_none_erase _ _ hc]
    simp [dropAll, dropCount_append, drops]
    omega
  | some vec =>
    rw [live_find_some p _ _ _ hc]
    simp [dropAll, dropAll_append, dropCount_append, drops]
    omega

theorem runHandlers_drops {σ : Type} (cb : Callbacks σ) (vec : List RustClosureInfo) (st : σ)
    (event : wxEvent) : drops (runHandlers cb vec st event).2.2.2 = [] := by
  induction vec generalizing st event with
  | nil => simp [runHandlers, drops]
  | cons info rest ih =>
    simp only [runHandlers]
    split
    · split
      · simp [drops]
      · simp [drops, ih]
    · exact ih _ _

theorem runKey_drops {σ : Type} (cb : Callbacks σ) (h : WxdEventHandler) (key : EventKey)
    (st : σ) (event : wxEvent) : drops (runKey cb h key st event).2.2.2 = [] := by
  unfold runKey
  split
  · exact runHandlers_drops _ _ _ _
  · simp [drops]

theorem dispatchLoops_drops {σ : Type} (env : WxEnv) (cb : Callbacks σ) (h : WxdEventHandler)
    (st : σ) (event : wxEvent) : drops (dispatchLoops env cb h st event).2.2.2 = [] := by
  simp only [dispatchLoops]
  split
  · simp [drops_append, runKey_drops]
  · exact runKey_drops _ _ _ _ _

theorem DispatchEvent_live {σ : Type} (env : WxEnv) (cb : Callbacks σ) (p : Ptr)
    (event : wxEvent) (h : WxdEventHandler) (st : σ) :
    (drops (DispatchEvent env cb event h st).effects).count p +
        (drops (destructor (DispatchEvent env cb event h st).handler)).count p =
      (drops (destructor h)).count p := by
  simp only [DispatchEvent]
  split
  · simp only [dropCount_append, dispatchLoops_drops, UnbindAll]
    have := UnbindAllLoop_live env p (UMap.keys h.tokenMap) h
    simpa using this
  · simp [dispatchLoops_drops]

theorem destroy_dropCount {σ : Type} (w : World σ) (p : Ptr) :
    (drops w.destroy.trace).count p =
      (drops w.trace).count p + (heldClosures w.owner).count p := by
  unfold World.destroy heldClosures World.handler
  cases existingHandler (some w.owner) <;> simp [dropCount_append]

theorem heldClosures_store (o o' : wxEvtHandler) (h : WxdEventHandler) :
    heldClosures ((storeHandler (some o) h).getD o') = drops (destructor h) := by
  simp [storeHandler, heldClosures, existingHandler]

/-- `wxd_EvtHandler_Bind` is `wxd_EvtHandler_BindWithId` with the id `wxID_ANY`: the two
bodies differ in the id handed to `BindClosure` only. -/
theorem wxd_EvtHandler_Bind_eq (env : WxEnv) (handler : Option wxEvtHandler) (eventTypeC : Int)
    (rust_trampoline_fn rust_closure_ptr : Ptr) (token : Nat) :
    wxd_EvtHandler_Bind env handler eventTypeC rust_trampoline_fn rust_closure_ptr token =
      wxd_EvtHandler_BindWithId env handler eventTypeC env.wxID_ANY rust_trampoline_fn
        rust_closure_ptr token := rfl

theorem heldClosures_of (o : wxEvtHandler) (h : WxdEventHandler)
    (hh : existingHandler (some o) = some h) : heldClosures o = drops (destructor h) := by
  simp [heldClosures, hh]

theorem heldClosures_new :
    heldClosures { clientObject := some { handler := some WxdEventHandler.new } } = [] := by
  simp [heldClosures, existingHandler, destructor, WxdEventHandler.new, destructorLoop, drops]

theorem BindWithId_dropCount (env : WxEnv) (o : wxEvtHandler) (c id : Int) (tramp closure : Ptr)
    (token : Nat) (p : Ptr) :
    (drops (wxd_EvtHandler_BindWithId env (some o) c id tramp closure token).2).count p +
        (heldClosures ((wxd_EvtHandler_BindWithId env (some o) c id tramp closure token).1.getD o)).count p =
      (heldClosures o).count p + (if closure ≠ 0 then [closure] else []).count p := by
  obtain ⟨co⟩ := o
  simp only [wxd_EvtHandler_BindWithId]
  split
  · simp [drops_dropIfNonNull]; omega
  · rcases co with _ | ⟨_ | h⟩
    · simp only [GetOrCreateEventHandler]
      split
      · simp [drops_dropIfNonNull, heldClosures, existingHandler, destructor,
          WxdEventHandler.new, destructorLoop, drops]
      · have h1 := BindClosure_live env p (env.get_wx_event_type_for_c_enum c) id tramp closure
          token WxdEventHandler.new
        simp only [heldClosures_store, BindClosure_drops, drops_dropIfNonNull] at h1 ⊢
        rw [h1]
        simp [heldClosures, existingHandler, destructor, WxdEventHandler.new,
          destructorLoop, drops]
    · simp [GetOrCreateEventHandler, drops_dropIfNonNull, heldClosures, existingHandler]
    · simp only [GetOrCreateEventHandler]
      split
      · simp [drops_dropIfNonNull, heldClosures, existingHandler]; omega
      · simp [heldClosures, existingHandler, storeHandler, BindClosure_drops,
          BindClosure_live, drops_dropIfNonNull]

theorem step_dropCount {σ : Type} (env : WxEnv) (cb : Callbacks σ) (w : World σ) (op : Op)
    (p : Ptr) :
    (drops (step env cb w op).destroy.trace).count p =
      (drops w.destroy.trace).count p + op.closurePassed.count p := by
  rw [destroy_dropCount, destroy_dropCount]
  cases op with
  | Bind c tramp closure token =>
    have := BindWithId_dropCount env w.owner c env.wxID_ANY tramp closure token p
    simp only [step, wxd_EvtHandler_Bind_eq, World.commit, dropCount_append,
      Op.closurePassed]
    omega
  | BindWithId c id tramp closure token =>
    have := BindWithId_dropCount env w.owner c id tramp closure token p
    simp only [step, World.commit, dropCount_append, Op.closurePassed]
    omega
  | Unbind token =>
    simp only [step, wxd_EvtHandler_Unbind, World.commit, Op.closurePassed]
    cases hh : existingHandler (some w.owner) with
    | none => simp [drops]
    | some h =>
      have := UnbindClosure_live env p token h
      simp only [dropCount_append, heldClosures_store]
      simp only [heldClosures, hh]
      simp; omega
  | UnbindAll =>
    simp only [step, wxd_EvtHandler_UnbindAll, World.commit, Op.closurePassed]
    cases hh : existingHandler (some w.owner) with
    | none => simp [drops]
    | some h =>
      have := UnbindAllLoop_live env p (UMap.keys h.tokenMap) h
      simp only [dropCount_append, heldClosures_store, UnbindAll]
      simp only [heldClosures, hh]
      simp; omega
  | Dispatch event =>
    simp only [step, World.handler, Op.closurePassed]
    cases hh : existingHandler (some w.owner) with
    | none => simp
    | some h =>
      have := DispatchEvent_live env cb p event h w.host
      rw [heldClosures_of _ _ hh]
      simp only [World.commitDispatch, dropCount_append]
      simp only [heldClosures, existingHandler, List.count_nil]
      omega
  | DispatchClose event =>
    simp only [step, World.handler, Op.closurePassed]
    cases hh : existingHandler (some w.owner) with
    | none => simp
    | some h =>
      have := DispatchEvent_live env cb p event h w.host
      rw [heldClosures_of _ _ hh]
      simp only [World.commitDispatch, dropCount_append, DispatchCloseEvent]
      simp only [heldClosures, existingHandler, List.count_nil]
      omega

theorem run_dropCount {σ : Type} (env : WxEnv) (cb : Callbacks σ) (w : World σ)
    (ops : List Op) (p : Ptr) :
    (drops (run env cb w ops).destroy.trace).count p =
      (drops w.destroy.trace).count p + (closuresPassed ops).count p := by
  induction ops generalizing w with
  | nil => simp [run, closuresPassed]
  | cons op ops ih =>
    simp only [run, closuresPassed, List.count_append]
    rw [ih, step_dropCount]
    omega

/-- C1. Closure lifetime: after any finite sequence of `wxd_EvtHandler_Bind`,
`wxd_EvtHandler_BindWithId`, `wxd_EvtHandler_Unbind`, `wxd_EvtHandler_UnbindAll` calls and
event deliveries on one handler, followed by the destruction of the handler, every pointer
has been handed to `drop_rust_event_closure_box` exactly as often as it was passed, non-null,
as the closure of a bind call: once for a closure passed once, never for the null pointer,
whatever tokens the calls used. -/
theorem closure_lifetime {σ : Type} (env : WxEnv) (cb : Callbacks σ) (st : σ)
    (ops : List Op) (p : Ptr) :
    (drops (run env cb (World.init st) ops).destroy.trace).count p =
      (closuresPassed ops).count p := by
  rw [run_dropCount]
  simp [World.destroy, World.init, World.handler, existingHandler, drops]

/-! ## Unbinding by token -/

theorem find_erase_self {K V : Type} [DecidableEq K] (k : K) (m : UMap K V)
    (hwf : UMap.WF m) : UMap.find k (UMap.erase k m) = none := by
  induction m with
  | nil => rfl
  | cons kv m ih =>
    obtain ⟨k', v⟩ := kv
    simp only [UMap.WF, UMap.keys, List.map_cons, List.nodup_cons] at hwf
    by_cases hk : k' = k
    · subst hk
      simp only [UMap.erase, if_true]
      have hnot : k' ∉ UMap.keys m := hwf.1
      clear ih hwf
      induction m with
      | nil => rfl
      | cons kv2 m ih2 =>
        obtain ⟨k2, v2⟩ := kv2
        simp only [UMap.keys, List.map_cons, List.mem_cons, not_or] at hnot
        have hne : ¬ k2 = k' := fun e => hnot.1 e.symm
        simp only [UMap.find, hne, if_false]
        exact ih2 hnot.2
    · simp only [UMap.erase, hk, if_false, UMap.find]
      exact ih hwf.2

theorem find_erase_ne {K V : Type} [DecidableEq K] (k k' : K) (m : UMap K V) (hne : k' ≠ k) :
    UMap.find k' (UMap.erase k m) = UMap.find k' m := by
  induction m with
  | nil => rfl
  | cons kv m ih =>
    obtain ⟨k2, v⟩ := kv
    by_cases hk : k2 = k
    · subst hk
      have : ¬ k2 = k' := fun e => hne e.symm
      simp [UMap.erase, UMap.find, this]
    · by_cases hk' : k2 = k'
      · subst hk'
        simp [UMap.erase, UMap.find, hk]
      · simp [UMap.erase, UMap.find, hk, hk', ih]

theorem find_assign_self {K V : Type} [DecidableEq K] (k : K) (v : V) (m : UMap K V) :
    UMap.find k (UMap.assign k v m) = some v := by
  induction m with
  | nil => simp [UMap.assign, UMap.find]
  | cons kv m ih =>
    obtain ⟨k2, v2⟩ := kv
    by_cases hk : k2 = k
    · simp [UMap.assign, UMap.find, hk]
    · simp [UMap.assign, UMap.find, hk, ih]

theorem find_assign_ne {K V : Type} [DecidableEq K] (k k' : K) (v : V) (m : UMap K V)
    (hne : k' ≠ k) : UMap.find k' (UMap.assign k v m) = UMap.find k' m := by
  induction m with
  | nil =>
    have : ¬ k = k' := fun e => hne e.symm
    simp [UMap.assign, UMap.find, this]
  | cons kv m ih =>
    obtain ⟨k2, v2⟩ := kv
    by_cases hk : k2 = k
    · subst hk
      have : ¬ k2 = k' := fun e => hne e.symm
      simp [UMap.assign, UMap.find, this]
    · by_cases hk' : k2 = k'
      · subst hk'
        simp [UMap.assign, UMap.find, hk]
      · simp [UMap.assign, UMap.find, hk, hk', ih]

/-- What the search loop finds: the first element carrying the token. -/
theorem eraseByToken_some (token : Nat) (vec vec' : List RustClosureInfo)
    (hit : RustClosureInfo) (h : eraseByToken token vec = some (hit, vec')) :
    ∃ before after, vec = before ++ hit :: after ∧ vec' = before ++ after ∧
      hit.token = token ∧ ∀ x ∈ before, x.token ≠ token := by
  induction vec generalizing vec' with
  | nil => simp [eraseByToken] at h
  | cons e vec ih =>
    by_cases ht : e.token = token
    · simp [eraseByToken, ht] at h
      obtain ⟨rfl, rfl⟩ := h
      exact ⟨[], vec, rfl, rfl, ht, by simp⟩
    · simp only [eraseByToken, ht, if_false] at h
      cases hr : eraseByToken token vec with
      | none => simp [hr] at h
      | some r =>
        obtain ⟨hit', rest'⟩ := r
        simp [hr] at h
        obtain ⟨rfl, rfl⟩ := h
        obtain ⟨before, after, h1, h2, h3, h4⟩ := ih rest' hr
        refine ⟨e :: before, after, by simp [h1], by simp [h2], h3, ?_⟩
        intro x hx
        rcases List.mem_cons.mp hx with rfl | hx
        · exact ht
        · exact h4 x hx

theorem eraseByToken_none (token : Nat) (vec : List RustClosureInfo)
    (h : eraseByToken token vec = none) : ∀ x ∈ vec, x.token ≠ token := by
  induction vec with
  | nil => simp
  | cons e vec ih =>
    by_cases ht : e.token = token
    · simp [eraseByToken, ht] at h
    · simp only [eraseByToken, ht, if_false] at h
      cases hr : eraseByToken token vec with
      | none =>
        intro x hx
        rcases List.mem_cons.mp hx with rfl | hx
        · exact ht
        · exact ih hr x hx
      | some r => simp [hr] at h

/-- The shape of a successful `UnbindClosure`. -/
theorem UnbindClosure_true (env : WxEnv) (token : Nat) (h : WxdEventHandler)
    (hok : (UnbindClosure env token h).1 = true) :
    ∃ event_type widget_id cp vec hit vec',
      UMap.find token h.tokenMap = some (event_type, widget_id, cp) ∧
      UMap.find (event_type, widget_id) h.closureMap = some vec ∧
      eraseByToken token vec = some (hit, vec') ∧
      (UnbindClosure env token h).2 =
        (if vec' = [] then
          ({ closureMap := UMap.erase (event_type, widget_id) h.closureMap,
             tokenMap := UMap.erase token h.tokenMap,
             wx_bindings_made := UMap.erase (event_type, widget_id) h.wx_bindings_made },
            dropIfNonNull hit.closure_ptr ++ [disconnectCall env event_type widget_id])
        else
          ({ h with closureMap := UMap.assign (event_type, widget_id) vec' h.closureMap,
                    tokenMap := UMap.erase token h.tokenMap },
            dropIfNonNull hit.closure_ptr)) := by
  unfold UnbindClosure at hok ⊢
  cases hf : UMap.find token h.tokenMap with
  | none => simp [hf] at hok
  | some loc =>
    obtain ⟨event_type, widget_id, cp⟩ := loc
    simp only [hf] at hok ⊢
    cases hc : UMap.find (event_type, widget_id) h.closureMap with
    | none => simp [hc] at hok
    | some vec =>
      simp only [hc] at hok ⊢
      cases he : eraseByToken token vec with
      | none => simp [he] at hok
      | some r =>
        obtain ⟨hit, vec'⟩ := r
        refine ⟨event_type, widget_id, cp, vec, hit, vec', rfl, hc, he, ?_⟩
        simp only [disconnectCall]
        by_cases hv : vec' = []
        · simp only [hv, if_true]
          split <;> rfl
        · simp only [hv, if_false]
theorem drops_singleton_disconnectCall (env : WxEnv) (event_type widget_id : Int) :
    drops [disconnectCall env event_type widget_id] = [] := by
  unfold disconnectCall
  split <;> rfl

theorem toolkitCalls_append (a b : List Effect) :
    toolkitCalls (a ++ b) = toolkitCalls a ++ toolkitCalls b := by
  induction a with
  | nil => rfl
  | cons e a ih => cases e <;> simp [toolkitCalls, ih]

theorem toolkitCalls_dropIfNonNull (p : Ptr) : toolkitCalls (dropIfNonNull p) = [] := by
  unfold dropIfNonNull
  split <;> rfl

theorem toolkitCalls_singleton_disconnectCall (env : WxEnv) (event_type widget_id : Int) :
    toolkitCalls [disconnectCall env event_type widget_id] =
      [disconnectCall env event_type widget_id] := by
  unfold disconnectCall
  split <;> rfl

/-- C2. Whenever `UnbindClosure` returns true (on a registry whose `closureMap` is a map),
exactly one callback entry is removed: the vector of one `(event-type, id)` pair loses one
element, which carries the token (the first that does), while the elements before and after
it stay in their order; the vectors of all other pairs are unchanged; and the only closure
dropped is the one of the removed entry, once (an entry whose closure pointer is null holds no
closure, and nothing is dropped for it). -/
theorem UnbindClosure_removes_exactly_one (env : WxEnv) (token : Nat) (h : WxdEventHandler)
    (hwf : UMap.WF h.closureMap) (hok : (UnbindClosure env token h).1 = true) :
    ∃ (key : EventKey) (before after : List RustClosureInfo) (hit : RustClosureInfo),
      UMap.find key h.closureMap = some (before ++ hit :: after) ∧
      hit.token = token ∧
      (∀ x ∈ before, x.token ≠ token) ∧
      (UMap.find key (UnbindClosure env token h).2.1.closureMap).getD [] = before ++ after ∧
      (∀ k, k ≠ key →
        UMap.find k (UnbindClosure env token h).2.1.closureMap = UMap.find k h.closureMap) ∧
      drops (UnbindClosure env token h).2.2 =
        (if hit.closure_ptr = 0 then [] else [hit.closure_ptr]) := by
  obtain ⟨event_type, widget_id, cp, vec, hit, vec', _, hc, he, hr⟩ :=
    UnbindClosure_true env token h hok
  obtain ⟨before, after, hvec, hvec', htok, hbefore⟩ := eraseByToken_some _ _ _ _ he
  refine ⟨(event_type, widget_id), before, after, hit, by rw [hc, hvec], htok, hbefore, ?_⟩
  rw [hr]
  by_cases hv : vec' = []
  · simp only [hv, if_true]
    refine ⟨?_, ?_, ?_⟩
    · rw [find_erase_self _ _ hwf, ← hvec', hv]; rfl
    · intro k hk
      exact find_erase_ne _ _ _ hk
    · rw [drops_append, drops_singleton_disconnectCall, drops_dropIfNonNull]
      by_cases hp : hit.closure_ptr = 0 <;> simp [hp]
  · simp only [hv, if_false]
    refine ⟨?_, ?_, ?_⟩
    · rw [find_assign_self, hvec']; rfl
    · intro k hk
      exact find_assign_ne _ _ _ _ hk
    · rw [drops_dropIfNonNull]
      by_cases hp : hit.closure_ptr = 0 <;> simp [hp]

theorem UnbindClosure_removes_exactly_one_witness :
    ∃ (key : EventKey) (before after : List RustClosureInfo) (hit : RustClosureInfo),
      UMap.find key sampleHandler.closureMap = some (before ++ hit :: after) ∧
      hit.token = 2 ∧
      (∀ x ∈ before, x.token ≠ 2) ∧
      (UMap.find key (UnbindClosure sampleEnv 2 sampleHandler).2.1.closureMap).getD [] =
        before ++ after ∧
      (∀ k, k ≠ key →
        UMap.find k (UnbindClosure sampleEnv 2 sampleHandler).2.1.closureMap =
          UMap.find k sampleHandler.closureMap) ∧
      drops (UnbindClosure sampleEnv 2 sampleHandler).2.2 =
        (if hit.closure_ptr = 0 then [] else [hit.closure_ptr]) :=
  UnbindClosure_removes_exactly_one sampleEnv 2 sampleHandler (by decide) (by decide)

/-- C3. A successful `UnbindClosure` (on a registry whose maps are maps) issues a toolkit
disconnect for the removed entry's `(event-type, id)` pair exactly when the removed entry was
the last one of that pair: then the only call on the owner is `Disconnect` for a vetoable
event type and `Unbind` with the id range `[id, id]` otherwise, and the pair is gone from
`closureMap` and `wx_bindings_made`; when other entries remain for the pair, no call is made
on the owner, the pair keeps its vector in `closureMap` and `wx_bindings_made` is unchanged. -/
theorem UnbindClosure_disconnects_iff_last (env : WxEnv) (token : Nat) (h : WxdEventHandler)
    (hcm : UMap.WF h.closureMap) (hwx : UMap.WF h.wx_bindings_made)
    (hok : (UnbindClosure env token h).1 = true) :
    ∃ (event_type widget_id : Int) (cp : Ptr) (vec : List RustClosureInfo),
      UMap.find token h.tokenMap = some (event_type, widget_id, cp) ∧
      UMap.find (event_type, widget_id) h.closureMap = some vec ∧
      (vec.length = 1 →
        toolkitCalls (UnbindClosure env token h).2.2 =
          [if IsVetableEventType env event_type then
            Effect.Disconnect event_type (eventFuncFor env event_type)
          else Effect.Unbind event_type widget_id widget_id] ∧
        UMap.find (event_type, widget_id) (UnbindClosure env token h).2.1.closureMap = none ∧
        UMap.find (event_type, widget_id) (UnbindClosure env token h).2.1.wx_bindings_made =
          none) ∧
      (vec.length ≠ 1 →
        toolkitCalls (UnbindClosure env token h).2.2 = [] ∧
        (∃ vec', vec' ≠ [] ∧
          UMap.find (event_type, widget_id) (UnbindClosure env token h).2.1.closureMap =
            some vec') ∧
        (UnbindClosure env token h).2.1.wx_bindings_made = h.wx_bindings_made) := by
  obtain ⟨event_type, widget_id, cp, vec, hit, vec', hf, hc, he, hr⟩ :=
    UnbindClosure_true env token h hok
  obtain ⟨before, after, hvec, hvec', _, _⟩ := eraseByToken_some _ _ _ _ he
  have hlen : vec.length = vec'.length + 1 := by simp [hvec, hvec']; omega
  refine ⟨event_type, widget_id, cp, vec, hf, hc, ?_, ?_⟩
  · intro h1
    have hv : vec' = [] := List.length_eq_zero.mp (by omega)
    rw [hr]
    simp only [hv, if_true]
    refine ⟨?_, find_erase_self _ _ hcm, find_erase_self _ _ hwx⟩
    rw [toolkitCalls_append, toolkitCalls_dropIfNonNull, toolkitCalls_singleton_disconnectCall]
    rfl
  · intro h1
    have hv : vec' ≠ [] := by
      intro e
      rw [e] at hlen
      exact h1 (by simpa using hlen)
    rw [hr]
    simp only [hv, if_false]
    exact ⟨toolkitCalls_dropIfNonNull _, ⟨vec', hv, find_assign_self _ _ _⟩, trivial⟩

theorem UnbindClosure_disconnects_iff_last_witness :
    ∃ (event_type widget_id : Int) (cp : Ptr) (vec : List RustClosureInfo),
      UMap.find 3 sampleHandler.tokenMap = some (event_type, widget_id, cp) ∧
      UMap.find (event_type, widget_id) sampleHandler.closureMap = some vec ∧
      (vec.length = 1 →
        toolkitCalls (UnbindClosure sampleEnv 3 sampleHandler).2.2 =
          [if IsVetableEventType sampleEnv event_type then
            Effect.Disconnect event_type (eventFuncFor sampleEnv event_type)
          else Effect.Unbind event_type widget_id widget_id] ∧
        UMap.find (event_type, widget_id)
          (UnbindClosure sampleEnv 3 sampleHandler).2.1.closureMap = none ∧
        UMap.find (event_type, widget_id)
          (UnbindClosure sampleEnv 3 sampleHandler).2.1.wx_bindings_made = none) ∧
      (vec.length ≠ 1 →
        toolkitCalls (UnbindClosure sampleEnv 3 sampleHandler).2.2 = [] ∧
        (∃ vec', vec' ≠ [] ∧
          UMap.find (event_type, widget_id)
            (UnbindClosure sampleEnv 3 sampleHandler).2.1.closureMap = some vec') ∧
        (UnbindClosure sampleEnv 3 sampleHandler).2.1.wx_bindings_made =
          sampleHandler.wx_bindings_made) :=
  UnbindClosure_disconnects_iff_last sampleEnv 3 sampleHandler (by decide) (by decide)
    (by decide)

/-! ## Facts about maps -/

theorem keys_cons {K V : Type} (kv : K × V) (m : UMap K V) :
    UMap.keys (kv :: m) = kv.1 :: UMap.keys m := rfl

theorem find_eq_none_iff {K V : Type} [DecidableEq K] (k : K) (m : UMap K V) :
    UMap.find k m = none ↔ k ∉ UMap.keys m := by
  induction m with
  | nil => simp [UMap.find, UMap.keys]
  | cons kv m ih =>
    obtain ⟨k', v⟩ := kv
    by_cases hk : k' = k
    · simp [UMap.find, hk, keys_cons]
    · have hk2 : ¬ k = k' := fun e => hk e.symm
      simp [UMap.find, hk, hk2, keys_cons, ih]

theorem find_some_mem {K V : Type} [DecidableEq K] (k : K) (v : V) (m : UMap K V)
    (h : UMap.find k m = some v) : (k, v) ∈ m := by
  induction m with
  | nil => simp [UMap.find] at h
  | cons kv m ih =>
    obtain ⟨k', v'⟩ := kv
    by_cases hk : k' = k
    · simp [UMap.find, hk] at h
      simp [hk, h]
    · simp [UMap.find, hk] at h
      exact List.mem_cons_of_mem _ (ih h)

theorem mem_keys_of_mem {K V : Type} (k : K) (v : V) (m : UMap K V) (h : (k, v) ∈ m) :
    k ∈ UMap.keys m :=
  List.mem_map.mpr ⟨(k, v), h, rfl⟩

theorem find_of_mem {K V : Type} [DecidableEq K] (k : K) (v : V) (m : UMap K V)
    (hwf : UMap.WF m) (h : (k, v) ∈ m) : UMap.find k m = some v := by
  induction m with
  | nil => simp at h
  | cons kv m ih =>
    obtain ⟨k', v'⟩ := kv
    simp only [UMap.WF, keys_cons, List.nodup_cons] at hwf
    rcases List.mem_cons.mp h with e | h'
    · cases e
      simp [UMap.find]
    · have hne : ¬ k' = k := by
        intro e
        subst e
        exact hwf.1 (mem_keys_of_mem _ _ _ h')
      simp only [UMap.find, hne, if_false]
      exact ih hwf.2 h'

theorem keys_erase {K V : Type} [DecidableEq K] (k : K) (m : UMap K V) :
    UMap.keys (UMap.erase k m) = (UMap.keys m).erase k := by
  induction m with
  | nil => rfl
  | cons kv m ih =>
    obtain ⟨k', v⟩ := kv
    by_cases hk : k' = k
    · subst hk
      simp [UMap.erase, keys_cons]
    · simp [UMap.erase, hk, keys_cons, ih, List.erase_cons_tail, hk]

theorem WF_erase {K V : Type} [DecidableEq K] (k : K) (m : UMap K V) (hwf : UMap.WF m) :
    UMap.WF (UMap.erase k m) := by
  unfold UMap.WF at hwf ⊢
  rw [keys_erase]
  exact hwf.erase k

theorem assign_of_not_mem {K V : Type} [DecidableEq K] (k : K) (v : V) (m : UMap K V)
    (h : k ∉ UMap.keys m) : UMap.assign k v m = m ++ [(k, v)] := by
  induction m with
  | nil => rfl
  | cons kv m ih =>
    obtain ⟨k', v'⟩ := kv
    simp only [keys_cons, List.mem_cons, not_or] at h
    have hk : ¬ k' = k := fun e => h.1 e.symm
    simp [UMap.assign, hk, ih h.2]

theorem keys_assign_of_mem {K V : Type} [DecidableEq K] (k : K) (v : V) (m : UMap K V)
    (h : k ∈ UMap.keys m) : UMap.keys (UMap.assign k v m) = UMap.keys m := by
  induction m with
  | nil => simp [UMap.keys] at h
  | cons kv m ih =>
    obtain ⟨k', v'⟩ := kv
    by_cases hk : k' = k
    · simp [UMap.assign, hk, keys_cons]
    · simp only [keys_cons, List.mem_cons] at h
      have : k ∈ UMap.keys m := by
        rcases h with e | h
        · exact absurd e.symm hk
        · exact h
      simp [UMap.assign, hk, keys_cons, ih this]

theorem WF_assign {K V : Type} [DecidableEq K] (k : K) (v : V) (m : UMap K V)
    (hwf : UMap.WF m) : UMap.WF (UMap.assign k v m) := by
  by_cases h : k ∈ UMap.keys m
  · unfold UMap.WF
    rw [keys_assign_of_mem k v m h]
    exact hwf
  · unfold UMap.WF at hwf ⊢
    rw [assign_of_not_mem k v m h]
    simp only [UMap.keys, List.map_append, List.map_cons, List.map_nil]
    exact List.Nodup.append hwf (List.nodup_singleton k) (by simpa [UMap.keys] using h)

theorem mem_assign {K V : Type} [DecidableEq K] (k : K) (v : V) (m : UMap K V) (kv : K × V)
    (h : kv ∈ UMap.assign k v m) : kv = (k, v) ∨ kv ∈ m := by
  induction m with
  | nil => simpa [UMap.assign] using h
  | cons e m ih =>
    obtain ⟨k', v'⟩ := e
    by_cases hk : k' = k
    · simp only [UMap.assign, hk, if_true, List.mem_cons] at h
      rcases h with h | h
      · exact Or.inl h
      · exact Or.inr (List.mem_cons_of_mem _ h)
    · simp only [UMap.assign, hk, if_false, List.mem_cons] at h
      rcases h with h | h
      · exact Or.inr (by simp [h])
      · rcases ih h with h | h
        · exact Or.inl h
        · exact Or.inr (List.mem_cons_of_mem _ h)

theorem mem_erase {K V : Type} [DecidableEq K] (k : K) (m : UMap K V) (kv : K × V)
    (h : kv ∈ UMap.erase k m) : kv ∈ m := by
  induction m with
  | nil => simp [UMap.erase] at h
  | cons e m ih =>
    obtain ⟨k', v'⟩ := e
    by_cases hk : k' = k
    · simp only [UMap.erase, hk, if_true] at h
      exact List.mem_cons_of_mem _ h
    · simp only [UMap.erase, hk, if_false, List.mem_cons] at h
      rcases h with h | h
      · simp [h]
      · exact List.mem_cons_of_mem _ (ih h)

theorem erase_perm {K V : Type} [DecidableEq K] (k : K) (v : V) (m : UMap K V)
    (h : UMap.find k m = some v) : List.Perm m ((k, v) :: UMap.erase k m) := by
  induction m with
  | nil => simp [UMap.find] at h
  | cons kv m ih =>
    obtain ⟨k', v'⟩ := kv
    by_cases hk : k' = k
    · simp [UMap.find, hk] at h
      simp [UMap.erase, hk, h]
    · simp [UMap.find, hk] at h
      simp only [UMap.erase, hk, if_false]
      exact ((ih h).cons (k', v')).trans (List.Perm.swap _ _ _)

theorem assign_same {K V : Type} [DecidableEq K] (k : K) (v : V) (m : UMap K V)
    (h : UMap.find k m = some v) : UMap.assign k v m = m := by
  induction m with
  | nil => simp [UMap.find] at h
  | cons kv m ih =>
    obtain ⟨k', v'⟩ := kv
    by_cases hk : k' = k
    · simp [UMap.find, hk] at h
      simp [UMap.assign, hk, h]
    · simp [UMap.find, hk] at h
      simp [UMap.assign, hk, ih h]

theorem assign_assign {K V : Type} [DecidableEq K] (k : K) (v v' : V) (m : UMap K V) :
    UMap.assign k v' (UMap.assign k v m) = UMap.assign k v' m := by
  induction m with
  | nil => simp [UMap.assign]
  | cons kv m ih =>
    obtain ⟨k', v0⟩ := kv
    by_cases hk : k' = k
    · simp [UMap.assign, hk]
    · simp [UMap.assign, hk, ih]

theorem map_assign {K V W : Type} [DecidableEq K] (g : V → W) (k : K) (v : V) (m : UMap K V) :
    (UMap.assign k v m).map (fun kv => (kv.1, g kv.2)) =
      UMap.assign k (g v) (m.map (fun kv => (kv.1, g kv.2))) := by
  induction m with
  | nil => simp [UMap.assign]
  | cons kv m ih =>
    obtain ⟨k', v0⟩ := kv
    by_cases hk : k' = k
    · simp [UMap.assign, hk]
    · simp [UMap.assign, hk, ih]

theorem map_erase {K V W : Type} [DecidableEq K] (g : V → W) (k : K) (m : UMap K V) :
    (UMap.erase k m).map (fun kv => (kv.1, g kv.2)) =
      UMap.erase k (m.map (fun kv => (kv.1, g kv.2))) := by
  induction m with
  | nil => simp [UMap.erase]
  | cons kv m ih =>
    obtain ⟨k', v0⟩ := kv
    by_cases hk : k' = k
    · simp [UMap.erase, hk]
    · simp [UMap.erase, hk, ih]

theorem find_map {K V W : Type} [DecidableEq K] (g : V → W) (k : K) (m : UMap K V) :
    UMap.find k (m.map (fun kv => (kv.1, g kv.2))) = (UMap.find k m).map g := by
  induction m with
  | nil => simp [UMap.find]
  | cons kv m ih =>
    obtain ⟨k', v0⟩ := kv
    by_cases hk : k' = k
    · simp [UMap.find, hk]
    · simp [UMap.find, hk, ih]

/-! ## The shape of the registry is kept -/

theorem BindClosure_closureMap (env : WxEnv) (et id : Int) (tramp closure : Ptr) (token : Nat)
    (h : WxdEventHandler) :
    (BindClosure env et id tramp closure token h).1.closureMap =
      UMap.assign (et, id)
        ((UMap.find (et, id) h.closureMap).getD [] ++
          [{ closure_ptr := closure, rust_trampoline := tramp, token := token }])
        h.closureMap := rfl

theorem BindClosure_tokenMap (env : WxEnv) (et id : Int) (tramp closure : Ptr) (token : Nat)
    (h : WxdEventHandler) :
    (BindClosure env et id tramp closure token h).1.tokenMap =
      UMap.assign token (et, id, closure) h.tokenMap := rfl

theorem BindClosure_wx_bindings_made (env : WxEnv) (et id : Int) (tramp closure : Ptr)
    (token : Nat) (h : WxdEventHandler) :
    (BindClosure env et id tramp closure token h).1.wx_bindings_made =
      UMap.assign (et, id) true h.wx_bindings_made := by
  simp only [BindClosure]
  cases hf : UMap.find (et, id) h.wx_bindings_made with
  | none => simp [find_assign_self, assign_assign]
  | some b =>
    cases b
    · simp [hf]
    · simp [hf, assign_same _ _ _ hf]

/-- The calls `BindClosure` makes: one connect when the pair was not connected, none
otherwise. -/
theorem BindClosure_effects (env : WxEnv) (et id : Int) (tramp closure : Ptr) (token : Nat)
    (h : WxdEventHandler) :
    (BindClosure env et id tramp closure token h).2 =
      (if UMap.find (et, id) h.wx_bindings_made = some true then []
       else [connectCall env et id]) := by
  simp only [BindClosure, connectCall]
  cases hf : UMap.find (et, id) h.wx_bindings_made with
  | none =>
    simp only [find_assign_self]
    by_cases hv : IsVetableEventType env et = true <;> simp [hv]
  | some b =>
    cases b
    · simp only [hf]
      by_cases hv : IsVetableEventType env et = true <;> simp [hv]
    · simp [hf]

theorem BindClosure_structural (env : WxEnv) (et id : Int) (tramp closure : Ptr) (token : Nat)
    (h : WxdEventHandler) (hs : Structural h) :
    Structural (BindClosure env et id tramp closure token h).1 := by
  refine ⟨?_, ?_, ?_, ?_⟩
  · rw [BindClosure_closureMap]
    exact WF_assign _ _ _ hs.closureMap_wf
  · rw [BindClosure_tokenMap]
    exact WF_assign _ _ _ hs.tokenMap_wf
  · rw [BindClosure_closureMap]
    intro kv hkv
    rcases mem_assign _ _ _ _ hkv with e | hm
    · rw [e]
      simp
    · exact hs.nonempty kv hm
  · rw [BindClosure_closureMap, BindClosure_wx_bindings_made, hs.bindings]
    exact (map_assign (fun _ => true) _ _ _).symm

/-- The shape of an unsuccessful `UnbindClosure`: no effect, and at most a stale token
record removed. -/
theorem UnbindClosure_false (env : WxEnv) (token : Nat) (h : WxdEventHandler)
    (hno : (UnbindClosure env token h).1 = false) :
    (UnbindClosure env token h).2.2 = [] ∧
    (UnbindClosure env token h).2.1.closureMap = h.closureMap ∧
    (UnbindClosure env token h).2.1.wx_bindings_made = h.wx_bindings_made ∧
    ((UnbindClosure env token h).2.1 = h ∨
      (UnbindClosure env token h).2.1.tokenMap = UMap.erase token h.tokenMap) := by
  unfold UnbindClosure at hno ⊢
  cases hf : UMap.find token h.tokenMap with
  | none => simp
  | some loc =>
    obtain ⟨event_type, widget_id, cp⟩ := loc
    simp only [hf] at hno ⊢
    cases hc : UMap.find (event_type, widget_id) h.closureMap with
    | none => simp
    | some vec =>
      simp only [hc] at hno ⊢
      cases he : eraseByToken token vec with
      | none => simp
      | some r =>
        obtain ⟨hit, vec'⟩ := r
        simp only [he] at hno
        split at hno <;> simp at hno

theorem UnbindClosure_structural (env : WxEnv) (token : Nat) (h : WxdEventHandler)
    (hs : Structural h) : Structural (UnbindClosure env token h).2.1 := by
  cases hr : (UnbindClosure env token h).1 with
  | false =>
    obtain ⟨_, h2, h3, h4⟩ := UnbindClosure_false env token h hr
    rcases h4 with h4 | h4
    · rw [h4]; exact hs
    · exact ⟨by rw [h2]; exact hs.closureMap_wf, by rw [h4]; exact WF_erase _ _ hs.tokenMap_wf,
        by rw [h2]; exact hs.nonempty, by rw [h2, h3]; exact hs.bindings⟩
  | true =>
    obtain ⟨event_type, widget_id, cp, vec, hit, vec', hf, hc, he, hsh⟩ :=
      UnbindClosure_true env token h hr
    rw [hsh]
    by_cases hv : vec' = []
    · simp only [hv, if_true]
      refine ⟨WF_erase _ _ hs.closureMap_wf, WF_erase _ _ hs.tokenMap_wf, ?_, ?_⟩
      · intro kv hkv
        exact hs.nonempty kv (mem_erase _ _ _ hkv)
      · simp only [hs.bindings]
        exact (map_erase (fun _ => true) _ _).symm
    · simp only [hv, if_false]
      refine ⟨WF_assign _ _ _ hs.closureMap_wf, WF_erase _ _ hs.tokenMap_wf, ?_, ?_⟩
      · intro kv hkv
        rcases mem_assign _ _ _ _ hkv with e | hm
        · rw [e]; exact hv
        · exact hs.nonempty kv hm
      · simp only [hs.bindings]
        rw [map_assign (fun _ => true)]
        refine (assign_same _ _ _ ?_).symm
        rw [find_map (fun _ => true), hc]
        rfl

theorem UnbindAllLoop_structural (env : WxEnv) (ts : List Nat) (h : WxdEventHandler)
    (hs : Structural h) : Structural (UnbindAllLoop env ts h).2.1 := by
  induction ts generalizing h with
  | nil => exact hs
  | cons t ts ih => exact ih _ (UnbindClosure_structural env t h hs)

theorem DispatchEvent_handler {σ : Type} (env : WxEnv) (cb : Callbacks σ) (event : wxEvent)
    (h : WxdEventHandler) (st : σ) :
    (DispatchEvent env cb event h st).handler =
      if event.eventType = env.wxEVT_DESTROY then (UnbindAll env h).2.1 else h := by
  simp only [DispatchEvent]
  split <;> rfl

theorem DispatchEvent_structural {σ : Type} (env : WxEnv) (cb : Callbacks σ)
    (event : wxEvent) (h : WxdEventHandler) (st : σ) (hs : Structural h) :
    Structural (DispatchEvent env cb event h st).handler := by
  rw [DispatchEvent_handler]
  split
  · exact UnbindAllLoop_structural env _ h hs
  · exact hs

theorem new_structural : Structural WxdEventHandler.new :=
  ⟨List.nodup_nil, List.nodup_nil, by simp [WxdEventHandler.new], rfl⟩

/-! ## Tokens and entries correspond -/

theorem entries_find_perm (k : EventKey) (vec : List RustClosureInfo)
    (m : UMap EventKey (List RustClosureInfo)) (h : UMap.find k m = some vec) :
    List.Perm (entries m) (vec.map (fun info => (k, info)) ++ entries (UMap.erase k m)) := by
  induction m with
  | nil => simp [UMap.find] at h
  | cons kv m ih =>
    obtain ⟨k', v⟩ := kv
    by_cases hk : k' = k
    · simp [UMap.find, hk] at h
      subst h
      simp [UMap.erase, hk, entries]
    · simp [UMap.find, hk] at h
      simp only [UMap.erase, hk, if_false, entries]
      refine ((ih h).append_left _).trans ?_
      simp only [← List.append_assoc]
      exact List.Perm.append_right _ List.perm_append_comm

theorem entries_assign_perm (k : EventKey) (vec : List RustClosureInfo)
    (m : UMap EventKey (List RustClosureInfo)) :
    List.Perm (entries (UMap.assign k vec m))
      (vec.map (fun info => (k, info)) ++ entries (UMap.erase k m)) := by
  induction m with
  | nil => simp [UMap.assign, UMap.erase, entries]
  | cons kv m ih =>
    obtain ⟨k', v⟩ := kv
    by_cases hk : k' = k
    · simp [UMap.assign, UMap.erase, hk, entries]
    · simp only [UMap.assign, UMap.erase, hk, if_false, entries]
      refine (ih.append_left _).trans ?_
      simp only [← List.append_assoc]
      exact List.Perm.append_right _ List.perm_append_comm

theorem mem_entries (k : EventKey) (info : RustClosureInfo)
    (m : UMap EventKey (List RustClosureInfo)) :
    (k, info) ∈ entries m ↔ ∃ vec, (k, vec) ∈ m ∧ info ∈ vec := by
  induction m with
  | nil => simp [entries]
  | cons kv m ih =>
    obtain ⟨k', v⟩ := kv
    simp only [entries, List.mem_append, List.mem_map, Prod.mk.injEq, List.mem_cons, ih]
    constructor
    · rintro (⟨a, ha, rfl, rfl⟩ | ⟨vec, hm, hi⟩)
      · exact ⟨v, Or.inl ⟨rfl, rfl⟩, ha⟩
      · exact ⟨vec, Or.inr hm, hi⟩
    · rintro ⟨vec, (⟨rfl, rfl⟩ | hm), hi⟩
      · exact Or.inl ⟨info, hi, rfl, rfl⟩
      · exact Or.inr ⟨vec, hm, hi⟩

/-- The entries before a bind are those after it without the new one. -/
theorem BindClosure_entries (env : WxEnv) (et id : Int) (tramp closure : Ptr) (token : Nat)
    (h : WxdEventHandler) :
    List.Perm (entries (BindClosure env et id tramp closure token h).1.closureMap)
      (entries h.closureMap ++
        [((et, id), { closure_ptr := closure, rust_trampoline := tramp, token := token })]) := by
  rw [BindClosure_closureMap]
  refine (entries_assign_perm _ _ _).trans ?_
  cases hc : UMap.find (et, id) h.closureMap with
  | none =>
    rw [find_none_erase _ _ hc]
    simp only [Option.getD_none, List.nil_append, List.map_cons, List.map_nil]
    exact List.perm_append_comm
  | some vec =>
    simp only [Option.getD_some, List.map_append, List.map_cons, List.map_nil]
    refine List.Perm.trans ?_ ((entries_find_perm _ _ _ hc).symm.append_right _)
    simp only [List.append_assoc]
    exact List.Perm.append_left _ List.perm_append_comm

theorem BindClosure_tokensMatch (env : WxEnv) (et id : Int) (tramp closure : Ptr)
    (token : Nat) (h : WxdEventHandler) (hm : TokensMatch h)
    (hfresh : token ∉ UMap.keys h.tokenMap) :
    TokensMatch (BindClosure env et id tramp closure token h).1 := by
  unfold TokensMatch at hm ⊢
  rw [BindClosure_tokenMap, assign_of_not_mem _ _ _ hfresh]
  refine List.Perm.trans ?_ ((BindClosure_entries env et id tramp closure token h).map _).symm
  simp only [List.map_append, List.map_cons, List.map_nil, tokenRecord]
  exact hm.append_right _

/-- The entries before a successful unbind are those after it and the removed one. -/
theorem UnbindClosure_entries (env : WxEnv) (token : Nat) (h : WxdEventHandler)
    (hok : (UnbindClosure env token h).1 = true) :
    ∃ event_type widget_id cp hit,
      UMap.find token h.tokenMap = some (event_type, widget_id, cp) ∧
      hit.token = token ∧
      (UnbindClosure env token h).2.1.tokenMap = UMap.erase token h.tokenMap ∧
      List.Perm (entries h.closureMap)
        (((event_type, widget_id), hit) :: entries (UnbindClosure env token h).2.1.closureMap) := by
  obtain ⟨event_type, widget_id, cp, vec, hit, vec', hf, hc, he, hsh⟩ :=
    UnbindClosure_true env token h hok
  obtain ⟨before, after, hvec, hvec', htok, _⟩ := eraseByToken_some _ _ _ _ he
  refine ⟨event_type, widget_id, cp, hit, hf, htok, ?_, ?_⟩
  · rw [hsh]
    split <;> rfl
  · have h1 := entries_find_perm _ _ _ hc
    have h2 : List.Perm (vec.map (fun info => ((event_type, widget_id), info)))
        (((event_type, widget_id), hit) ::
          vec'.map (fun info => ((event_type, widget_id), info))) := by
      rw [hvec, hvec']
      simp only [List.map_append, List.map_cons]
      exact List.perm_middle
    have h3 : List.Perm (entries (UnbindClosure env token h).2.1.closureMap)
        (vec'.map (fun info => ((event_type, widget_id), info)) ++
          entries (UMap.erase (event_type, widget_id) h.closureMap)) := by
      rw [hsh]
      by_cases hv : vec' = []
      · simp [hv]
      · simp only [hv, if_false]
        exact entries_assign_perm _ _ _
    refine h1.trans ((h2.append_right _).trans ?_)
    simp only [List.cons_append]
    exact (h3.symm).cons _

theorem UnbindClosure_tokensMatch (env : WxEnv) (token : Nat) (h : WxdEventHandler)
    (hs : Structural h) (hm : TokensMatch h) (hok : (UnbindClosure env token h).1 = true) :
    TokensMatch (UnbindClosure env token h).2.1 := by
  obtain ⟨event_type, widget_id, cp, hit, hf, htok, htm, hperm⟩ :=
    UnbindClosure_entries env token h hok
  unfold TokensMatch at hm ⊢
  have h1 : List.Perm h.tokenMap
      (tokenRecord ((event_type, widget_id), hit) ::
        (entries (UnbindClosure env token h).2.1.closureMap).map tokenRecord) :=
    hm.trans (hperm.map tokenRecord)
  have hmem : tokenRecord ((event_type, widget_id), hit) ∈ h.tokenMap :=
    h1.symm.subset (List.mem_cons_self _ _)
  have hrec : tokenRecord ((event_type, widget_id), hit) = (token, (event_type, widget_id, cp)) := by
    have := find_of_mem hit.token (event_type, widget_id, hit.closure_ptr) h.tokenMap
      hs.tokenMap_wf hmem
    rw [htok, hf] at this
    simp only [Option.some.injEq] at this
    simp only [tokenRecord, htok, this]
  rw [htm]
  have h2 := erase_perm _ _ _ hf
  rw [hrec] at h1
  exact (h2.symm.trans h1).cons_inv

/-- With tokens and entries in correspondence, `UnbindClosure` succeeds for exactly the
tokens that are keys of `tokenMap`. -/
theorem UnbindClosure_true_iff (env : WxEnv) (token : Nat) (h : WxdEventHandler)
    (hs : Structural h) (hm : TokensMatch h) :
    (UnbindClosure env token h).1 = true ↔ token ∈ UMap.keys h.tokenMap := by
  constructor
  · intro hok
    obtain ⟨event_type, widget_id, cp, _, hf, _⟩ := UnbindClosure_entries env token h hok
    exact mem_keys_of_mem _ _ _ (find_some_mem _ _ _ hf)
  · intro hk
    cases hf : UMap.find token h.tokenMap with
    | none => exact absurd hk ((find_eq_none_iff _ _).mp hf)
    | some loc =>
      obtain ⟨event_type, widget_id, cp⟩ := loc
      have hmem : (token, (event_type, widget_id, cp)) ∈
          (entries h.closureMap).map tokenRecord :=
        hm.subset (find_some_mem _ _ _ hf)
      obtain ⟨e, he, hrec⟩ := List.mem_map.mp hmem
      obtain ⟨⟨et, id⟩, info⟩ := e
      simp only [tokenRecord, Prod.mk.injEq] at hrec
      obtain ⟨ht, rfl, rfl, hcp⟩ := hrec
      obtain ⟨vec, hvm, hiv⟩ := (mem_entries _ _ _).mp he
      have hc := find_of_mem _ _ _ hs.closureMap_wf hvm
      unfold UnbindClosure
      simp only [hf, hc]
      cases hx : eraseByToken token vec with
      | none => exact absurd ht (eraseByToken_none _ _ hx info hiv)
      | some r =>
        obtain ⟨hit, vec'⟩ := r
        simp only []
        split <;> rfl

theorem UnbindClosure_keeps_tokensMatch (env : WxEnv) (token : Nat) (h : WxdEventHandler)
    (hs : Structural h) (hm : TokensMatch h) : TokensMatch (UnbindClosure env token h).2.1 := by
  cases hr : (UnbindClosure env token h).1 with
  | true => exact UnbindClosure_tokensMatch env token h hs hm hr
  | false =>
    have hk : token ∉ UMap.keys h.tokenMap := by
      intro hk
      rw [(UnbindClosure_true_iff env token h hs hm).mpr hk] at hr
      exact Bool.noConfusion hr
    have hf := (find_eq_none_iff _ _).mpr hk
    have : (UnbindClosure env token h).2.1 = h := by
      unfold UnbindClosure
      simp [hf]
    rw [this]
    exact hm

theorem UnbindAllLoop_tokensMatch (env : WxEnv) (ts : List Nat) (h : WxdEventHandler)
    (hs : Structural h) (hm : TokensMatch h) : TokensMatch (UnbindAllLoop env ts h).2.1 := by
  induction ts generalizing h with
  | nil => exact hm
  | cons t ts ih =>
    exact ih _ (UnbindClosure_structural env t h hs)
      (UnbindClosure_keeps_tokensMatch env t h hs hm)

theorem UnbindClosure_keys (env : WxEnv) (token : Nat) (h : WxdEventHandler)
    (hok : (UnbindClosure env token h).1 = true) :
    UMap.keys (UnbindClosure env token h).2.1.tokenMap = (UMap.keys h.tokenMap).erase token := by
  obtain ⟨_, _, _, _, _, _, htm, _⟩ := UnbindClosure_entries env token h hok
  rw [htm, keys_erase]

/-- The loop of `UnbindAll` over distinct registered tokens removes one callback per token. -/
theorem UnbindAllLoop_spec (env : WxEnv) (ts : List Nat) (h : WxdEventHandler)
    (hs : Structural h) (hm : TokensMatch h) (hnd : ts.Nodup)
    (hin : ∀ t ∈ ts, t ∈ UMap.keys h.tokenMap) :
    (UnbindAllLoop env ts h).1 = ts.length ∧
    ∀ t, t ∈ UMap.keys (UnbindAllLoop env ts h).2.1.tokenMap ↔
      t ∈ UMap.keys h.tokenMap ∧ t ∉ ts := by
  induction ts generalizing h with
  | nil => simp [UnbindAllLoop]
  | cons t ts ih =>
    have hok := (UnbindClosure_true_iff env t h hs hm).mpr (hin t (List.mem_cons_self _ _))
    have hkeys := UnbindClosure_keys env t h hok
    have hnd' := List.nodup_cons.mp hnd
    have hwf : (UMap.keys h.tokenMap).Nodup := hs.tokenMap_wf
    have hin' : ∀ t' ∈ ts, t' ∈ UMap.keys (UnbindClosure env t h).2.1.tokenMap := by
      intro t' ht'
      rw [hkeys]
      have hne : t' ≠ t := fun e => hnd'.1 (e ▸ ht')
      exact (List.mem_erase_of_ne hne).mpr (hin t' (List.mem_cons_of_mem _ ht'))
    obtain ⟨ih1, ih2⟩ := ih _ (UnbindClosure_structural env t h hs)
      (UnbindClosure_keeps_tokensMatch env t h hs hm) hnd'.2 hin'
    refine ⟨?_, ?_⟩
    · simp only [UnbindAllLoop, hok, if_true, ih1, List.length_cons]
      omega
    · intro t'
      simp only [UnbindAllLoop]
      rw [ih2 t', hkeys, hwf.mem_erase_iff]
      simp only [List.mem_cons, not_or]
      tauto

/-- A registry in shape whose token map is empty while tokens and entries correspond has
nothing registered at all. -/
theorem empty_of_tokenMap_nil (h : WxdEventHandler) (hs : Structural h) (hm : TokensMatch h)
    (ht : h.tokenMap = []) : h.closureMap = [] ∧ h.wx_bindings_made = [] := by
  unfold TokensMatch at hm
  rw [ht] at hm
  have he : entries h.closureMap = [] := by
    have := hm.symm.eq_nil
    simpa using this
  have hc : h.closureMap = [] := by
    cases hcm : h.closureMap with
    | nil => rfl
    | cons kv m =>
      obtain ⟨k, vec⟩ := kv
      have hne := hs.nonempty (k, vec) (by rw [hcm]; exact List.mem_cons_self _ _)
      rw [hcm] at he
      simp only [entries, List.append_eq_nil, List.map_eq_nil_iff] at he
      exact absurd he.1 hne
  exact ⟨hc, by rw [hs.bindings, hc]; rfl⟩

/-- With tokens and entries in correspondence, `UnbindAll` removes every callback and
returns their number. -/
theorem UnbindAll_spec (env : WxEnv) (h : WxdEventHandler) (hs : Structural h)
    (hm : TokensMatch h) :
    (UnbindAll env h).1 = (entries h.closureMap).length ∧
    (UnbindAll env h).2.1 = WxdEventHandler.new := by
  obtain ⟨h1, h2⟩ := UnbindAllLoop_spec env (UMap.keys h.tokenMap) h hs hm hs.tokenMap_wf
    (fun _ ht => ht)
  have hs' := UnbindAllLoop_structural env (UMap.keys h.tokenMap) h hs
  have hm' := UnbindAllLoop_tokensMatch env (UMap.keys h.tokenMap) h hs hm
  have htm : (UnbindAllLoop env (UMap.keys h.tokenMap) h).2.1.tokenMap = [] := by
    cases hx : (UnbindAllLoop env (UMap.keys h.tokenMap) h).2.1.tokenMap with
    | nil => rfl
    | cons kv m =>
      have := (h2 kv.1).mp (by rw [hx]; simp [keys_cons])
      exact absurd this.1 this.2
  obtain ⟨hc, hw⟩ := empty_of_tokenMap_nil _ hs' hm' htm
  refine ⟨?_, ?_⟩
  · unfold UnbindAll
    rw [h1]
    have := hm.length_eq
    simpa [UMap.keys] using this
  · unfold UnbindAll
    cases hx : (UnbindAllLoop env (UMap.keys h.tokenMap) h).2.1 with
    | mk cm tm wx =>
      rw [hx] at hc hw htm
      simp only at hc hw htm
      simp [WxdEventHandler.new, hc, hw, htm]

theorem Reachable_invariant (env : WxEnv) (h : WxdEventHandler) (hr : Reachable env h) :
    Structural h ∧ TokensMatch h := by
  induction hr with
  | new => exact ⟨new_structural, List.Perm.refl _⟩
  | BindClosure h et id tramp closure token _ hfresh ih =>
    exact ⟨BindClosure_structural env et id tramp closure token h ih.1,
      BindClosure_tokensMatch env et id tramp closure token h ih.2 hfresh⟩
  | UnbindClosure h token _ ih =>
    exact ⟨UnbindClosure_structural env token h ih.1,
      UnbindClosure_keeps_tokensMatch env token h ih.1 ih.2⟩
  | UnbindAll h _ ih =>
    exact ⟨UnbindAllLoop_structural env _ h ih.1, UnbindAllLoop_tokensMatch env _ h ih.1 ih.2⟩
  | DispatchEvent h σ cb event st _ ih =>
    rw [DispatchEvent_handler]
    split
    · exact ⟨UnbindAllLoop_structural env _ h ih.1,
        UnbindAllLoop_tokensMatch env _ h ih.1 ih.2⟩
    · exact ih

theorem keys_perm_carriedTokens (h : WxdEventHandler) (hm : TokensMatch h) :
    List.Perm (UMap.keys h.tokenMap) (carriedTokens h) := by
  have := hm.map Prod.fst
  simpa [UMap.keys, carriedTokens, tokenRecord, Function.comp_def] using this

/-- C6. Token registry invariant: in every state that `BindClosure` (with a token that is not
registered at that moment), `UnbindClosure`, `UnbindAll` and `DispatchEvent` reach from a new
handler, no two callback entries carry the same token, the keys of `tokenMap` are exactly the
tokens carried by the entries of `closureMap`, and `tokenMap[token]` is the `(event-type, id)`
pair of the vector holding the entry with that token together with the entry's closure
pointer. -/
theorem token_registry_invariant (env : WxEnv) (h : WxdEventHandler) (hr : Reachable env h) :
    (carriedTokens h).Nodup ∧
    (∀ t, t ∈ UMap.keys h.tokenMap ↔ t ∈ carriedTokens h) ∧
    (∀ key vec info, UMap.find key h.closureMap = some vec → info ∈ vec →
      UMap.find info.token h.tokenMap = some (key.1, key.2, info.closure_ptr)) ∧
    (∀ t event_type widget_id closure_ptr,
      UMap.find t h.tokenMap = some (event_type, widget_id, closure_ptr) →
      ∃ vec info, UMap.find (event_type, widget_id) h.closureMap = some vec ∧ info ∈ vec ∧
        info.token = t ∧ info.closure_ptr = closure_ptr) := by
  obtain ⟨hs, hm⟩ := Reachable_invariant env h hr
  have hp := keys_perm_carriedTokens h hm
  refine ⟨hp.nodup_iff.mp hs.tokenMap_wf, fun t => hp.mem_iff, ?_, ?_⟩
  · intro key vec info hc hi
    have he : (key, info) ∈ entries h.closureMap :=
      (mem_entries _ _ _).mpr ⟨vec, find_some_mem _ _ _ hc, hi⟩
    have : tokenRecord (key, info) ∈ h.tokenMap :=
      hm.symm.subset (List.mem_map.mpr ⟨_, he, rfl⟩)
    exact find_of_mem _ _ _ hs.tokenMap_wf this
  · intro t event_type widget_id closure_ptr hf
    have hmem : (t, (event_type, widget_id, closure_ptr)) ∈
        (entries h.closureMap).map tokenRecord := hm.subset (find_some_mem _ _ _ hf)
    obtain ⟨e, he, hrec⟩ := List.mem_map.mp hmem
    obtain ⟨⟨et, id⟩, info⟩ := e
    simp only [tokenRecord, Prod.mk.injEq] at hrec
    obtain ⟨ht, rfl, rfl, hcp⟩ := hrec
    obtain ⟨vec, hvm, hiv⟩ := (mem_entries _ _ _).mp he
    exact ⟨vec, info, find_of_mem _ _ _ hs.closureMap_wf hvm, hiv, ht, hcp⟩

theorem token_registry_invariant_witness :
    (carriedTokens sampleReached).Nodup ∧
    (∀ t, t ∈ UMap.keys sampleReached.tokenMap ↔ t ∈ carriedTokens sampleReached) ∧
    (∀ key vec info, UMap.find key sampleReached.closureMap = some vec → info ∈ vec →
      UMap.find info.token sampleReached.tokenMap = some (key.1, key.2, info.closure_ptr)) ∧
    (∀ t event_type widget_id closure_ptr,
      UMap.find t sampleReached.tokenMap = some (event_type, widget_id, closure_ptr) →
      ∃ vec info, UMap.find (event_type, widget_id) sampleReached.closureMap = some vec ∧
        info ∈ vec ∧ info.token = t ∧ info.closure_ptr = closure_ptr) :=
  token_registry_invariant sampleEnv sampleReached
    (Reachable.UnbindClosure _ 1
      (Reachable.BindClosure _ 100 (-1) 5 8 2
        (Reachable.BindClosure _ 100 4 5 6 1 Reachable.new (by decide)) (by decide)))

/-! ## The owner's event table -/

theorem eventTable_append (a b : List Effect) :
    eventTable (a ++ b) = b.foldl applyToolkit (eventTable a) := by
  simp [eventTable, List.foldl_append]

theorem foldl_applyToolkit_dropIfNonNull (table : List Effect) (p : Ptr) :
    (dropIfNonNull p).foldl applyToolkit table = table := by
  unfold dropIfNonNull
  split <;> rfl

theorem applyToolkit_connectCall (env : WxEnv) (table : List Effect) (et id : Int) :
    applyToolkit table (connectCall env et id) = table ++ [connectCall env et id] := by
  unfold connectCall
  split <;> rfl

theorem applyToolkit_disconnectCall (env : WxEnv) (table : List Effect) (et id : Int) :
    applyToolkit table (disconnectCall env et id) = table.erase (connectCall env et id) := by
  unfold connectCall disconnectCall
  split <;> rfl

theorem expectedConnections_erase {K : Type} [DecidableEq K] (c : K → Effect)
    (table : List Effect) (keys : List K) (key : K) (hk : key ∈ keys)
    (hp : List.Perm table (keys.map c)) :
    List.Perm (table.erase (c key)) ((keys.erase key).map c) := by
  have h1 := (List.perm_cons_erase hk).map c
  have h2 := (hp.trans h1).erase (c key)
  simpa using h2

theorem BindClosure_eventTable (env : WxEnv) (et id : Int) (tramp closure : Ptr) (token : Nat)
    (h : WxdEventHandler) (hs : Structural h) (table : List Effect)
    (hp : List.Perm table (expectedConnections env h)) :
    List.Perm ((BindClosure env et id tramp closure token h).2.foldl applyToolkit table)
      (expectedConnections env (BindClosure env et id tramp closure token h).1) := by
  rw [BindClosure_effects]
  unfold expectedConnections at hp ⊢
  rw [BindClosure_closureMap, hs.bindings, find_map (fun _ => true)]
  cases hc : UMap.find (et, id) h.closureMap with
  | none =>
    have hk := (find_eq_none_iff _ _).mp hc
    rw [assign_of_not_mem _ _ _ hk]
    have hif : (if (none : Option Bool) = some true then [] else [connectCall env et id]) =
        [connectCall env et id] := by simp
    simp only [Option.map_none', hif, List.foldl_cons, List.foldl_nil,
      applyToolkit_connectCall, UMap.keys, List.map_append, List.map_cons, List.map_nil]
    exact hp.append_right _
  | some vec =>
    have hk := mem_keys_of_mem _ _ _ (find_some_mem _ _ _ hc)
    rw [keys_assign_of_mem _ _ _ hk]
    simpa using hp

theorem UnbindClosure_eventTable (env : WxEnv) (token : Nat) (h : WxdEventHandler)
    (table : List Effect) (hp : List.Perm table (expectedConnections env h)) :
    List.Perm ((UnbindClosure env token h).2.2.foldl applyToolkit table)
      (expectedConnections env (UnbindClosure env token h).2.1) := by
  cases hr : (UnbindClosure env token h).1 with
  | false =>
    obtain ⟨h1, h2, _, _⟩ := UnbindClosure_false env token h hr
    unfold expectedConnections at hp ⊢
    rw [h1, h2]
    exact hp
  | true =>
    obtain ⟨event_type, widget_id, cp, vec, hit, vec', hf, hc, he, hsh⟩ :=
      UnbindClosure_true env token h hr
    have hk := mem_keys_of_mem _ _ _ (find_some_mem _ _ _ hc)
    unfold expectedConnections at hp ⊢
    rw [hsh]
    by_cases hv : vec' = []
    · simp only [hv, if_true, List.foldl_append, foldl_applyToolkit_dropIfNonNull,
        List.foldl_cons, List.foldl_nil, applyToolkit_disconnectCall, keys_erase]
      exact expectedConnections_erase (fun key : EventKey => connectCall env key.1 key.2)
        table _ (event_type, widget_id) hk hp
    · simp only [hv, if_false, foldl_applyToolkit_dropIfNonNull,
        keys_assign_of_mem _ _ _ hk]
      exact hp

theorem UnbindAllLoop_eventTable (env : WxEnv) (ts : List Nat) (h : WxdEventHandler)
    (table : List Effect) (hp : List.Perm table (expectedConnections env h)) :
    List.Perm ((UnbindAllLoop env ts h).2.2.foldl applyToolkit table)
      (expectedConnections env (UnbindAllLoop env ts h).2.1) := by
  induction ts generalizing h table with
  | nil => exact hp
  | cons t ts ih =>
    simp only [UnbindAllLoop, List.foldl_append]
    exact ih _ _ (UnbindClosure_eventTable env t h table hp)

theorem runHandlers_toolkit {σ : Type} (cb : Callbacks σ) (vec : List RustClosureInfo)
    (st : σ) (event : wxEvent) (table : List Effect) :
    (runHandlers cb vec st event).2.2.2.foldl applyToolkit table = table := by
  induction vec generalizing st event with
  | nil => rfl
  | cons info rest ih =>
    simp only [runHandlers]
    split
    · split
      · rfl
      · simp only [List.foldl_cons, applyToolkit]
        exact ih _ _
    · exact ih _ _

theorem dispatchLoops_toolkit {σ : Type} (env : WxEnv) (cb : Callbacks σ)
    (h : WxdEventHandler) (st : σ) (event : wxEvent) (table : List Effect) :
    (dispatchLoops env cb h st event).2.2.2.foldl applyToolkit table = table := by
  have hk : ∀ key st event table,
      (runKey cb h key st event).2.2.2.foldl applyToolkit table = table := by
    intro key st event table
    unfold runKey
    split
    · exact runHandlers_toolkit _ _ _ _ _
    · rfl
  simp only [dispatchLoops]
  split
  · simp only [List.foldl_append, hk]
  · exact hk _ _ _ _

theorem DispatchEvent_eventTable {σ : Type} (env : WxEnv) (cb : Callbacks σ)
    (event : wxEvent) (h : WxdEventHandler) (st : σ) (table : List Effect)
    (hp : List.Perm table (expectedConnections env h)) :
    List.Perm ((DispatchEvent env cb event h st).effects.foldl applyToolkit table)
      (expectedConnections env (DispatchEvent env cb event h st).handler) := by
  simp only [DispatchEvent]
  split
  · simp only [List.foldl_append, dispatchLoops_toolkit]
    exact UnbindAllLoop_eventTable env _ h table hp
  · simp only [dispatchLoops_toolkit]
    exact hp

/-! ## Runs with fresh tokens -/

theorem new_nonNull : NonNull WxdEventHandler.new := by
  intro e he
  simp [WxdEventHandler.new, entries] at he

theorem BindClosure_nonNull (env : WxEnv) (et id : Int) (tramp closure : Ptr) (token : Nat)
    (h : WxdEventHandler) (hn : NonNull h) (ht : tramp ≠ 0) (hc : closure ≠ 0) :
    NonNull (BindClosure env et id tramp closure token h).1 := by
  intro e he
  have := (BindClosure_entries env et id tramp closure token h).subset he
  rcases List.mem_append.mp this with h1 | h1
  · exact hn e h1
  · simp only [List.mem_singleton] at h1
    rw [h1]
    exact ⟨hc, ht⟩

theorem UnbindClosure_nonNull (env : WxEnv) (token : Nat) (h : WxdEventHandler)
    (hn : NonNull h) : NonNull (UnbindClosure env token h).2.1 := by
  cases hr : (UnbindClosure env token h).1 with
  | false =>
    obtain ⟨_, h2, _, _⟩ := UnbindClosure_false env token h hr
    intro e he
    rw [h2] at he
    exact hn e he
  | true =>
    obtain ⟨_, _, _, _, _, _, _, hperm⟩ := UnbindClosure_entries env token h hr
    intro e he
    exact hn e (hperm.symm.subset (List.mem_cons_of_mem _ he))

theorem UnbindAllLoop_nonNull (env : WxEnv) (ts : List Nat) (h : WxdEventHandler)
    (hn : NonNull h) : NonNull (UnbindAllLoop env ts h).2.1 := by
  induction ts generalizing h with
  | nil => exact hn
  | cons t ts ih => exact ih _ (UnbindClosure_nonNull env t h hn)

theorem DispatchEvent_nonNull {σ : Type} (env : WxEnv) (cb : Callbacks σ) (event : wxEvent)
    (h : WxdEventHandler) (st : σ) (hn : NonNull h) :
    NonNull (DispatchEvent env cb event h st).handler := by
  rw [DispatchEvent_handler]
  split
  · exact UnbindAllLoop_nonNull env _ h hn
  · exact hn

theorem existingHandler_store (o : wxEvtHandler) (h : WxdEventHandler) :
    existingHandler (some ((storeHandler (some o) h).getD o)) = some h := rfl

theorem OwnerInv_store (env : WxEnv) (o : wxEvtHandler) (h : WxdEventHandler)
    (trace : List Effect) (hr : Reachable env h) (hn : NonNull h)
    (hp : List.Perm (eventTable trace) (expectedConnections env h)) :
    OwnerInv env ((storeHandler (some o) h).getD o) trace := by
  unfold OwnerInv
  rw [existingHandler_store]
  exact ⟨hr, hn, hp⟩

theorem eventTable_append_dropIfNonNull (trace : List Effect) (p : Ptr) :
    eventTable (trace ++ dropIfNonNull p) = eventTable trace := by
  rw [eventTable_append, foldl_applyToolkit_dropIfNonNull]

theorem OwnerInv_append_dropIfNonNull (env : WxEnv) (o : wxEvtHandler) (trace : List Effect)
    (p : Ptr) (hi : OwnerInv env o trace) : OwnerInv env o (trace ++ dropIfNonNull p) := by
  unfold OwnerInv at hi ⊢
  rw [eventTable_append_dropIfNonNull]
  exact hi

theorem BindWithId_OwnerInv (env : WxEnv) (o : wxEvtHandler) (trace : List Effect) (c id : Int)
    (tramp closure : Ptr) (token : Nat) (hi : OwnerInv env o trace)
    (hfresh : ∀ h, existingHandler (some o) = some h → token ∉ UMap.keys h.tokenMap) :
    OwnerInv env ((wxd_EvtHandler_BindWithId env (some o) c id tramp closure token).1.getD o)
      (trace ++ (wxd_EvtHandler_BindWithId env (some o) c id tramp closure token).2) := by
  simp only [wxd_EvtHandler_BindWithId]
  split
  · exact OwnerInv_append_dropIfNonNull env o trace closure hi
  · rename_i hnn
    simp only [not_or] at hnn
    obtain ⟨co⟩ := o
    rcases co with _ | ⟨_ | h⟩
    · simp only [GetOrCreateEventHandler]
      have hnil : eventTable trace = [] := hi
      split
      · simp only [Option.getD_some]
        show OwnerInv env _ _
        unfold OwnerInv
        simp only [existingHandler, eventTable_append_dropIfNonNull, hnil]
        exact ⟨Reachable.new, new_nonNull, List.Perm.refl _⟩
      · refine OwnerInv_store env _ _ _ ?_ ?_ ?_
        · exact Reachable.BindClosure _ _ _ _ _ _ Reachable.new (by simp [WxdEventHandler.new, UMap.keys])
        · exact BindClosure_nonNull env _ _ _ _ _ _ new_nonNull hnn.1 hnn.2
        · rw [eventTable_append]
          refine BindClosure_eventTable env _ _ _ _ _ _ new_structural _ ?_
          rw [hnil]
          exact List.Perm.refl _
    · simp only [GetOrCreateEventHandler, Option.getD_some]
      exact OwnerInv_append_dropIfNonNull env _ trace closure hi
    · simp only [GetOrCreateEventHandler]
      have hi2 : Reachable env h ∧ NonNull h ∧
          List.Perm (eventTable trace) (expectedConnections env h) := hi
      obtain ⟨hr, hn, hp⟩ := hi2
      split
      · simp only [Option.getD_some]
        exact OwnerInv_append_dropIfNonNull env _ trace closure hi
      · refine OwnerInv_store env _ _ _ ?_ ?_ ?_
        · exact Reachable.BindClosure _ _ _ _ _ _ hr (hfresh h rfl)
        · exact BindClosure_nonNull env _ _ _ _ _ _ hn hnn.1 hnn.2
        · rw [eventTable_append]
          exact BindClosure_eventTable env _ _ _ _ _ _ (Reachable_invariant env h hr).1 _ hp

theorem step_WorldInv {σ : Type} (env : WxEnv) (cb : Callbacks σ) (w : World σ) (op : Op)
    (hi : WorldInv env w) (hfresh : op.tokenFresh w) : WorldInv env (step env cb w op) := by
  unfold WorldInv at hi ⊢
  cases op with
  | Bind c tramp closure token =>
    exact BindWithId_OwnerInv env w.owner w.trace c env.wxID_ANY tramp closure token hi
      (fun h hh => by simpa [Op.tokenFresh, tokenKeys, hh] using hfresh)
  | BindWithId c id tramp closure token =>
    exact BindWithId_OwnerInv env w.owner w.trace c id tramp closure token hi
      (fun h hh => by simpa [Op.tokenFresh, tokenKeys, hh] using hfresh)
  | Unbind token =>
    simp only [step, wxd_EvtHandler_Unbind, World.commit]
    cases hh : existingHandler (some w.owner) with
    | none => simpa using hi
    | some h =>
      unfold OwnerInv at hi
      rw [hh] at hi
      obtain ⟨hr, hn, hp⟩ := hi
      refine OwnerInv_store env _ _ _ (Reachable.UnbindClosure _ _ hr)
        (UnbindClosure_nonNull env token h hn) ?_
      rw [eventTable_append]
      exact UnbindClosure_eventTable env token h _ hp
  | UnbindAll =>
    simp only [step, wxd_EvtHandler_UnbindAll, World.commit]
    cases hh : existingHandler (some w.owner) with
    | none => simpa using hi
    | some h =>
      unfold OwnerInv at hi
      rw [hh] at hi
      obtain ⟨hr, hn, hp⟩ := hi
      refine OwnerInv_store env _ _ _ (Reachable.UnbindAll _ hr)
        (UnbindAllLoop_nonNull env _ h hn) ?_
      rw [eventTable_append]
      exact UnbindAllLoop_eventTable env _ h _ hp
  | Dispatch event =>
    simp only [step, World.handler]
    cases hh : existingHandler (some w.owner) with
    | none => exact hi
    | some h =>
      unfold OwnerInv at hi
      rw [hh] at hi
      obtain ⟨hr, hn, hp⟩ := hi
      simp only [World.commitDispatch]
      unfold OwnerInv
      simp only [existingHandler]
      refine ⟨Reachable.DispatchEvent _ _ _ _ _ hr, DispatchEvent_nonNull env cb event h _ hn, ?_⟩
      rw [eventTable_append]
      exact DispatchEvent_eventTable env cb event h _ _ hp
  | DispatchClose event =>
    simp only [step, World.handler]
    cases hh : existingHandler (some w.owner) with
    | none => exact hi
    | some h =>
      unfold OwnerInv at hi
      rw [hh] at hi
      obtain ⟨hr, hn, hp⟩ := hi
      simp only [World.commitDispatch, DispatchCloseEvent]
      unfold OwnerInv
      simp only [existingHandler]
      refine ⟨Reachable.DispatchEvent _ _ _ _ _ hr, DispatchEvent_nonNull env cb event h _ hn, ?_⟩
      rw [eventTable_append]
      exact DispatchEvent_eventTable env cb event h _ _ hp

theorem run_WorldInv {σ : Type} (env : WxEnv) (cb : Callbacks σ) (w : World σ) (ops : List Op)
    (hi : WorldInv env w) (hfresh : FreshRun env cb w ops) : WorldInv env (run env cb w ops) := by
  induction ops generalizing w with
  | nil => exact hi
  | cons op ops ih =>
    exact ih _ (step_WorldInv env cb w op hi hfresh.1) hfresh.2

theorem init_WorldInv {σ : Type} (env : WxEnv) (st : σ) : WorldInv env (World.init st) := by
  show eventTable [] = []
  rfl

/-! ## Unbind and UnbindAll through the C entry points -/

theorem UnbindClosure_of_find_none (env : WxEnv) (token : Nat) (h : WxdEventHandler)
    (hf : UMap.find token h.tokenMap = none) : UnbindClosure env token h = (false, h, []) := by
  unfold UnbindClosure
  simp [hf]

theorem owner_of_existingHandler (o : wxEvtHandler) (h : WxdEventHandler)
    (hh : existingHandler (some o) = some h) :
    o = { clientObject := some { handler := some h } } := by
  obtain ⟨co⟩ := o
  rcases co with _ | ⟨_ | h'⟩
  · simp [existingHandler] at hh
  · simp [existingHandler] at hh
  · simp only [existingHandler, Option.some.injEq] at hh
    rw [hh]

theorem registeredTokens_of (o : wxEvtHandler) (h : WxdEventHandler)
    (hh : existingHandler (some o) = some h) : registeredTokens o = carriedTokens h := by
  simp [registeredTokens, hh]

/-- C4, as the code has it (with fresh tokens). After any run of calls on a handler in which
every bind used a token that was not registered at that moment, `wxd_EvtHandler_Unbind`
returns true exactly when a callback entry carrying the token is registered on the handler, and
false exactly when none is; when it returns false it has no effect at all (no closure is
dropped) and leaves the handler as it was; and after a call that returned true, a second
call with the same token returns false. -/
theorem Unbind_true_iff_registered {σ : Type} (env : WxEnv) (cb : Callbacks σ) (st : σ)
    (ops : List Op) (token : Nat) (hfresh : FreshRun env cb (World.init st) ops) :
    ((wxd_EvtHandler_Unbind env (some (run env cb (World.init st) ops).owner) token).1 = true ↔
      token ∈ registeredTokens (run env cb (World.init st) ops).owner) ∧
    ((wxd_EvtHandler_Unbind env (some (run env cb (World.init st) ops).owner) token).1 = false ↔
      token ∉ registeredTokens (run env cb (World.init st) ops).owner) ∧
    ((wxd_EvtHandler_Unbind env (some (run env cb (World.init st) ops).owner) token).1 = false →
      (wxd_EvtHandler_Unbind env (some (run env cb (World.init st) ops).owner) token).2.2 = [] ∧
      (wxd_EvtHandler_Unbind env (some (run env cb (World.init st) ops).owner) token).2.1 =
        some (run env cb (World.init st) ops).owner) ∧
    ((wxd_EvtHandler_Unbind env (some (run env cb (World.init st) ops).owner) token).1 = true →
      (wxd_EvtHandler_Unbind env
        (wxd_EvtHandler_Unbind env (some (run env cb (World.init st) ops).owner) token).2.1
        token).1 = false) := by
  have hinv := run_WorldInv env cb _ ops (init_WorldInv env st) hfresh
  generalize (run env cb (World.init st) ops) = w at hinv
  unfold WorldInv OwnerInv at hinv
  have hiff : (wxd_EvtHandler_Unbind env (some w.owner) token).1 = true ↔
      token ∈ registeredTokens w.owner := by
    cases hh : existingHandler (some w.owner) with
    | none => simp [wxd_EvtHandler_Unbind, registeredTokens, hh]
    | some h =>
      rw [hh] at hinv
      obtain ⟨hs, hm⟩ := Reachable_invariant env h hinv.1
      simp only [wxd_EvtHandler_Unbind, hh, registeredTokens_of _ _ hh]
      rw [UnbindClosure_true_iff env token h hs hm]
      exact (keys_perm_carriedTokens h hm).mem_iff
  refine ⟨hiff, ?_, ?_, ?_⟩
  · rw [← hiff]
    simp
  · intro hfalse
    cases hh : existingHandler (some w.owner) with
    | none => simp [wxd_EvtHandler_Unbind, hh]
    | some h =>
      rw [hh] at hinv
      obtain ⟨hs, hm⟩ := Reachable_invariant env h hinv.1
      simp only [wxd_EvtHandler_Unbind, hh] at hfalse ⊢
      have hk : token ∉ UMap.keys h.tokenMap := by
        intro hk
        rw [(UnbindClosure_true_iff env token h hs hm).mpr hk] at hfalse
        exact Bool.noConfusion hfalse
      rw [UnbindClosure_of_find_none env token h ((find_eq_none_iff _ _).mpr hk)]
      refine ⟨rfl, ?_⟩
      simp only [storeHandler, Option.map_some']
      rw [← owner_of_existingHandler _ _ hh]
  · intro htrue
    cases hh : existingHandler (some w.owner) with
    | none => simp [wxd_EvtHandler_Unbind, hh] at htrue
    | some h =>
      rw [hh] at hinv
      obtain ⟨hs, hm⟩ := Reachable_invariant env h hinv.1
      simp only [wxd_EvtHandler_Unbind, hh] at htrue ⊢
      simp only [storeHandler, Option.map_some', existingHandler]
      have hkeys := UnbindClosure_keys env token h htrue
      have hnot : token ∉ UMap.keys (UnbindClosure env token h).2.1.tokenMap := by
        rw [hkeys]
        have hwf : (UMap.keys h.tokenMap).Nodup := hs.tokenMap_wf
        exact fun hmem => (hwf.mem_erase_iff.mp hmem).1 rfl
      rw [UnbindClosure_of_find_none env token _ ((find_eq_none_iff _ _).mpr hnot)]

theorem Unbind_true_iff_registered_witness :
    ((wxd_EvtHandler_Unbind sampleEnv
        (some (run sampleEnv sampleCallbacks (World.init ()) sampleOps).owner) 2).1 = true ↔
      2 ∈ registeredTokens (run sampleEnv sampleCallbacks (World.init ()) sampleOps).owner) ∧
    ((wxd_EvtHandler_Unbind sampleEnv
        (some (run sampleEnv sampleCallbacks (World.init ()) sampleOps).owner) 2).1 = false ↔
      2 ∉ registeredTokens (run sampleEnv sampleCallbacks (World.init ()) sampleOps).owner) ∧
    ((wxd_EvtHandler_Unbind sampleEnv
        (some (run sampleEnv sampleCallbacks (World.init ()) sampleOps).owner) 2).1 = false →
      (wxd_EvtHandler_Unbind sampleEnv
        (some (run sampleEnv sampleCallbacks (World.init ()) sampleOps).owner) 2).2.2 = [] ∧
      (wxd_EvtHandler_Unbind sampleEnv
        (some (run sampleEnv sampleCallbacks (World.init ()) sampleOps).owner) 2).2.1 =
        some (run sampleEnv sampleCallbacks (World.init ()) sampleOps).owner) ∧
    ((wxd_EvtHandler_Unbind sampleEnv
        (some (run sampleEnv sampleCallbacks (World.init ()) sampleOps).owner) 2).1 = true →
      (wxd_EvtHandler_Unbind sampleEnv
        (wxd_EvtHandler_Unbind sampleEnv
          (some (run sampleEnv sampleCallbacks (World.init ()) sampleOps).owner) 2).2.1
        2).1 = false) :=
  Unbind_true_iff_registered sampleEnv sampleCallbacks () sampleOps 2 (by decide)

/-- C4, as stated, fails when a token is used twice: after two binds under token `7` and one
unbind of `7`, a callback entry carrying token `7` is still registered, and
`wxd_EvtHandler_Unbind` returns false for it. -/
theorem Unbind_false_although_registered :
    (wxd_EvtHandler_Unbind sampleEnv
        (some (run sampleEnv sampleCallbacks (World.init ())
          [.Bind 1 5 6 7, .Bind 1 5 8 7, .Unbind 7]).owner) 7).1 = false ∧
    7 ∈ registeredTokens (run sampleEnv sampleCallbacks (World.init ())
          [.Bind 1 5 6 7, .Bind 1 5 8 7, .Unbind 7]).owner := by
  decide

theorem drops_dropAll (vec : List RustClosureInfo) (hn : ∀ info ∈ vec, info.closure_ptr ≠ 0) :
    drops (dropAll vec) = vec.map (fun info => info.closure_ptr) := by
  induction vec with
  | nil => rfl
  | cons info rest ih =>
    have h1 := hn info (List.mem_cons_self _ _)
    simp only [dropAll, drops_append, drops_dropIfNonNull, h1, ne_eq, not_false_eq_true,
      if_true, List.map_cons, List.singleton_append]
    rw [ih (fun i hi => hn i (List.mem_cons_of_mem _ hi))]

theorem drops_destructorLoop (m : UMap EventKey (List RustClosureInfo))
    (hn : ∀ e ∈ entries m, e.2.closure_ptr ≠ 0) :
    drops (destructorLoop m) = (entries m).map (fun e => e.2.closure_ptr) := by
  induction m with
  | nil => rfl
  | cons kv m ih =>
    obtain ⟨k, vec⟩ := kv
    simp only [destructorLoop, drops_append, entries, List.map_append, List.map_map]
    rw [ih (fun e he => hn e (by simp only [entries, List.mem_append]; exact Or.inr he))]
    rw [drops_dropAll vec (fun info hi => hn (k, info)
      (by simp only [entries, List.mem_append, List.mem_map]; exact Or.inl ⟨info, hi, rfl⟩))]
    rfl

theorem drops_destructor_of_nonNull (h : WxdEventHandler) (hn : NonNull h) :
    drops (destructor h) = (entries h.closureMap).map (fun e => e.2.closure_ptr) :=
  drops_destructorLoop _ (fun e he => (hn e he).1)

/-- C5. After any run of calls on a handler in which every bind used a token that was not
registered at that moment, `wxd_EvtHandler_UnbindAll` returns the number of callbacks bound at
that moment, drops the closure of each of them once and nothing else, leaves `closureMap`,
`tokenMap` and `wx_bindings_made` empty, and leaves no connection in the owner's event
table. On a null handler and on a handler without client object it returns 0. -/
theorem UnbindAll_removes_everything {σ : Type} (env : WxEnv) (cb : Callbacks σ) (st : σ)
    (ops : List Op) (hfresh : FreshRun env cb (World.init st) ops) :
    (wxd_EvtHandler_UnbindAll env (some (run env cb (World.init st) ops).owner)).1 =
      (boundClosures (run env cb (World.init st) ops).owner).length ∧
    List.Perm
      (drops (wxd_EvtHandler_UnbindAll env (some (run env cb (World.init st) ops).owner)).2.2)
      (boundClosures (run env cb (World.init st) ops).owner) ∧
    (∀ h', existingHandler
        (wxd_EvtHandler_UnbindAll env (some (run env cb (World.init st) ops).owner)).2.1 =
          some h' →
      h'.closureMap = [] ∧ h'.tokenMap = [] ∧ h'.wx_bindings_made = []) ∧
    eventTable ((run env cb (World.init st) ops).trace ++
      (wxd_EvtHandler_UnbindAll env (some (run env cb (World.init st) ops).owner)).2.2) = [] ∧
    (wxd_EvtHandler_UnbindAll env none).1 = 0 ∧
    (wxd_EvtHandler_UnbindAll env (some { clientObject := none })).1 = 0 := by
  have hinv := run_WorldInv env cb _ ops (init_WorldInv env st) hfresh
  generalize (run env cb (World.init st) ops) = w at hinv
  unfold WorldInv OwnerInv at hinv
  refine ⟨?_, ?_, ?_, ?_, rfl, rfl⟩
  · cases hh : existingHandler (some w.owner) with
    | none => simp [wxd_EvtHandler_UnbindAll, boundClosures, hh]
    | some h =>
      rw [hh] at hinv
      obtain ⟨hs, hm⟩ := Reachable_invariant env h hinv.1
      simp [wxd_EvtHandler_UnbindAll, boundClosures, hh, (UnbindAll_spec env h hs hm).1]
  · cases hh : existingHandler (some w.owner) with
    | none => simp [wxd_EvtHandler_UnbindAll, boundClosures, hh, drops]
    | some h =>
      rw [hh] at hinv
      obtain ⟨hs, hm⟩ := Reachable_invariant env h hinv.1
      simp only [wxd_EvtHandler_UnbindAll, boundClosures, hh]
      rw [← drops_destructor_of_nonNull h hinv.2.1, List.perm_iff_count]
      intro p
      have h1 := UnbindAllLoop_live env p (UMap.keys h.tokenMap) h
      have h2 : (UnbindAllLoop env (UMap.keys h.tokenMap) h).2.1 = WxdEventHandler.new :=
        (UnbindAll_spec env h hs hm).2
      rw [h2] at h1
      simpa [UnbindAll, destructor, WxdEventHandler.new, destructorLoop, drops] using h1
  · intro h' hh'
    cases hh : existingHandler (some w.owner) with
    | none =>
      simp only [wxd_EvtHandler_UnbindAll, hh] at hh'
      exact Option.noConfusion hh'
    | some h =>
      rw [hh] at hinv
      obtain ⟨hs, hm⟩ := Reachable_invariant env h hinv.1
      simp only [wxd_EvtHandler_UnbindAll, hh] at hh'
      simp only [storeHandler, Option.map_some', existingHandler, Option.some.injEq] at hh'
      rw [← hh', (UnbindAll_spec env h hs hm).2]
      exact ⟨rfl, rfl, rfl⟩
  · cases hh : existingHandler (some w.owner) with
    | none =>
      rw [hh] at hinv
      simpa [wxd_EvtHandler_UnbindAll, hh] using hinv
    | some h =>
      rw [hh] at hinv
      obtain ⟨hs, hm⟩ := Reachable_invariant env h hinv.1
      simp only [wxd_EvtHandler_UnbindAll, hh]
      rw [eventTable_append]
      have h1 := UnbindAllLoop_eventTable env (UMap.keys h.tokenMap) h _ hinv.2.2
      have h2 : (UnbindAllLoop env (UMap.keys h.tokenMap) h).2.1 = WxdEventHandler.new :=
        (UnbindAll_spec env h hs hm).2
      rw [h2] at h1
      exact h1.eq_nil

theorem UnbindAll_removes_everything_witness :
    (wxd_EvtHandler_UnbindAll sampleEnv
        (some (run sampleEnv sampleCallbacks (World.init ()) sampleOps).owner)).1 =
      (boundClosures (run sampleEnv sampleCallbacks (World.init ()) sampleOps).owner).length ∧
    List.Perm
      (drops (wxd_EvtHandler_UnbindAll sampleEnv
        (some (run sampleEnv sampleCallbacks (World.init ()) sampleOps).owner)).2.2)
      (boundClosures (run sampleEnv sampleCallbacks (World.init ()) sampleOps).owner) ∧
    (∀ h', existingHandler
        (wxd_EvtHandler_UnbindAll sampleEnv
          (some (run sampleEnv sampleCallbacks (World.init ()) sampleOps).owner)).2.1 =
          some h' →
      h'.closureMap = [] ∧ h'.tokenMap = [] ∧ h'.wx_bindings_made = []) ∧
    eventTable ((run sampleEnv sampleCallbacks (World.init ()) sampleOps).trace ++
      (wxd_EvtHandler_UnbindAll sampleEnv
        (some (run sampleEnv sampleCallbacks (World.init ()) sampleOps).owner)).2.2) = [] ∧
    (wxd_EvtHandler_UnbindAll sampleEnv none).1 = 0 ∧
    (wxd_EvtHandler_UnbindAll sampleEnv (some { clientObject := none })).1 = 0 :=
  UnbindAll_removes_everything sampleEnv sampleCallbacks () sampleOps (by decide)

/-! ## Dispatch -/

theorem invocations_append (a b : List Effect) :
    invocations (a ++ b) = invocations a ++ invocations b := by
  induction a with
  | nil => rfl
  | cons e a ih => cases e <;> simp [invocations, ih]

theorem runHandlers_cons_skip {σ : Type} (cb : Callbacks σ) (info : RustClosureInfo)
    (rest : List RustClosureInfo) (st : σ) (event : wxEvent)
    (hc : ¬ (info.closure_ptr ≠ 0 ∧ info.rust_trampoline ≠ 0)) :
    runHandlers cb (info :: rest) st event = runHandlers cb rest st event := by
  rw [runHandlers, if_neg hc]

theorem runHandlers_cons_consume {σ : Type} (cb : Callbacks σ) (info : RustClosureInfo)
    (rest : List RustClosureInfo) (st : σ) (event : wxEvent)
    (hc : info.closure_ptr ≠ 0 ∧ info.rust_trampoline ≠ 0)
    (hsk : (cb info.rust_trampoline info.closure_ptr st
      { event with skipped := true }).2.skipped = false) :
    runHandlers cb (info :: rest) st event =
      (true, (cb info.rust_trampoline info.closure_ptr st { event with skipped := true }).1,
        (cb info.rust_trampoline info.closure_ptr st { event with skipped := true }).2,
        [Effect.call info true false]) := by
  rw [runHandlers, if_pos hc]
  simp only [hsk, if_true]

theorem runHandlers_cons_pass {σ : Type} (cb : Callbacks σ) (info : RustClosureInfo)
    (rest : List RustClosureInfo) (st : σ) (event : wxEvent)
    (hc : info.closure_ptr ≠ 0 ∧ info.rust_trampoline ≠ 0)
    (hsk : (cb info.rust_trampoline info.closure_ptr st
      { event with skipped := true }).2.skipped = true) :
    runHandlers cb (info :: rest) st event =
      ((runHandlers cb rest
          (cb info.rust_trampoline info.closure_ptr st { event with skipped := true }).1
          (cb info.rust_trampoline info.closure_ptr st { event with skipped := true }).2).1,
       (runHandlers cb rest
          (cb info.rust_trampoline info.closure_ptr st { event with skipped := true }).1
          (cb info.rust_trampoline info.closure_ptr st { event with skipped := true }).2).2.1,
       (runHandlers cb rest
          (cb info.rust_trampoline info.closure_ptr st { event with skipped := true }).1
          (cb info.rust_trampoline info.closure_ptr st { event with skipped := true }).2).2.2.1,
       Effect.call info true true ::
        (runHandlers cb rest
          (cb info.rust_trampoline info.closure_ptr st { event with skipped := true }).1
          (cb info.rust_trampoline info.closure_ptr st
            { event with skipped := true }).2).2.2.2) := by
  rw [runHandlers, if_pos hc]
  simp only [hsk, Bool.true_eq_false, if_false]

/-- The two loops of `DispatchEvent` are one loop over the two vectors in a row. -/
theorem runHandlers_append {σ : Type} (cb : Callbacks σ) (a b : List RustClosureInfo) (st : σ)
    (event : wxEvent) :
    runHandlers cb (a ++ b) st event =
      if (runHandlers cb a st event).1 = false then
        ((runHandlers cb b (runHandlers cb a st event).2.1 (runHandlers cb a st event).2.2.1).1,
         (runHandlers cb b (runHandlers cb a st event).2.1 (runHandlers cb a st event).2.2.1).2.1,
         (runHandlers cb b (runHandlers cb a st event).2.1
            (runHandlers cb a st event).2.2.1).2.2.1,
         (runHandlers cb a st event).2.2.2 ++
           (runHandlers cb b (runHandlers cb a st event).2.1
            (runHandlers cb a st event).2.2.1).2.2.2)
      else runHandlers cb a st event := by
  induction a generalizing st event with
  | nil => simp [runHandlers]
  | cons info rest ih =>
    rw [List.cons_append]
    by_cases hc : info.closure_ptr ≠ 0 ∧ info.rust_trampoline ≠ 0
    · cases hsk : (cb info.rust_trampoline info.closure_ptr st
          { event with skipped := true }).2.skipped with
      | false =>
        rw [runHandlers_cons_consume cb info _ st event hc hsk,
          runHandlers_cons_consume cb info _ st event hc hsk]
        simp
      | true =>
        rw [runHandlers_cons_pass cb info _ st event hc hsk,
          runHandlers_cons_pass cb info _ st event hc hsk, ih]
        split <;> simp
    · rw [runHandlers_cons_skip cb info _ st event hc,
        runHandlers_cons_skip cb info _ st event hc]
      exact ih _ _

theorem runKey_eq {σ : Type} (cb : Callbacks σ) (h : WxdEventHandler) (key : EventKey) (st : σ)
    (event : wxEvent) : runKey cb h key st event = runHandlers cb (registeredFor h key) st event := by
  unfold runKey registeredFor
  cases UMap.find key h.closureMap <;> simp [runHandlers]

theorem dispatchLoops_eq {σ : Type} (env : WxEnv) (cb : Callbacks σ) (h : WxdEventHandler)
    (st : σ) (event : wxEvent) :
    dispatchLoops env cb h st event =
      runHandlers cb
        (registeredFor h (event.eventType, event.id) ++
          registeredFor h (event.eventType, env.wxID_ANY)) st event := by
  simp only [dispatchLoops, runKey_eq, runHandlers_append]

/-- What one loop does: it calls the callable entries in order, each with the skip flag set,
and stops after the first call that returns with the flag cleared. -/
theorem runHandlers_spec {σ : Type} (cb : Callbacks σ) (vec : List RustClosureInfo) (st : σ)
    (event : wxEvent) :
    (invocations (runHandlers cb vec st event).2.2.2).map Prod.fst <+:
      vec.filter RustClosureInfo.callable ∧
    (∀ c ∈ invocations (runHandlers cb vec st event).2.2.2, c.2.1 = true) ∧
    (∀ c ∈ (invocations (runHandlers cb vec st event).2.2.2).dropLast, c.2.2 = true) ∧
    ((runHandlers cb vec st event).1 = true →
      ∃ c, (invocations (runHandlers cb vec st event).2.2.2).getLast? = some c ∧
        c.2.2 = false) ∧
    ((runHandlers cb vec st event).1 = false →
      (invocations (runHandlers cb vec st event).2.2.2).map Prod.fst =
        vec.filter RustClosureInfo.callable ∧
      ∀ c ∈ invocations (runHandlers cb vec st event).2.2.2, c.2.2 = true) := by
  induction vec generalizing st event with
  | nil => simp [runHandlers, invocations]
  | cons info rest ih =>
    by_cases hc : info.closure_ptr ≠ 0 ∧ info.rust_trampoline ≠ 0
    · have hcall : info.callable = true := by simp [RustClosureInfo.callable, hc]
      simp only [List.filter_cons, hcall, if_true]
      cases hsk : (cb info.rust_trampoline info.closure_ptr st
          { event with skipped := true }).2.skipped with
      | false =>
        rw [runHandlers_cons_consume cb info _ st event hc hsk]
        simp [invocations]
      | true =>
        rw [runHandlers_cons_pass cb info _ st event hc hsk]
        obtain ⟨h1, h2, h3, h4, h5⟩ := ih
          (cb info.rust_trampoline info.closure_ptr st { event with skipped := true }).1
          (cb info.rust_trampoline info.closure_ptr st { event with skipped := true }).2
        simp only [invocations, List.map_cons]
        refine ⟨(List.prefix_cons_inj _).mpr h1, ?_, ?_, ?_, ?_⟩
        · intro c hc'
          rcases List.mem_cons.mp hc' with rfl | hc'
          · rfl
          · exact h2 c hc'
        · intro c hc'
          cases hinv : invocations (runHandlers cb rest
              (cb info.rust_trampoline info.closure_ptr st { event with skipped := true }).1
              (cb info.rust_trampoline info.closure_ptr st
                { event with skipped := true }).2).2.2.2 with
          | nil => simp [hinv] at hc'
          | cons x xs =>
            rw [hinv, List.dropLast_cons₂] at hc'
            rcases List.mem_cons.mp hc' with rfl | hc'
            · rfl
            · exact h3 c (by rw [hinv]; exact hc')
        · intro hcons
          obtain ⟨c, hl, hx⟩ := h4 hcons
          refine ⟨c, ?_, hx⟩
          rw [List.getLast?_cons, hl]
          rfl
        · intro hcons
          obtain ⟨ha, hb⟩ := h5 hcons
          refine ⟨by rw [ha], ?_⟩
          intro c hc'
          rcases List.mem_cons.mp hc' with rfl | hc'
          · rfl
          · exact hb c hc'
    · have hcall : info.callable = false := by simp [RustClosureInfo.callable, hc]
      rw [runHandlers_cons_skip cb info _ st event hc]
      simp only [List.filter_cons, hcall]
      exact ih st event

theorem invocations_dropIfNonNull (p : Ptr) : invocations (dropIfNonNull p) = [] := by
  unfold dropIfNonNull
  split <;> rfl

theorem invocations_singleton_disconnectCall (env : WxEnv) (et id : Int) :
    invocations [disconnectCall env et id] = [] := by
  unfold disconnectCall
  split <;> rfl

theorem UnbindClosure_invocations (env : WxEnv) (token : Nat) (h : WxdEventHandler) :
    invocations (UnbindClosure env token h).2.2 = [] := by
  cases hr : (UnbindClosure env token h).1 with
  | false => rw [(UnbindClosure_false env token h hr).1]; rfl
  | true =>
    obtain ⟨event_type, widget_id, cp, vec, hit, vec', _, _, _, hsh⟩ :=
      UnbindClosure_true env token h hr
    rw [hsh]
    split
    · simp only [invocations_append, invocations_dropIfNonNull,
        invocations_singleton_disconnectCall, List.append_nil]
    · exact invocations_dropIfNonNull _

theorem UnbindAllLoop_invocations (env : WxEnv) (ts : List Nat) (h : WxdEventHandler) :
    invocations (UnbindAllLoop env ts h).2.2 = [] := by
  induction ts generalizing h with
  | nil => rfl
  | cons t ts ih =>
    simp only [UnbindAllLoop, invocations_append, UnbindClosure_invocations, ih, List.append_nil]

theorem DispatchEvent_invocations {σ : Type} (env : WxEnv) (cb : Callbacks σ) (event : wxEvent)
    (h : WxdEventHandler) (st : σ) :
    invocations (DispatchEvent env cb event h st).effects =
      invocations (dispatchLoops env cb h st event).2.2.2 := by
  simp only [DispatchEvent]
  split
  · simp only [invocations_append, UnbindAll, UnbindAllLoop_invocations, List.append_nil]
  · rfl

theorem DispatchEvent_consumed {σ : Type} (env : WxEnv) (cb : Callbacks σ) (event : wxEvent)
    (h : WxdEventHandler) (st : σ) :
    (DispatchEvent env cb event h st).consumed = (dispatchLoops env cb h st event).1 := by
  simp only [DispatchEvent]
  split <;> rfl

/-- C8. Final propagation state: when `DispatchEvent` returns, the event's skip flag is
cleared exactly when some callback consumed the event or the event is vetoed at that
moment (a `wxCloseEvent` whose veto is set, or a `wxNotifyEvent` that is not allowed), and
set otherwise; the event counts as consumed exactly when some invoked callback returned with
the skip flag cleared. So a vetoed event, consumed or not, is never left to the toolkit's
default handling, and an event that is neither consumed nor vetoed always is. -/
theorem DispatchEvent_final_skip {σ : Type} (env : WxEnv) (cb : Callbacks σ) (event : wxEvent)
    (h : WxdEventHandler) (st : σ) :
    ((DispatchEvent env cb event h st).event.skipped = false ↔
      (DispatchEvent env cb event h st).consumed = true ∨
        IsEventVetoed (DispatchEvent env cb event h st).event = true) ∧
    ((DispatchEvent env cb event h st).event.skipped = true ↔
      (DispatchEvent env cb event h st).consumed = false ∧
        IsEventVetoed (DispatchEvent env cb event h st).event = false) ∧
    ((DispatchEvent env cb event h st).consumed = true ↔
      ∃ c ∈ invocations (DispatchEvent env cb event h st).effects, c.2.2 = false) ∧
    (IsEventVetoed (DispatchEvent env cb event h st).event = true ↔
      (DispatchEvent env cb event h st).event.cls = EventClass.closeEvent true ∨
        (DispatchEvent env cb event h st).event.cls = EventClass.notifyEvent false) ∧
    (DispatchEvent env cb event h st).event.cls = (dispatchLoops env cb h st event).2.2.1.cls := by
  have hev : (DispatchEvent env cb event h st).event =
      finalSkip (dispatchLoops env cb h st event).1 (dispatchLoops env cb h st event).2.2.1 := by
    simp only [DispatchEvent]
    split <;> rfl
  have hcls : (DispatchEvent env cb event h st).event.cls =
      (dispatchLoops env cb h st event).2.2.1.cls := by
    rw [hev]
    unfold finalSkip
    split
    · rfl
    · split <;> rfl
  have hveto : IsEventVetoed (DispatchEvent env cb event h st).event =
      IsEventVetoed (dispatchLoops env cb h st event).2.2.1 := by
    unfold IsEventVetoed
    rw [hcls]
  have hskip : (DispatchEvent env cb event h st).event.skipped =
      !((dispatchLoops env cb h st event).1 ||
        IsEventVetoed (dispatchLoops env cb h st event).2.2.1) := by
    rw [hev]
    unfold finalSkip
    cases (dispatchLoops env cb h st event).1 <;>
      cases IsEventVetoed (dispatchLoops env cb h st event).2.2.1 <;> simp
  refine ⟨?_, ?_, ?_, ?_, hcls⟩
  · rw [hskip, hveto, DispatchEvent_consumed]
    cases (dispatchLoops env cb h st event).1 <;>
      cases IsEventVetoed (dispatchLoops env cb h st event).2.2.1 <;> simp
  · rw [hskip, hveto, DispatchEvent_consumed]
    cases (dispatchLoops env cb h st event).1 <;>
      cases IsEventVetoed (dispatchLoops env cb h st event).2.2.1 <;> simp
  · rw [DispatchEvent_invocations, DispatchEvent_consumed, dispatchLoops_eq]
    obtain ⟨_, _, _, h4, h5⟩ := runHandlers_spec cb
      (registeredFor h (event.eventType, event.id) ++
        registeredFor h (event.eventType, env.wxID_ANY)) st event
    constructor
    · intro hc
      obtain ⟨c, hl, hx⟩ := h4 hc
      exact ⟨c, List.mem_of_getLast?_eq_some hl, hx⟩
    · rintro ⟨c, hc, hx⟩
      by_contra hne
      have hf := (h5 (by simpa using hne)).2 c hc
      rw [hx] at hf
      exact Bool.noConfusion hf
  · unfold IsEventVetoed
    cases (DispatchEvent env cb event h st).event.cls with
    | closeEvent veto => cases veto <;> simp
    | notifyEvent allowed => cases allowed <;> simp
    | other => simp

theorem BindWithId_rejected (env : WxEnv) (handler : Option wxEvtHandler) (c id : Int)
    (tramp closure : Ptr) (token : Nat)
    (hrej : handler = none ∨ tramp = 0 ∨ closure = 0 ∨
      env.get_wx_event_type_for_c_enum c = env.wxEVT_NULL) :
    (wxd_EvtHandler_BindWithId env handler c id tramp closure token).2 =
      (if closure = 0 then [] else [Effect.drop closure]) ∧
    closureMapOf (wxd_EvtHandler_BindWithId env handler c id tramp closure token).1 = closureMapOf handler ∧
    tokenMapOf (wxd_EvtHandler_BindWithId env handler c id tramp closure token).1 = tokenMapOf handler ∧
    ((wxd_EvtHandler_BindWithId env handler c id tramp closure token).1 = handler ∨
      (existingHandler handler = none ∧
        existingHandler (wxd_EvtHandler_BindWithId env handler c id tramp closure token).1 =
          some WxdEventHandler.new)) := by
  have hdrop : dropIfNonNull closure = (if closure = 0 then [] else [Effect.drop closure]) := by
    unfold dropIfNonNull
    by_cases hc : closure = 0 <;> simp [hc]
  cases handler with
  | none => exact ⟨hdrop, rfl, rfl, Or.inl rfl⟩
  | some o =>
    simp only [wxd_EvtHandler_BindWithId]
    by_cases hnull : tramp = 0 ∨ closure = 0
    · rw [if_pos hnull]
      exact ⟨hdrop, rfl, rfl, Or.inl rfl⟩
    · rw [if_neg hnull]
      have hev : env.get_wx_event_type_for_c_enum c = env.wxEVT_NULL := by
        rcases hrej with h1 | h1 | h1 | h1
        · exact Option.noConfusion h1
        · exact absurd (Or.inl h1) hnull
        · exact absurd (Or.inr h1) hnull
        · exact h1
      obtain ⟨co⟩ := o
      rcases co with _ | ⟨_ | h⟩
      · simp only [GetOrCreateEventHandler, hev, if_true]
        exact ⟨hdrop, rfl, rfl, Or.inr ⟨rfl, rfl⟩⟩
      · simp only [GetOrCreateEventHandler]
        exact ⟨hdrop, trivial, trivial, Or.inl trivial⟩
      · simp only [GetOrCreateEventHandler, hev, if_true]
        exact ⟨hdrop, trivial, trivial, Or.inl trivial⟩

/-- C10. Rejected binds: when the handler is null, the trampoline is null, the closure
pointer is null, or the event-type enum maps to `wxEVT_NULL`, `wxd_EvtHandler_Bind` and
`wxd_EvtHandler_BindWithId` have exactly one effect, the drop of the closure pointer, when
that pointer is not null, and no effect at all when it is null: nothing is registered and no
call is made on the owner. `closureMap` and `tokenMap` are as before (the handler pointer is
the same, or a custom handler with empty maps has been created where there was none). -/
theorem rejected_bind_drops_closure_once (env : WxEnv) (handler : Option wxEvtHandler)
    (eventTypeC id : Int) (rust_trampoline_fn rust_closure_ptr : Ptr) (token : Nat)
    (hrej : handler = none ∨ rust_trampoline_fn = 0 ∨ rust_closure_ptr = 0 ∨
      env.get_wx_event_type_for_c_enum eventTypeC = env.wxEVT_NULL) :
    ((wxd_EvtHandler_Bind env handler eventTypeC rust_trampoline_fn rust_closure_ptr token).2 =
        (if rust_closure_ptr = 0 then [] else [Effect.drop rust_closure_ptr]) ∧
      closureMapOf
          (wxd_EvtHandler_Bind env handler eventTypeC rust_trampoline_fn rust_closure_ptr
            token).1 = closureMapOf handler ∧
      tokenMapOf
          (wxd_EvtHandler_Bind env handler eventTypeC rust_trampoline_fn rust_closure_ptr
            token).1 = tokenMapOf handler ∧
      ((wxd_EvtHandler_Bind env handler eventTypeC rust_trampoline_fn rust_closure_ptr
            token).1 = handler ∨
        (existingHandler handler = none ∧
          existingHandler
            (wxd_EvtHandler_Bind env handler eventTypeC rust_trampoline_fn rust_closure_ptr
              token).1 = some WxdEventHandler.new))) ∧
    ((wxd_EvtHandler_BindWithId env handler eventTypeC id rust_trampoline_fn rust_closure_ptr
          token).2 =
        (if rust_closure_ptr = 0 then [] else [Effect.drop rust_closure_ptr]) ∧
      closureMapOf
          (wxd_EvtHandler_BindWithId env handler eventTypeC id rust_trampoline_fn
            rust_closure_ptr token).1 = closureMapOf handler ∧
      tokenMapOf
          (wxd_EvtHandler_BindWithId env handler eventTypeC id rust_trampoline_fn
            rust_closure_ptr token).1 = tokenMapOf handler ∧
      ((wxd_EvtHandler_BindWithId env handler eventTypeC id rust_trampoline_fn rust_closure_ptr
            token).1 = handler ∨
        (existingHandler handler = none ∧
          existingHandler
            (wxd_EvtHandler_BindWithId env handler eventTypeC id rust_trampoline_fn
              rust_closure_ptr token).1 = some WxdEventHandler.new))) :=
  ⟨BindWithId_rejected env handler eventTypeC env.wxID_ANY rust_trampoline_fn rust_closure_ptr
      token hrej,
    BindWithId_rejected env handler eventTypeC id rust_trampoline_fn rust_closure_ptr token hrej⟩

theorem rejected_bind_drops_closure_once_witness :
    ((wxd_EvtHandler_Bind sampleEnv (some { clientObject := none }) 9 5 6 7).2 =
        (if (6 : Ptr) = 0 then [] else [Effect.drop 6]) ∧
      closureMapOf (wxd_EvtHandler_Bind sampleEnv (some { clientObject := none }) 9 5 6 7).1 =
        closureMapOf (some { clientObject := none }) ∧
      tokenMapOf (wxd_EvtHandler_Bind sampleEnv (some { clientObject := none }) 9 5 6 7).1 =
        tokenMapOf (some { clientObject := none }) ∧
      ((wxd_EvtHandler_Bind sampleEnv (some { clientObject := none }) 9 5 6 7).1 =
          some { clientObject := none } ∨
        (existingHandler (some { clientObject := none }) = none ∧
          existingHandler (wxd_EvtHandler_Bind sampleEnv (some { clientObject := none }) 9 5 6 7).1 =
            some WxdEventHandler.new))) ∧
    ((wxd_EvtHandler_BindWithId sampleEnv (some { clientObject := none }) 9 4 5 6 7).2 =
        (if (6 : Ptr) = 0 then [] else [Effect.drop 6]) ∧
      closureMapOf
          (wxd_EvtHandler_BindWithId sampleEnv (some { clientObject := none }) 9 4 5 6 7).1 =
        closureMapOf (some { clientObject := none }) ∧
      tokenMapOf
          (wxd_EvtHandler_BindWithId sampleEnv (some { clientObject := none }) 9 4 5 6 7).1 =
        tokenMapOf (some { clientObject := none }) ∧
      ((wxd_EvtHandler_BindWithId sampleEnv (some { clientObject := none }) 9 4 5 6 7).1 =
          some { clientObject := none } ∨
        (existingHandler (some { clientObject := none }) = none ∧
          existingHandler
            (wxd_EvtHandler_BindWithId sampleEnv (some { clientObject := none }) 9 4 5 6 7).1 =
            some WxdEventHandler.new))) :=
  rejected_bind_drops_closure_once sampleEnv (some { clientObject := none }) 9 4 5 6 7
    (Or.inr (Or.inr (Or.inr (by decide))))

/-! ## Variants -/

theorem toInt_of_fits (n : Int) (hlo : -2147483648 ≤ n) (hhi : n ≤ 2147483647) :
    toInt n = n := by
  unfold toInt
  omega

theorem toInt_length (s : wxString) (h : s.length ≤ 2147483647) :
    toInt (s.length : Int) = s.length := by
  apply toInt_of_fits <;> omega

theorem copy_wxstring_to_buffer_fst (s : wxString) (buffer : CharBuf) (buffer_len : Nat) :
    (copy_wxstring_to_buffer s buffer buffer_len).1 = s.length := by
  cases buffer with
  | none => rfl
  | some mem =>
    simp only [copy_wxstring_to_buffer]
    by_cases h : buffer_len > 0
    · rw [if_pos h]
    · rw [if_neg h]

/-- C11, as the code has it. For a variant that converts to a string whose UTF-8 length is at
most `INT_MAX`, `wxd_Variant_GetString_Utf8` returns that length, which is not negative,
whatever buffer and buffer length are passed, a null buffer and a zero length included. For
a null variant handle, and for a variant that does not convert to a string, it returns -1; in
both cases too the result does not depend on the buffer arguments. -/
theorem GetString_Utf8_returns_length (v : wxVariant) (s : wxString)
    (hs : v.convertString = some s) (hlen : s.length ≤ 2147483647) :
    (∀ out out_len, (wxd_Variant_GetString_Utf8 (some v) out out_len).1 = s.length) ∧
    (∀ out out_len, 0 ≤ (wxd_Variant_GetString_Utf8 (some v) out out_len).1) ∧
    (∀ out out_len, wxd_Variant_GetString_Utf8 none out out_len = (-1, out)) ∧
    (∀ (v' : wxVariant) out out_len, v'.convertString = none →
      (wxd_Variant_GetString_Utf8 (some v') out out_len).1 = -1) ∧
    (∀ variant out out_len out' out_len',
      (wxd_Variant_GetString_Utf8 variant out out_len).1 =
        (wxd_Variant_GetString_Utf8 variant out' out_len').1) := by
  have h1 : ∀ out out_len, (wxd_Variant_GetString_Utf8 (some v) out out_len).1 = s.length := by
    intro out out_len
    simp only [wxd_Variant_GetString_Utf8, hs, copy_wxstring_to_buffer_fst]
    exact toInt_length s hlen
  refine ⟨h1, ?_, fun _ _ => rfl, ?_, ?_⟩
  · intro out out_len
    rw [h1]
    exact Int.natCast_nonneg _
  · intro v' out out_len hv'
    simp only [wxd_Variant_GetString_Utf8, hv']
  · intro variant out out_len out' out_len'
    cases variant with
    | none => rfl
    | some w =>
      cases hw : w.convertString with
      | none => simp only [wxd_Variant_GetString_Utf8, hw]
      | some t => simp only [wxd_Variant_GetString_Utf8, hw, copy_wxstring_to_buffer_fst]

theorem GetString_Utf8_returns_length_witness :
    (∀ out out_len,
      (wxd_Variant_GetString_Utf8 (some (wxVariant.ofLong 0)) out out_len).1 =
        ([48] : wxString).length) ∧
    (∀ out out_len, 0 ≤ (wxd_Variant_GetString_Utf8 (some (wxVariant.ofLong 0)) out out_len).1) ∧
    (∀ out out_len, wxd_Variant_GetString_Utf8 none out out_len = (-1, out)) ∧
    (∀ (v' : wxVariant) out out_len, v'.convertString = none →
      (wxd_Variant_GetString_Utf8 (some v') out out_len).1 = -1) ∧
    (∀ variant out out_len out' out_len',
      (wxd_Variant_GetString_Utf8 variant out out_len).1 =
        (wxd_Variant_GetString_Utf8 variant out' out_len').1) :=
  GetString_Utf8_returns_length (wxVariant.ofLong 0) [48] (by decide) (by decide)

/-- C11, as stated, fails for a null variant handle: with a buffer of three bytes the call
returns -1, which is not a length. -/
theorem GetString_Utf8_null_handle_negative :
    (wxd_Variant_GetString_Utf8 none (some [7, 7, 7]) 3).1 = -1 ∧
    ¬ 0 ≤ (wxd_Variant_GetString_Utf8 none (some [7, 7, 7]) 3).1 := by
  decide

/-- C12. `wxd_Variant_GetInt32` never truncates silently: with a non-null variant and a
non-null `out_value` it returns true exactly when the variant converts to a long `lv` with
`INT32_MIN <= lv <= INT32_MAX`, and then `*out_value` is `lv`; when it returns false (the
conversion fails or `lv` is out of that range) `*out_value` is as before. So for every
32-bit `x`, `wxd_Variant_SetInt32 x` followed by `wxd_Variant_GetInt32` returns true and
writes `x`. -/
theorem GetInt32_never_truncates (v v0 : wxVariant) (cur x : Int) (hlo : INT32_MIN ≤ x)
    (hhi : x ≤ INT32_MAX) :
    ((wxd_Variant_GetInt32 (some v) (some cur)).1 = true ↔
      ∃ lv, v.convertLong = some lv ∧ INT32_MIN ≤ lv ∧ lv ≤ INT32_MAX) ∧
    (∀ lv, v.convertLong = some lv → INT32_MIN ≤ lv → lv ≤ INT32_MAX →
      wxd_Variant_GetInt32 (some v) (some cur) = (true, some lv)) ∧
    ((wxd_Variant_GetInt32 (some v) (some cur)).1 = false →
      (wxd_Variant_GetInt32 (some v) (some cur)).2 = some cur) ∧
    (v.convertLong = none → wxd_Variant_GetInt32 (some v) (some cur) = (false, some cur)) ∧
    (∀ lv, v.convertLong = some lv → (lv < INT32_MIN ∨ INT32_MAX < lv) →
      wxd_Variant_GetInt32 (some v) (some cur) = (false, some cur)) ∧
    wxd_Variant_GetInt32 (wxd_Variant_SetInt32 (some v0) x) (some cur) = (true, some x) := by
  have hin : ∀ lv, v.convertLong = some lv → INT32_MIN ≤ lv → lv ≤ INT32_MAX →
      wxd_Variant_GetInt32 (some v) (some cur) = (true, some lv) := by
    intro lv hc h1 h2
    have hno : ¬ (lv < INT32_MIN ∨ lv > INT32_MAX) := by
      intro h
      rcases h with h | h <;> omega
    simp only [wxd_Variant_GetInt32, hc, if_neg hno]
    rw [toInt_of_fits lv (by simpa [INT32_MIN] using h1) (by simpa [INT32_MAX] using h2)]
  have hout : ∀ lv, v.convertLong = some lv → (lv < INT32_MIN ∨ INT32_MAX < lv) →
      wxd_Variant_GetInt32 (some v) (some cur) = (false, some cur) := by
    intro lv hc h
    have hyes : lv < INT32_MIN ∨ lv > INT32_MAX := h
    simp only [wxd_Variant_GetInt32, hc, if_pos hyes]
  have hnone : v.convertLong = none →
      wxd_Variant_GetInt32 (some v) (some cur) = (false, some cur) := by
    intro hc
    simp only [wxd_Variant_GetInt32, hc]
  refine ⟨?_, hin, ?_, hnone, hout, ?_⟩
  · constructor
    · intro ht
      cases hc : v.convertLong with
      | none => rw [hnone hc] at ht; exact Bool.noConfusion ht
      | some lv =>
        by_cases hr : lv < INT32_MIN ∨ INT32_MAX < lv
        · rw [hout lv hc hr] at ht; exact Bool.noConfusion ht
        · exact ⟨lv, rfl, by omega, by omega⟩
    · rintro ⟨lv, hc, h1, h2⟩
      rw [hin lv hc h1 h2]
  · intro hf
    cases hc : v.convertLong with
    | none => rw [hnone hc]
    | some lv =>
      by_cases hr : lv < INT32_MIN ∨ INT32_MAX < lv
      · rw [hout lv hc hr]
      · rw [hin lv hc (by omega) (by omega)] at hf
        exact Bool.noConfusion hf
  · have hno : ¬ (x < INT32_MIN ∨ x > INT32_MAX) := by
      intro h
      rcases h with h | h <;> omega
    simp only [wxd_Variant_SetInt32, wxd_Variant_GetInt32, wxVariant.ofLong, if_neg hno]
    rw [toInt_of_fits x (by simpa [INT32_MIN] using hlo) (by simpa [INT32_MAX] using hhi)]

theorem GetInt32_never_truncates_witness :
    wxd_Variant_GetInt32 (wxd_Variant_SetInt32 (some (wxVariant.ofLong 7)) (-5)) (some 0) =
      (true, some (-5)) :=
  (GetInt32_never_truncates (wxVariant.ofLong 7) (wxVariant.ofLong 7) 0 (-5) (by decide)
    (by decide)).2.2.2.2.2

/-! ## Dates -/

/-- C13, at the failing input. The parameter check of `wxd_DateTime_FromComponents` lets
every day up to 31 pass, whatever the month: it rejects exactly the tuples with `year <= 0`,
`month >= 12`, a day outside `1..31` or a time outside the day. For 31 February 2023 (month
1, 0-based) the check passes although February 2023 has 28 days, the `wxDateTime` is
constructed, and null is returned only because the constructed object is invalid. -/
theorem FromComponents_constructs_february_31 :
    rejectsParameters 2023 1 31 0 0 0 = false ∧
    GetNumberOfDays 1 2023 = 28 ∧
    (wxd_DateTime_FromComponents true 2023 1 31 0 0 0).constructed = true ∧
    (wxd_DateTime_FromComponents true 2023 1 31 0 0 0).returnedNonNull = false ∧
    (∀ (year : Int) (month : Nat) (day hour minute second : Int),
      rejectsParameters year month day hour minute second = false ↔
        (0 < year ∧ month < 12 ∧ 0 < day ∧ day ≤ 31 ∧ 0 ≤ hour ∧ hour < 24 ∧
          0 ≤ minute ∧ minute < 60 ∧ 0 ≤ second ∧ second < 60)) := by
  refine ⟨by decide, by decide, by decide, by decide, ?_⟩
  intro year month day hour minute second
  simp only [rejectsParameters, decide_eq_false_iff_not]
  omega

/-! ## Translations -/

/-- C14, as the code has it. With non-null handle and singular string, when the catalog has
no translation `wxd_Translations_GetTranslatedPluralString` returns -1 and leaves the buffer
alone if `plural` is null or `n` is 1, and otherwise it copies the `plural` argument as the
fallback and returns its length; when the catalog has a translation it returns the length of
that. Lengths are returned through `(int)`, so they are exact up to `INT_MAX`. Hence a
non-negative result is the length of a string of the catalog or of the `plural` fallback. -/
theorem GetTranslatedPluralString_result (FromUTF8 : List Nat → wxString)
    (t : wxTranslations) (s : List Nat) (plural domain : CStr) (n : Nat) (buffer : CharBuf)
    (buffer_len : Nat) :
    (t.GetTranslatedString (FromUTF8 s) n (domainString FromUTF8 domain) = none →
      (plural = none ∨ n = 1) →
      wxd_Translations_GetTranslatedPluralString FromUTF8 (some t) (some s) plural n domain
        buffer buffer_len = (-1, buffer)) ∧
    (∀ p, t.GetTranslatedString (FromUTF8 s) n (domainString FromUTF8 domain) = none →
      plural = some p → n ≠ 1 →
      wxd_Translations_GetTranslatedPluralString FromUTF8 (some t) (some s) plural n domain
        buffer buffer_len =
        (toInt (FromUTF8 p).length,
          (copy_wxstring_to_buffer (FromUTF8 p) buffer buffer_len).2)) ∧
    (∀ r, t.GetTranslatedString (FromUTF8 s) n (domainString FromUTF8 domain) = some r →
      wxd_Translations_GetTranslatedPluralString FromUTF8 (some t) (some s) plural n domain
        buffer buffer_len =
        (toInt r.length, (copy_wxstring_to_buffer r buffer buffer_len).2)) ∧
    (∀ w : wxString, w.length ≤ 2147483647 → toInt (w.length : Int) = w.length) ∧
    (0 ≤ (wxd_Translations_GetTranslatedPluralString FromUTF8 (some t) (some s) plural n
        domain buffer buffer_len).1 →
      (∃ r, t.GetTranslatedString (FromUTF8 s) n (domainString FromUTF8 domain) = some r ∧
        (wxd_Translations_GetTranslatedPluralString FromUTF8 (some t) (some s) plural n
          domain buffer buffer_len).1 = toInt r.length) ∨
      (∃ p, t.GetTranslatedString (FromUTF8 s) n (domainString FromUTF8 domain) = none ∧
        plural = some p ∧ n ≠ 1 ∧
        (wxd_Translations_GetTranslatedPluralString FromUTF8 (some t) (some s) plural n
          domain buffer buffer_len).1 = toInt (FromUTF8 p).length)) ∧
    (∀ translations singular,
      (translations = none ∨ singular = none) →
      wxd_Translations_GetTranslatedPluralString FromUTF8 translations singular plural n
        domain buffer buffer_len = (-1, buffer)) := by
  have hdom : (if domainString FromUTF8 domain = [] then [] else domainString FromUTF8 domain) =
      domainString FromUTF8 domain := by
    by_cases h : domainString FromUTF8 domain = []
    · rw [if_pos h, h]
    · rw [if_neg h]
  have h1 : t.GetTranslatedString (FromUTF8 s) n (domainString FromUTF8 domain) = none →
      (plural = none ∨ n = 1) →
      wxd_Translations_GetTranslatedPluralString FromUTF8 (some t) (some s) plural n domain
        buffer buffer_len = (-1, buffer) := by
    intro hl hp
    simp only [wxd_Translations_GetTranslatedPluralString, hdom, hl]
    cases plural with
    | none => rfl
    | some p =>
      rcases hp with hp | hp
      · exact Option.noConfusion hp
      · simp [hp]
  have h2 : ∀ p, t.GetTranslatedString (FromUTF8 s) n (domainString FromUTF8 domain) = none →
      plural = some p → n ≠ 1 →
      wxd_Translations_GetTranslatedPluralString FromUTF8 (some t) (some s) plural n domain
        buffer buffer_len =
        (toInt (FromUTF8 p).length,
          (copy_wxstring_to_buffer (FromUTF8 p) buffer buffer_len).2) := by
    intro p hl hp hn
    simp only [wxd_Translations_GetTranslatedPluralString, hdom, hl, hp, if_pos hn,
      copy_wxstring_to_buffer_fst]
  have h3 : ∀ r, t.GetTranslatedString (FromUTF8 s) n (domainString FromUTF8 domain) = some r →
      wxd_Translations_GetTranslatedPluralString FromUTF8 (some t) (some s) plural n domain
        buffer buffer_len =
        (toInt r.length, (copy_wxstring_to_buffer r buffer buffer_len).2) := by
    intro r hl
    simp only [wxd_Translations_GetTranslatedPluralString, hdom, hl,
      copy_wxstring_to_buffer_fst]
  refine ⟨h1, h2, h3, toInt_length, ?_, ?_⟩
  · intro hnn
    cases hl : t.GetTranslatedString (FromUTF8 s) n (domainString FromUTF8 domain) with
    | some r => exact Or.inl ⟨r, rfl, by rw [h3 r hl]⟩
    | none =>
      cases hp : plural with
      | none =>
        rw [h1 hl (Or.inl hp)] at hnn
        exact absurd hnn (show ¬ (0 : Int) ≤ -1 by decide)
      | some p =>
        by_cases hn : n = 1
        · rw [h1 hl (Or.inr hn)] at hnn
          exact absurd hnn (show ¬ (0 : Int) ≤ -1 by decide)
        · refine Or.inr ⟨p, rfl, rfl, hn, ?_⟩
          rw [← hp, h2 p hl hp hn]
  · intro translations singular hnull
    cases translations with
    | none => rfl
    | some t' =>
      cases singular with
      | none => rfl
      | some s' =>
        rcases hnull with h | h
        · exact Option.noConfusion h
        · exact Option.noConfusion h

/-- C14, as stated, fails when a fallback is given: the sample catalog has no translation for
`x`, and with the plural argument `xs` and the count 2 the call returns 2, not -1; the
string of that length is the `plural` argument, not a string of the catalog. -/
theorem GetTranslatedPluralString_returns_fallback :
    sampleTranslations.GetTranslatedString [120] 2 [] = none ∧
    wxd_Translations_GetTranslatedPluralString (fun b => b) (some sampleTranslations)
      (some [120]) (some [120, 115]) 2 none (some [7, 7, 7, 7]) 4 =
        (2, some [120, 115, 0, 7]) := by
  decide

/-! ## Array strings -/

theorem toInt_natCast (n : Nat) (h : n ≤ 2147483647) : toInt (n : Int) = n := by
  apply toInt_of_fits <;> omega

/-- C15, as the code has it. For an array with at most `INT_MAX` elements,
`wxd_ArrayString_GetString` reads an element exactly when the index is inside `[0, count)`,
and then it is the element at that index; outside that range, and for a null array handle, it
returns -1, reads no element and leaves the buffer alone. For an index inside the range it
returns the UTF-8 length of the element through `(int)`: when that length is at most
`INT_MAX` the result is the length itself, which is not negative. So when all elements are
that short, the result is -1 exactly for an index outside the range, and negative for no
other index. -/
theorem ArrayString_GetString_result (wx_array : List wxString) (index : Int)
    (buffer : CharBuf) (bufferLen : Nat) (hcount : wx_array.length ≤ 2147483647) :
    (wxd_ArrayString_GetString none index buffer bufferLen =
      { ret := -1, buffer := buffer, itemRead := none }) ∧
    ((index < 0 ∨ (wx_array.length : Int) ≤ index) →
      wxd_ArrayString_GetString (some wx_array) index buffer bufferLen =
        { ret := -1, buffer := buffer, itemRead := none }) ∧
    (∀ i : Nat, i < wx_array.length → index = i →
      (wxd_ArrayString_GetString (some wx_array) index buffer bufferLen).itemRead = some i ∧
      (wxd_ArrayString_GetString (some wx_array) index buffer bufferLen).ret =
        toInt (wx_array.getD i []).length ∧
      (wxd_ArrayString_GetString (some wx_array) index buffer bufferLen).buffer =
        (copy_wxstring_to_buffer (wx_array.getD i []) buffer bufferLen).2 ∧
      ((wx_array.getD i []).length ≤ 2147483647 →
        (wxd_ArrayString_GetString (some wx_array) index buffer bufferLen).ret =
          (wx_array.getD i []).length ∧
        0 ≤ (wxd_ArrayString_GetString (some wx_array) index buffer bufferLen).ret)) ∧
    ((∀ s ∈ wx_array, s.length ≤ 2147483647) →
      ((wxd_ArrayString_GetString (some wx_array) index buffer bufferLen).ret = -1 ↔
        (index < 0 ∨ (wx_array.length : Int) ≤ index)) ∧
      ((wxd_ArrayString_GetString (some wx_array) index buffer bufferLen).ret < 0 ↔
        (index < 0 ∨ (wx_array.length : Int) ≤ index))) ∧
    (∀ i, (wxd_ArrayString_GetString (some wx_array) index buffer bufferLen).itemRead = some i →
      i < wx_array.length) := by
  have hcnt : toInt (wx_array.length : Int) = wx_array.length := toInt_natCast _ hcount
  have hout : (index < 0 ∨ (wx_array.length : Int) ≤ index) →
      wxd_ArrayString_GetString (some wx_array) index buffer bufferLen =
        { ret := -1, buffer := buffer, itemRead := none } := by
    intro h
    have h' : index < 0 ∨ index ≥ toInt (wx_array.length : Int) := by
      rw [hcnt]
      exact h
    simp only [wxd_ArrayString_GetString, if_pos h']
  have hin : ∀ i : Nat, i < wx_array.length → index = i →
      wxd_ArrayString_GetString (some wx_array) index buffer bufferLen =
        { ret := toInt (wx_array.getD i []).length,
          buffer := (copy_wxstring_to_buffer (wx_array.getD i []) buffer bufferLen).2,
          itemRead := some i } := by
    intro i hi he
    have h' : ¬ (index < 0 ∨ index ≥ toInt (wx_array.length : Int)) := by
      rw [hcnt]
      omega
    subst he
    simp only [wxd_ArrayString_GetString, if_neg h', Int.toNat_ofNat,
      copy_wxstring_to_buffer_fst]
  refine ⟨rfl, hout, ?_, ?_, ?_⟩
  · intro i hi he
    rw [hin i hi he]
    refine ⟨rfl, rfl, rfl, ?_⟩
    intro hl
    have := toInt_length (wx_array.getD i []) hl
    exact ⟨this, by rw [this]; exact Int.natCast_nonneg _⟩
  · intro hall
    by_cases hr : index < 0 ∨ (wx_array.length : Int) ≤ index
    · rw [hout hr]
      simp [hr]
    · have h0 : 0 ≤ index := by omega
      have hi : index.toNat < wx_array.length := by omega
      have he : index = (index.toNat : Int) := by omega
      have hmem : wx_array.getD index.toNat [] ∈ wx_array := by
        rw [List.getD_eq_getElem _ _ hi]
        exact List.getElem_mem hi
      have hl := toInt_length _ (hall _ hmem)
      rw [hin index.toNat hi he]
      simp only [hl, hr, iff_false]
      constructor <;> omega
  · intro i hread
    by_cases hr : index < 0 ∨ (wx_array.length : Int) ≤ index
    · rw [hout hr] at hread
      exact Option.noConfusion hread
    · have hi : index.toNat < wx_array.length := by omega
      have he : index = (index.toNat : Int) := by omega
      rw [hin index.toNat hi he] at hread
      simp only [Option.some.injEq] at hread
      omega

theorem ArrayString_GetString_result_witness :
    (wxd_ArrayString_GetString (some [[100, 101], [102, 114, 49]]) 1 (some [7, 7, 7]) 3).ret =
      3 :=
  ((ArrayString_GetString_result [[100, 101], [102, 114, 49]] 1 (some [7, 7, 7]) 3
    (by decide)).2.2.1 1 (by decide) rfl).2.2.2 (by decide) |>.1

/-- C15, as stated, fails for an element whose UTF-8 length does not fit an `int`: for an
array whose only element has `2^32 - 1` bytes, the index 0 is inside `[0, count)`, the
element is read, and the call returns -1. -/
theorem ArrayString_GetString_long_element :
    (wxd_ArrayString_GetString (some [List.replicate 4294967295 65]) 0 none 0).ret = -1 ∧
    (wxd_ArrayString_GetString (some [List.replicate 4294967295 65]) 0 none 0).itemRead =
      some 0 ∧
    (0 : Int) < ([List.replicate 4294967295 65] : List wxString).length := by
  have hidx : ¬ ((0 : Int) < 0 ∨ (0 : Int) ≥
      toInt (([List.replicate 4294967295 65] : List wxString).length : Int)) := by
    rw [List.length_singleton]
    decide
  refine ⟨?_, ?_, ?_⟩
  · rw [wxd_ArrayString_GetString]
    simp only [if_neg hidx, copy_wxstring_to_buffer_fst]
    rw [show (0 : Int).toNat = 0 from rfl, List.getD_cons_zero, List.length_replicate]
    decide
  · rw [wxd_ArrayString_GetString]
    simp only [if_neg hidx]
    rfl
  · rw [List.length_singleton]
    decide

/-! ## Available translations -/

/-- The loop over the slots in closed form: the non-null slots of the range it runs over
receive their language, every other slot is as before. -/
theorem fillSlots_apply (langs : List wxString) (string_buffer_len : Nat) (i k : Nat)
    (slots : Slots) (j : Nat) :
    fillSlots langs string_buffer_len i k slots j =
      if i ≤ j ∧ j < i + k then
        (match slots j with
          | some mem =>
            (copy_wxstring_to_buffer (langs.getD j []) (some mem) string_buffer_len).2
          | none => none)
      else slots j := by
  induction k generalizing i slots with
  | zero =>
    have : ¬ (i ≤ j ∧ j < i + 0) := by omega
    rw [if_neg this]
    rfl
  | succ k ih =>
    rw [fillSlots]
    cases hsi : slots i with
    | none =>
      simp only []
      rw [ih]
      by_cases hj : j = i
      · subst hj
        have h1 : ¬ (j + 1 ≤ j ∧ j < j + 1 + k) := by omega
        have h2 : j ≤ j ∧ j < j + (k + 1) := by omega
        rw [if_neg h1, if_pos h2, hsi]
      · by_cases hr : i + 1 ≤ j ∧ j < i + 1 + k
        · have h2 : i ≤ j ∧ j < i + (k + 1) := by omega
          rw [if_pos hr, if_pos h2]
        · have h2 : ¬ (i ≤ j ∧ j < i + (k + 1)) := by omega
          rw [if_neg hr, if_neg h2]
    | some mem =>
      simp only []
      rw [ih]
      by_cases hj : j = i
      · subst hj
        have h1 : ¬ (j + 1 ≤ j ∧ j < j + 1 + k) := by omega
        have h2 : j ≤ j ∧ j < j + (k + 1) := by omega
        rw [if_neg h1, if_pos h2, hsi, Function.update_same]
      · rw [Function.update_noteq hj]
        by_cases hr : i + 1 ≤ j ∧ j < i + 1 + k
        · have h2 : i ≤ j ∧ j < i + (k + 1) := by omega
          rw [if_pos hr, if_pos h2]
        · have h2 : ¬ (i ≤ j ∧ j < i + (k + 1)) := by omega
          rw [if_neg hr, if_neg h2]

theorem toSizeT_natCast (n : Nat) (h : n ≤ 2147483647) : toSizeT (n : Int) = n := by
  unfold toSizeT
  omega

/-- C16, as the code has it. `wxd_Translations_GetAvailableTranslations` returns the number
of available translations, through `(int)`, whatever the buffer arguments are. When there are
at most `INT_MAX` of them and `langs_buffer` is non-null with `buffer_count > 0` and
`string_buffer_len > 0`, it hands the language at index `i` of the list to
`copy_wxstring_to_buffer` for every non-null slot `i` among the first
`min(count, buffer_count)`, and leaves every other slot as it was: null slots in that range,
and all slots from `min(count, buffer_count)` on, so no slot at an index `>= buffer_count`.
When `buffer_count` or `string_buffer_len` is 0 no slot is written. With a null handle or a
null domain it returns 0 and writes nothing. -/
theorem GetAvailableTranslations_result (FromUTF8 : List Nat → wxString) (t : wxTranslations)
    (d : List Nat) (slots : Slots) (buffer_count string_buffer_len : Nat) :
    (∀ langs_buffer langs_buffer' count count' len len',
      (wxd_Translations_GetAvailableTranslations FromUTF8 (some t) (some d) langs_buffer
          count len).1 =
        (wxd_Translations_GetAvailableTranslations FromUTF8 (some t) (some d) langs_buffer'
          count' len').1) ∧
    (∀ langs_buffer,
      (wxd_Translations_GetAvailableTranslations FromUTF8 (some t) (some d) langs_buffer
          buffer_count string_buffer_len).1 =
        toInt (t.GetAvailableTranslations (FromUTF8 d)).length) ∧
    ((t.GetAvailableTranslations (FromUTF8 d)).length ≤ 2147483647 →
      (wxd_Translations_GetAvailableTranslations FromUTF8 (some t) (some d) (some slots)
          buffer_count string_buffer_len).1 =
        (t.GetAvailableTranslations (FromUTF8 d)).length) ∧
    ((t.GetAvailableTranslations (FromUTF8 d)).length ≤ 2147483647 →
      0 < buffer_count → 0 < string_buffer_len →
      ∃ slots',
        (wxd_Translations_GetAvailableTranslations FromUTF8 (some t) (some d) (some slots)
          buffer_count string_buffer_len).2 = some slots' ∧
        ∀ i, slots' i =
          if i < min (t.GetAvailableTranslations (FromUTF8 d)).length buffer_count then
            (match slots i with
              | some mem =>
                (copy_wxstring_to_buffer ((t.GetAvailableTranslations (FromUTF8 d)).getD i [])
                  (some mem) string_buffer_len).2
              | none => none)
          else slots i) ∧
    ((buffer_count = 0 ∨ string_buffer_len = 0) →
      (wxd_Translations_GetAvailableTranslations FromUTF8 (some t) (some d) (some slots)
        buffer_count string_buffer_len).2 = some slots) ∧
    ((wxd_Translations_GetAvailableTranslations FromUTF8 (some t) (some d) none
        buffer_count string_buffer_len).2 = none) ∧
    (∀ translations domain langs_buffer, (translations = none ∨ domain = none) →
      wxd_Translations_GetAvailableTranslations FromUTF8 translations domain langs_buffer
        buffer_count string_buffer_len = (0, langs_buffer)) := by
  have hret : ∀ langs_buffer count len,
      (wxd_Translations_GetAvailableTranslations FromUTF8 (some t) (some d) langs_buffer
          count len).1 = toInt (t.GetAvailableTranslations (FromUTF8 d)).length := by
    intro langs_buffer count len
    simp only [wxd_Translations_GetAvailableTranslations]
    cases langs_buffer with
    | none => rfl
    | some sl =>
      simp only []
      by_cases h : count > 0 ∧ len > 0
      · rw [if_pos h]
      · rw [if_neg h]
  refine ⟨?_, fun lb => hret lb _ _, ?_, ?_, ?_, rfl, ?_⟩
  · intro lb lb' c c' l l'
    rw [hret, hret]
  · intro hlen
    rw [hret, toInt_natCast _ hlen]
  · intro hlen hc hl
    have hcond : buffer_count > 0 ∧ string_buffer_len > 0 := ⟨hc, hl⟩
    refine ⟨fillSlots (t.GetAvailableTranslations (FromUTF8 d)) string_buffer_len 0
        (if toSizeT (toInt (t.GetAvailableTranslations (FromUTF8 d)).length) < buffer_count then
          toSizeT (toInt (t.GetAvailableTranslations (FromUTF8 d)).length)
        else buffer_count) slots,
      by simp only [wxd_Translations_GetAvailableTranslations, if_pos hcond], ?_⟩
    intro i
    rw [fillSlots_apply, toInt_natCast _ hlen, toSizeT_natCast _ hlen]
    by_cases hlt : (t.GetAvailableTranslations (FromUTF8 d)).length < buffer_count
    · rw [if_pos hlt, Nat.min_eq_left (Nat.le_of_lt hlt)]
      simp only [Nat.zero_le, true_and, Nat.zero_add]
    · rw [if_neg hlt, Nat.min_eq_right (Nat.le_of_not_lt hlt)]
      simp only [Nat.zero_le, true_and, Nat.zero_add]
  · intro h0
    have hcond : ¬ (buffer_count > 0 ∧ string_buffer_len > 0) := by omega
    simp only [wxd_Translations_GetAvailableTranslations, if_neg hcond]
  · intro translations domain langs_buffer hnull
    cases translations with
    | none => rfl
    | some t' =>
      cases domain with
      | none => rfl
      | some d' =>
        rcases hnull with h | h
        · exact Option.noConfusion h
        · exact Option.noConfusion h

/-- C16, as stated, fails when `string_buffer_len` is 0: with three languages available, a
non-null `langs_buffer` and `buffer_count = 3`, the call returns 3 and writes no slot, so
slot 0 still holds the bytes it held before instead of the first language. It also fails
for a null slot: with `string_buffer_len = 8` the slots 0 and 2 receive the first and the
third language, and slot 1, a null pointer among the first three, receives nothing. -/
theorem GetAvailableTranslations_writes_nothing_for_zero_length :
    (wxd_Translations_GetAvailableTranslations (fun b => b) (some sampleTranslations)
      (some [97]) (some sampleSlots) 3 0).1 = 3 ∧
    (wxd_Translations_GetAvailableTranslations (fun b => b) (some sampleTranslations)
      (some [97]) (some sampleSlots) 3 0).2 = some sampleSlots ∧
    sampleSlots 0 = some [7, 7, 7, 7, 7, 7, 7, 7] ∧
    ((wxd_Translations_GetAvailableTranslations (fun b => b) (some sampleTranslations)
      (some [97]) (some sampleSlots) 3 8).2.map (fun slots => (slots 0, slots 1, slots 2))) =
      some (some [100, 101, 0, 7, 7, 7, 7, 7], none, some [105, 116, 0, 7, 7, 7, 7, 7]) := by
  refine ⟨by decide, ?_, by decide, by decide⟩
  rfl

end Wxd
